import Mathlib

set_option linter.dupNamespace false
set_option linter.unusedSectionVars false

/-! # D2SLAM back-end: marginalization and pose-graph optimisation

A shallow embedding of `d2vins/src/estimator/marginalize.cpp` (namespace `D2VINS`) and
`d2pgo/src/d2pgo.cpp` (namespace `D2PGO`), followed by theorems about the embedded code.

Conventions of the embedding:
* raw parameter pointers (`state_type*`) are natural-number addresses;
* `std::map<K, V>` is an association list kept sorted by key, `operator[]=` is `mapInsert`
  and `.at` is `mapAt`, which yields `none` where the C++ throws;
* frame, landmark and agent ids are integers; sizes and indices are natural numbers;
* floating point is replaced by exact arithmetic in a field.
-/

namespace CppStd

/-! ## std::map and std::set as key-sorted lists -/

/-- The assignment `m[k] = v` on a key-sorted association list: overwrite or ordered insert. -/
def mapInsert {κ V : Type} [LinearOrder κ] (k : κ) (v : V) : List (κ × V) → List (κ × V)
  | [] => [(k, v)]
  | (k0, v0) :: rest =>
      if k < k0 then (k, v) :: (k0, v0) :: rest
      else if k = k0 then (k, v) :: rest
      else (k0, v0) :: mapInsert k v rest

/-- The lookup `m.at(k)` or `m.find(k)`: `none` stands for the `std::out_of_range` exception,
respectively for `m.end()`. -/
def mapAt {κ V : Type} [DecidableEq κ] (k : κ) : List (κ × V) → Option V
  | [] => none
  | (k0, v0) :: rest => if k = k0 then some v0 else mapAt k rest

/-- In-place update through the reference `m.at(k)` or `m[k]` of an existing entry. -/
def mapModify {κ V : Type} [DecidableEq κ] (k : κ) (f : V → V) : List (κ × V) → List (κ × V)
  | [] => []
  | (k0, v0) :: rest =>
      if k = k0 then (k0, f v0) :: rest else (k0, v0) :: mapModify k f rest

/-- The call `s.insert(k)` on a `std::set` kept as a strictly increasing list. -/
def setInsert {κ : Type} [LinearOrder κ] (k : κ) : List κ → List κ
  | [] => [k]
  | k0 :: rest =>
      if k < k0 then k :: k0 :: rest
      else if k = k0 then k0 :: rest
      else k0 :: setInsert k rest

end CppStd

namespace D2VINS

open CppStd

/-! ## Data model of the marginalizer -/

/-- Semantic kind of a raw parameter block (`ParamsType`). -/
inductive ParamsType where
  | POSE
  | SPEED_BIAS
  | LANDMARK
  | EXTRINSIC
  | TD
  deriving DecidableEq, Repr

/-- Record describing one raw parameter block. The declaration lives in `marginalize.hpp`;
the fields are those read and written by `marginalize.cpp`. -/
structure ParamInfo where
  /-- Address of the block. -/
  pointer : Nat
  /-- Column offset on the tangent space, assigned by `sortParams`. -/
  index : Nat
  /-- Ambient size. -/
  size : Nat
  /-- Tangent-space size. -/
  eff_size : Nat
  is_remove : Bool
  type : ParamsType
  /-- Frame id for poses and speed-biases, landmark id for landmarks, camera id otherwise. -/
  id : Int
  deriving DecidableEq, Repr

/-- One residual block. `relavant`, `paramsList(state)` and `residualSize()` are virtual
methods declared in `marginalize.hpp`; each residual carries their results. -/
structure ResidualInfo where
  relavant : List Int → Bool
  paramsList : List ParamInfo
  residualSize : Nat

/-- The fields of `Marginalizer` used by `filterResiduals`, `sortParams` and `marginalize`. -/
structure Marginalizer where
  residual_info_list : List ResidualInfo
  remove_frame_ids : List Int
  _params : List (Nat × ParamInfo)
  params_list : List ParamInfo

/-! ## filterResiduals -/

/-- The body of the inner loop of `filterResiduals` that decides the flag written to
`param.is_remove` (lines 89-100). The landmark branch declares a second, inner `is_remove`
and assigns to that one; the outer variable, which is the one stored, is not touched there. -/
def paramIsRemove (getLandmarkBaseFrame : Int → Int) (remove_frame_ids : List Int)
    (param : ParamInfo) : Bool :=
  let is_remove := false
  let is_remove :=
    if (param.type = ParamsType.POSE ∨ param.type = ParamsType.SPEED_BIAS)
        ∧ param.id ∈ remove_frame_ids then true else is_remove
  if param.type = ParamsType.LANDMARK then
    let base_frame_id := getLandmarkBaseFrame param.id
    let is_remove_inner := false
    let _is_remove_inner := if base_frame_id ∈ remove_frame_ids then true else is_remove_inner
    is_remove
  else
    is_remove

/-- The loop `for (auto param : param_list)` of `filterResiduals`: each parameter gets its
flag and is written to `_params[param.pointer]`. -/
def recordParams (getLandmarkBaseFrame : Int → Int) (remove_frame_ids : List Int) :
    List ParamInfo → List (Nat × ParamInfo) → List (Nat × ParamInfo)
  | [], _params => _params
  | param :: rest, _params =>
      let param := { param with
        is_remove := paramIsRemove getLandmarkBaseFrame remove_frame_ids param }
      recordParams getLandmarkBaseFrame remove_frame_ids rest
        (mapInsert param.pointer param _params)

/-- The outer loop of `filterResiduals` over `residual_info_list`, with the list of retained
residuals, the running `eff_residual_size` and `_params` as loop state. -/
def filterLoop (getLandmarkBaseFrame : Int → Int) (remove_frame_ids : List Int) :
    List ResidualInfo → Nat → List (Nat × ParamInfo) →
      List ResidualInfo × Nat × List (Nat × ParamInfo)
  | [], eff_residual_size, _params => ([], eff_residual_size, _params)
  | info :: rest, eff_residual_size, _params =>
      if info.relavant remove_frame_ids then
        let out := filterLoop getLandmarkBaseFrame remove_frame_ids rest
          (eff_residual_size + info.residualSize)
          (recordParams getLandmarkBaseFrame remove_frame_ids info.paramsList _params)
        (info :: out.1, out.2.1, out.2.2)
      else
        filterLoop getLandmarkBaseFrame remove_frame_ids rest eff_residual_size _params

/-- `Marginalizer::filterResiduals`: returns the updated object and `eff_residual_size`. -/
def filterResiduals (getLandmarkBaseFrame : Int → Int) (m : Marginalizer) :
    Marginalizer × Nat :=
  let out := filterLoop getLandmarkBaseFrame m.remove_frame_ids m.residual_info_list 0 m._params
  ({ m with residual_info_list := out.1, _params := out.2.2 }, out.2.1)

/-! ## sortParams -/

/-- What `std::sort` with the comparator `a.is_remove < b.is_remove` guarantees: the result
is a rearrangement of the input in which no removed parameter stands before a kept one.
The order among parameters with equal flags is unspecified. -/
def IsStdSort (sort : List ParamInfo → List ParamInfo) : Prop :=
  ∀ l, (sort l).Perm l ∧
    (sort l).Pairwise (fun a b => ¬ (b.is_remove = false ∧ a.is_remove = true))

/-- One admissible behaviour of the `std::sort` call: kept parameters, then removed ones,
each group in its previous order. -/
def sortByRemove (l : List ParamInfo) : List ParamInfo :=
  l.filter (fun p => !p.is_remove) ++ l.filter (fun p => p.is_remove)

/-- The indexing loop of `sortParams` (lines 159-167), with `_params`, `cul_param_size` and
`remove_size` as loop state; `none` when `_params.at` throws. -/
def indexLoop : List ParamInfo → List (Nat × ParamInfo) → Nat → Nat →
    Option (List (Nat × ParamInfo) × Nat × Nat)
  | [], _params, cul_param_size, remove_size => some (_params, cul_param_size, remove_size)
  | p :: rest, _params, cul_param_size, remove_size =>
      match mapAt p.pointer _params with
      | none => none
      | some _param =>
          indexLoop rest (mapModify p.pointer (fun v => { v with index := cul_param_size }) _params)
            (cul_param_size + _param.eff_size)
            (if _param.is_remove then remove_size + _param.eff_size else remove_size)

/-- `Marginalizer::sortParams`: returns the updated object and the pair
`(cul_param_size, remove_size)`. -/
def sortParams (sort : List ParamInfo → List ParamInfo) (m : Marginalizer) :
    Option (Marginalizer × (Nat × Nat)) :=
  let params_list := sort (m._params.map Prod.snd)
  match indexLoop params_list m._params 0 0 with
  | none => none
  | some (_params, cul_param_size, remove_size) =>
      some ({ m with _params := _params, params_list := params_list },
        (cul_param_size, remove_size))

/-- Well-formedness of `_params` as the `std::map` that `filterResiduals` fills through
`_params[param.pointer] = param`: the keys increase strictly, and every entry is stored under
its own pointer. -/
def ParamsOk (_params : List (Nat × ParamInfo)) : Prop :=
  (_params.map Prod.fst).Pairwise (fun a b => a < b) ∧ ∀ kv ∈ _params, kv.2.pointer = kv.1

/-- The sum of `eff_size` over the first `i` entries of a parameter list. -/
def prefixSize (params_list : List ParamInfo) (i : Nat) : Nat :=
  ((params_list.take i).map (fun p => p.eff_size)).sum

/-- The index stored in `_params` for the parameter `p` (`_params.at(p.pointer).index`), with
`0` when the pointer has no entry. -/
def storedIndex (_params : List (Nat × ParamInfo)) (p : ParamInfo) : Nat :=
  match mapAt p.pointer _params with
  | some v => v.index
  | none => 0

/-! ## Residual variants used as concrete inputs -/

/-- Modelled from the spec: the residual variant (frame-pair, speed-bias-pair) of `ImuResInfo`,
whose `paramsList` and `relavant` are not in `marginalize.cpp`. The parameter tuple is the one
built in `ImuResInfo::Evaluate`, with a pose of ambient size 7 and tangent size 6 and a
speed-bias of size 9; the residual has 15 rows and is relevant when it touches a removed
frame. The four arguments after the frame ids are the addresses of the blocks. -/
def imuResInfo (frame_ida frame_idb : Int) (pose_a spd_a pose_b spd_b : Nat) : ResidualInfo :=
  { relavant := fun remove_frame_ids =>
      decide (frame_ida ∈ remove_frame_ids) || decide (frame_idb ∈ remove_frame_ids)
    paramsList :=
      [ { pointer := pose_a, index := 0, size := 7, eff_size := 6, is_remove := false,
          type := ParamsType.POSE, id := frame_ida },
        { pointer := spd_a, index := 0, size := 9, eff_size := 9, is_remove := false,
          type := ParamsType.SPEED_BIAS, id := frame_ida },
        { pointer := pose_b, index := 0, size := 7, eff_size := 6, is_remove := false,
          type := ParamsType.POSE, id := frame_idb },
        { pointer := spd_b, index := 0, size := 9, eff_size := 9, is_remove := false,
          type := ParamsType.SPEED_BIAS, id := frame_idb } ]
    residualSize := 15 }

/-- Modelled from the spec: the residual variant (frame-pair, extrinsic, landmark) of
`LandmarkTwoFrameOneCamResInfo`, whose `paramsList` and `relavant` are not in
`marginalize.cpp`. The parameter tuple is the one built in its `Evaluate`, with an
inverse-depth landmark of size 1; the residual has 2 rows and is relevant when it touches a
removed frame. The four arguments after the ids are the addresses of the blocks. -/
def landmarkResInfo (frame_ida frame_idb landmark_id camera_id : Int)
    (pose_a pose_b extrinsic landmark : Nat) : ResidualInfo :=
  { relavant := fun remove_frame_ids =>
      decide (frame_ida ∈ remove_frame_ids) || decide (frame_idb ∈ remove_frame_ids)
    paramsList :=
      [ { pointer := pose_a, index := 0, size := 7, eff_size := 6, is_remove := false,
          type := ParamsType.POSE, id := frame_ida },
        { pointer := pose_b, index := 0, size := 7, eff_size := 6, is_remove := false,
          type := ParamsType.POSE, id := frame_idb },
        { pointer := extrinsic, index := 0, size := 7, eff_size := 6, is_remove := false,
          type := ParamsType.EXTRINSIC, id := camera_id },
        { pointer := landmark, index := 0, size := 1, eff_size := 1, is_remove := false,
          type := ParamsType.LANDMARK, id := landmark_id } ]
    residualSize := 2 }

/-- A marginalizer that holds the given residuals and nothing else. -/
def Marginalizer.ofResiduals (residual_info_list : List ResidualInfo) : Marginalizer :=
  { residual_info_list := residual_info_list, remove_frame_ids := [], _params := [],
    params_list := [] }

/-! ## marginalize -/

/-- The range constructor `std::vector<ParamInfo>(params_list.begin(),
params_list.begin() + keep_state_size)` of line 141: the first `keep_state_size` entries of
`params_list`; `none` when the end iterator lies past `params_list.end()`. -/
def keepParamsList (params_list : List ParamInfo) (keep_state_size : Nat) :
    Option (List ParamInfo) :=
  if keep_state_size ≤ params_list.length then some (params_list.take keep_state_size)
  else none

/-- The parameter bookkeeping of `Marginalizer::marginalize` (lines 114-126 and 141): the
updated object, `eff_residual_size`, `eff_param_size`, `remove_state_size` and the list
handed to the `PriorFactor`. -/
def marginalizeParams (getLandmarkBaseFrame : Int → Int)
    (sort : List ParamInfo → List ParamInfo) (m : Marginalizer)
    (_remove_frame_ids : List Int) :
    Option (Marginalizer × Nat × Nat × Nat × List ParamInfo) :=
  let m := { m with remove_frame_ids := _remove_frame_ids, params_list := [], _params := [] }
  let filtered := filterResiduals getLandmarkBaseFrame m
  match sortParams sort filtered.1 with
  | none => none
  | some (m, (eff_param_size, remove_state_size)) =>
      let keep_state_size := eff_param_size - remove_state_size
      match keepParamsList m.params_list keep_state_size with
      | none => none
      | some keep_params_list =>
          some (m, filtered.2, eff_param_size, remove_state_size, keep_params_list)

section Schur

variable {K : Type} [Field K]

/-- Eigen's `M.block(i0, j0, p, q)`. -/
def block {r c : Nat} (M : Matrix (Fin r) (Fin c) K) (i0 j0 p q : Nat)
    (hi : i0 + p ≤ r) (hj : j0 + q ≤ c) : Matrix (Fin p) (Fin q) K :=
  Matrix.of fun i j =>
    M ⟨i0 + i.val, lt_of_lt_of_le (Nat.add_lt_add_left i.isLt i0) hi⟩
      ⟨j0 + j.val, lt_of_lt_of_le (Nat.add_lt_add_left j.isLt j0) hj⟩

/-- Eigen's `v.segment(i0, len)`. -/
def segment {n : Nat} (v : Fin n → K) (i0 len : Nat) (h : i0 + len ≤ n) : Fin len → K :=
  fun i => v ⟨i0 + i.val, lt_of_lt_of_le (Nat.add_lt_add_left i.isLt i0) h⟩

/-- The linear algebra of `Marginalizer::marginalize` (lines 133-139) on the Jacobian `J`
(`eff_residual_size` by `eff_param_size`) and the vector `residual_vec` returned by
`evaluate`. `inverse` is `Utility::inverse`. The result is the pair `(A, b)` handed to the
`PriorFactor`; `none` when a block or segment leaves its matrix or vector. -/
def marginalizeSchur {R P : Nat}
    (inverse : (n : Nat) → Matrix (Fin n) (Fin n) K → Matrix (Fin n) (Fin n) K)
    (J : Matrix (Fin R) (Fin P) K) (residual_vec : Fin R → K) (remove_state_size : Nat) :
    Option (Matrix (Fin (P - remove_state_size)) (Fin (P - remove_state_size)) K ×
      (Fin (P - remove_state_size) → K)) :=
  if h : remove_state_size ≤ P ∧ P ≤ R then
    let keep_state_size := P - remove_state_size
    have hk : 0 + keep_state_size ≤ P := by omega
    have hr : keep_state_size + remove_state_size ≤ P := by omega
    let H : Matrix (Fin P) (Fin P) K := J.transpose * J
    let H11 := block H 0 0 keep_state_size keep_state_size hk hk
    let H12 := block H 0 keep_state_size keep_state_size remove_state_size hk hr
    let H22 := block H keep_state_size keep_state_size remove_state_size remove_state_size hr hr
    let H22_inv := inverse remove_state_size H22
    let A := H11 - H12 * H22_inv * H12.transpose
    let b := segment residual_vec 0 keep_state_size (by omega)
      - (H12 * H22_inv).mulVec
          (segment residual_vec keep_state_size remove_state_size (by omega))
    some (A, b)
  else none

/-- The matrix `A` of `Marginalizer::marginalize` (lines 133-138) on the Jacobian `J`: the
blocks of `H = Jᵀ J` and `A = H11 - H12 * H22_inv * H12ᵀ`. These lines read `J` only, so the
blocks stay inside `H` as soon as `remove_state_size ≤ eff_param_size`. -/
def marginalizeA {R P : Nat}
    (inverse : (n : Nat) → Matrix (Fin n) (Fin n) K → Matrix (Fin n) (Fin n) K)
    (J : Matrix (Fin R) (Fin P) K) (remove_state_size : Nat) (h : remove_state_size ≤ P) :
    Matrix (Fin (P - remove_state_size)) (Fin (P - remove_state_size)) K :=
  let keep_state_size := P - remove_state_size
  have hk : 0 + keep_state_size ≤ P := by omega
  have hr : keep_state_size + remove_state_size ≤ P := by omega
  let H : Matrix (Fin P) (Fin P) K := J.transpose * J
  let H11 := block H 0 0 keep_state_size keep_state_size hk hk
  let H12 := block H 0 keep_state_size keep_state_size remove_state_size hk hr
  let H22 := block H keep_state_size keep_state_size remove_state_size remove_state_size hr hr
  let H22_inv := inverse remove_state_size H22
  H11 - H12 * H22_inv * H12.transpose

/-- The columns `j0, …, j0 + q - 1` of a matrix, `M.block(0, j0, M.rows(), q)`. -/
def columns {r c : Nat} (M : Matrix (Fin r) (Fin c) K) (j0 q : Nat) (hj : j0 + q ≤ c) :
    Matrix (Fin r) (Fin q) K :=
  Matrix.of fun i j => M i ⟨j0 + j.val, lt_of_lt_of_le (Nat.add_lt_add_left j.isLt j0) hj⟩

/-- The linear least-squares cost whose minimisers the full problem seeks. -/
def fullCost {R P : Nat} (J : Matrix (Fin R) (Fin P) K) (r : Fin R → K) (delta : Fin P → K) :
    K :=
  ∑ i, (J.mulVec delta i + r i) ^ 2

/-- The quadratic cost of a prior `(A, b)` on the kept variables. -/
def priorCost {k : Nat} (A : Matrix (Fin k) (Fin k) K) (b : Fin k → K) (dk : Fin k → K) : K :=
  (1 / 2) * Matrix.dotProduct dk (A.mulVec dk) + Matrix.dotProduct b dk

/-- A point at which a cost attains its minimum. -/
def IsMinimiser {X K : Type} [Preorder K] (f : X → K) (x : X) : Prop :=
  ∀ y, f x ≤ f y

end Schur

/-! ## evaluate -/

section Evaluate

variable {K : Type} [AddCommMonoid K]

/-- What `info->Evaluate(state)` leaves in a residual info: the residual vector
`info->residuals` and the block Jacobians `info->jacobians[blk](i, j)`. -/
structure Evaluated (K : Type) where
  residuals : Nat → K
  jacobians : Nat → Nat → Nat → K

/-- The ways in which `Marginalizer::evaluate` stops without a result: the `exit(1)` of its
bounds check (lines 66-71), the exception of `_params.at`, and an assignment to a segment
that leaves `residual_vec`. -/
inductive EvaluateFault where
  | exit1
  | out_of_range
  | segment
  deriving DecidableEq, Repr

/-- The loop over `j` of lines 62-72 for one row `i` of one block: the triplets pushed, or
the fault of the bounds check. The list argument holds the values that `j` takes. -/
def evaluateCols (J_blk : Nat → Nat → K) (eff_residual_size eff_param_size i0 j0 i : Nat) :
    List Nat → Except EvaluateFault (List (Nat × Nat × K))
  | [] => Except.ok []
  | j :: js =>
      if i0 + i ≥ eff_residual_size ∨ j0 + j ≥ eff_param_size then
        Except.error EvaluateFault.exit1
      else
        match evaluateCols J_blk eff_residual_size eff_param_size i0 j0 i js with
        | Except.error e => Except.error e
        | Except.ok ts => Except.ok ((i0 + i, j0 + j, J_blk i j) :: ts)

/-- The loop over `i` of lines 61-73 for one block with `blk_eff_param_size` tangent
columns. The list argument holds the values that `i` takes. -/
def evaluateRows (J_blk : Nat → Nat → K)
    (eff_residual_size eff_param_size i0 j0 blk_eff_param_size : Nat) :
    List Nat → Except EvaluateFault (List (Nat × Nat × K))
  | [] => Except.ok []
  | i :: is =>
      match evaluateCols J_blk eff_residual_size eff_param_size i0 j0 i
          (List.range blk_eff_param_size) with
      | Except.error e => Except.error e
      | Except.ok ts =>
          match evaluateRows J_blk eff_residual_size eff_param_size i0 j0
              blk_eff_param_size is with
          | Except.error e => Except.error e
          | Except.ok rest => Except.ok (ts ++ rest)

/-- The loop over the parameter blocks of one residual (lines 54-74), from block number
`param_blk_i` on: the column offset `j0` is read from `_params`, the tangent size from the
entry of `paramsList`. -/
def evaluateBlocks (jacobians : Nat → Nat → Nat → K) (_params : List (Nat × ParamInfo))
    (eff_residual_size eff_param_size i0 residual_size : Nat) :
    List ParamInfo → Nat → Except EvaluateFault (List (Nat × Nat × K))
  | [], _ => Except.ok []
  | p :: ps, param_blk_i =>
      match mapAt p.pointer _params with
      | none => Except.error EvaluateFault.out_of_range
      | some entry =>
          match evaluateRows (jacobians param_blk_i) eff_residual_size eff_param_size i0
              entry.index p.eff_size (List.range residual_size) with
          | Except.error e => Except.error e
          | Except.ok ts =>
              match evaluateBlocks jacobians _params eff_residual_size eff_param_size i0
                  residual_size ps (param_blk_i + 1) with
              | Except.error e => Except.error e
              | Except.ok rest => Except.ok (ts ++ rest)

/-- The loop over `residual_info_list` of lines 49-76, from the residual at position `k` on,
with `cul_res_size` and `residual_vec` as loop state. `Evaluate k` is what
`info->Evaluate(state)` computes for the residual at position `k`. -/
def evaluateLoop (Evaluate : Nat → Evaluated K) (_params : List (Nat × ParamInfo))
    (eff_residual_size eff_param_size : Nat) :
    List ResidualInfo → Nat → Nat → (Nat → K) →
      Except EvaluateFault (List (Nat × Nat × K) × (Nat → K))
  | [], _, _, residual_vec => Except.ok ([], residual_vec)
  | info :: rest, k, cul_res_size, residual_vec =>
      let residual_size := info.residualSize
      if cul_res_size + residual_size > eff_residual_size then
        Except.error EvaluateFault.segment
      else
        let residual_vec := fun r =>
          if cul_res_size ≤ r ∧ r < cul_res_size + residual_size then
            (Evaluate k).residuals (r - cul_res_size)
          else residual_vec r
        match evaluateBlocks (Evaluate k).jacobians _params eff_residual_size eff_param_size
            cul_res_size residual_size info.paramsList 0 with
        | Except.error e => Except.error e
        | Except.ok ts =>
            match evaluateLoop Evaluate _params eff_residual_size eff_param_size rest (k + 1)
                (cul_res_size + residual_size) residual_vec with
            | Except.error e => Except.error e
            | Except.ok out => Except.ok (ts ++ out.1, out.2)

/-- The matrix that `J.setFromTriplets` builds: the entry at `(r, c)` is the sum of the
values of the triplets at that position. -/
def setFromTriplets (triplet_list : List (Nat × Nat × K)) (r c : Nat) : K :=
  ((triplet_list.filter (fun t => t.1 = r ∧ t.2.1 = c)).map (fun t => t.2.2)).sum

/-- `Marginalizer::evaluate` (lines 41-79): the triplet list from which `J` is set and the
returned `residual_vec`, whose entries hold `uninit` until they are assigned. -/
def evaluate (Evaluate : Nat → Evaluated K) (uninit : Nat → K) (m : Marginalizer)
    (eff_residual_size eff_param_size : Nat) :
    Except EvaluateFault (List (Nat × Nat × K) × (Nat → K)) :=
  evaluateLoop Evaluate m._params eff_residual_size eff_param_size m.residual_info_list 0 0
    uninit

/-- The row offset of the residual at position `k`: the sum of `residualSize` of the
residuals before it. -/
def rowOffset (infos : List ResidualInfo) (k : Nat) : Nat :=
  ((infos.take k).map (fun info => info.residualSize)).sum

/-- The contribution of one block Jacobian placed at row `i0` and column `j0` to the entry
`(r, c)`: the entries `J_blk(i, j)` with `i < rows`, `j < cols` that land on `(r, c)`. -/
def blockEntry (J_blk : Nat → Nat → K) (i0 j0 rows cols r c : Nat) : K :=
  ((List.range rows).map (fun i =>
    ((List.range cols).map (fun j =>
      if i0 + i = r ∧ j0 + j = c then J_blk i j else 0)).sum)).sum

/-- The contribution of one residual placed at the row offset `row0` to the entry `(r, c)`:
the sum over its parameter blocks `b` of the block Jacobian of `b` placed at the column
`_params[ptr].index` and restricted to its first `eff_size` columns. -/
def residualEntry (jacobians : Nat → Nat → Nat → K) (_params : List (Nat × ParamInfo))
    (info : ResidualInfo) (row0 r c : Nat) : K :=
  ((List.range info.paramsList.length).map (fun b =>
    match info.paramsList[b]? with
    | none => 0
    | some p =>
        blockEntry (jacobians b) row0 (storedIndex _params p) info.residualSize p.eff_size
          r c)).sum

/-- The assembly rule in words: the entry `(r, c)` of `J` is the sum, over the residuals `k`
of the list, of the contribution of residual `k` placed at its row offset. -/
def assembledJacobian (Evaluate : Nat → Evaluated K) (_params : List (Nat × ParamInfo))
    (infos : List ResidualInfo) (r c : Nat) : K :=
  ((List.range infos.length).map (fun k =>
    match infos[k]? with
    | none => 0
    | some info =>
        residualEntry (Evaluate k).jacobians _params info (rowOffset infos k) r c)).sum

/-- The concatenation of the residual vectors in list order, from position `k` on. -/
def concatResiduals (Evaluate : Nat → Evaluated K) : List ResidualInfo → Nat → List K
  | [], _ => []
  | info :: rest, k =>
      (List.range info.residualSize).map (Evaluate k).residuals
        ++ concatResiduals Evaluate rest (k + 1)

/-- Lines 114-131 of `Marginalizer::marginalize`: `filterResiduals`, `sortParams` and the
call of `evaluate` with the sizes they return; `none` when `sortParams` throws. -/
def marginalizeEvaluate (getLandmarkBaseFrame : Int → Int)
    (sort : List ParamInfo → List ParamInfo) (Evaluate : Nat → Evaluated K)
    (uninit : Nat → K) (m : Marginalizer) (_remove_frame_ids : List Int) :
    Option (Except EvaluateFault (List (Nat × Nat × K) × (Nat → K))) :=
  let m := { m with remove_frame_ids := _remove_frame_ids, params_list := [], _params := [] }
  let filtered := filterResiduals getLandmarkBaseFrame m
  match sortParams sort filtered.1 with
  | none => none
  | some (m, (eff_param_size, _)) =>
      some (evaluate Evaluate uninit m filtered.2 eff_param_size)

/-- A marginalizer for examples as `sortParams` leaves it: a first residual with two rows on
the blocks at 100 (tangent size 2, column 0) and 200 (tangent size 1, column 2), and a second
residual with one row on the block at 200. -/
def exampleSorted : Marginalizer :=
  { residual_info_list :=
      [ { relavant := fun _ => true
          paramsList :=
            [ { pointer := 100, index := 0, size := 2, eff_size := 2, is_remove := false,
                type := ParamsType.EXTRINSIC, id := 0 },
              { pointer := 200, index := 0, size := 1, eff_size := 1, is_remove := true,
                type := ParamsType.TD, id := 0 } ]
          residualSize := 2 },
        { relavant := fun _ => true
          paramsList :=
            [ { pointer := 200, index := 0, size := 1, eff_size := 1, is_remove := true,
                type := ParamsType.TD, id := 0 } ]
          residualSize := 1 } ]
    remove_frame_ids := []
    _params :=
      [ (100, { pointer := 100, index := 0, size := 2, eff_size := 2, is_remove := false,
                type := ParamsType.EXTRINSIC, id := 0 }),
        (200, { pointer := 200, index := 2, size := 1, eff_size := 1, is_remove := true,
                type := ParamsType.TD, id := 0 }) ]
    params_list := [] }

/-- Residuals and Jacobians for examples over the integers: residual `k` has the entries
`10 k + i`, and its block `b` has the entries `100 k + 10 b + 3 i + j + 1`. -/
def exampleEvaluate (k : Nat) : Evaluated Int :=
  { residuals := fun i => 10 * k + i
    jacobians := fun b i j => 100 * k + 10 * b + 3 * i + j + 1 }

end Evaluate

end D2VINS

namespace D2PGO

open CppStd

/-! ## Data model of the pose-graph engine

The engine is generic in the scalar field `K` (standing for `double`) and in the pose type
`P` (standing for `Swarm::Pose`), which carries the group structure of rigid motions. -/

/-- The optimisation mode, with the enumerators in declaration order. -/
inductive PGO_MODE where
  | PGO_MODE_NON_DIST
  | PGO_MODE_DISTRIBUTED_AROCK
  deriving DecidableEq, Repr

/-- The integer value of an enumerator, used by the comparisons `config.mode >= ...`. -/
def PGO_MODE.toNat : PGO_MODE → Nat
  | PGO_MODE.PGO_MODE_NON_DIST => 0
  | PGO_MODE.PGO_MODE_DISTRIBUTED_AROCK => 1

/-- The pose parameterisation. -/
inductive PGO_POSE_DOF where
  | PGO_POSE_4D
  | PGO_POSE_6D
  deriving DecidableEq, Repr

/-- The options of `D2PGOConfig` read by `d2pgo.cpp`. -/
structure D2PGOConfig (K : Type) where
  is_realtime : Bool
  mode : PGO_MODE
  pgo_pose_dof : PGO_POSE_DOF
  min_solve_size : Int
  loop_distance_threshold : K
  enable_pcm : Bool
  enable_ego_motion : Bool
  enable_rotation_initialization : Bool
  min_cov_len : K
  pos_covariance_per_meter : K
  yaw_covariance_per_meter : K
  write_g2o : Bool

/-- A frame (`D2BaseFrame`); `odom_pose` is `odom.pose()`. -/
structure D2BaseFrame (K P : Type) where
  frame_id : Int
  drone_id : Int
  reference_frame_id : Int
  stamp : K
  initial_ego_pose : P
  odom_pose : P

/-- A loop-closure edge (`Swarm::LoopEdge`). -/
structure LoopEdge (K P : Type) where
  id : Int
  keyframe_id_a : Int
  keyframe_id_b : Int
  id_a : Int
  id_b : Int
  relative_pose : P
  sqrt_information : Matrix (Fin 6) (Fin 6) K

/-- A trajectory (`Swarm::DroneTrajectory`): `push` appends `(stamp, pose, frame_id)`. -/
structure DroneTrajectory (K P : Type) where
  drone_id : Int
  is_ego_motion : Bool
  entries : List (K × P × Int)

/-- The call `traj.push(stamp, pose, frame_id)`. -/
def DroneTrajectory.push {K P : Type} (traj : DroneTrajectory K P) (stamp : K) (pose : P)
    (frame_id : Int) : DroneTrajectory K P :=
  { traj with entries := traj.entries ++ [(stamp, pose, frame_id)] }

/-- `Swarm::Pose::DeltaPose(a, b)`: the motion from `a` to `b`. -/
def DeltaPose {P : Type} [Group P] (a b : P) : P := a⁻¹ * b

/-! ### GraphState -/

/-- Modelled from the spec: GraphState, the registry of frames (class `D2PGOState`, whose
source is not part of `d2pgo.cpp`). Frames are indexed by their stable, globally unique
`frame_id` and kept in insertion order. -/
structure GraphState (K P : Type) where
  frames : List (D2BaseFrame K P)

/-- Modelled from the spec: `hasFrame(id)` of GraphState, whether a frame with this id is
registered. -/
def GraphState.hasFrame {K P : Type} (s : GraphState K P) (frame_id : Int) : Bool :=
  s.frames.any (fun f => f.frame_id == frame_id)

/-- Modelled from the spec: `hasDrone(agent)` of GraphState, whether the agent already has
frames. -/
def GraphState.hasDrone {K P : Type} (s : GraphState K P) (drone_id : Int) : Bool :=
  s.frames.any (fun f => f.drone_id == drone_id)

/-- Modelled from the spec: `getFrames(agent)` of GraphState, the frames of one agent in
insertion order. -/
def GraphState.getFrames {K P : Type} (s : GraphState K P) (drone_id : Int) :
    List (D2BaseFrame K P) :=
  s.frames.filter (fun f => f.drone_id == drone_id)

/-- Modelled from the spec: `getFramebyId(id)` of GraphState, the lookup by stable id; `none`
is the null pointer. -/
def GraphState.getFramebyId {K P : Type} (s : GraphState K P) (frame_id : Int) :
    Option (D2BaseFrame K P) :=
  s.frames.find? (fun f => f.frame_id == frame_id)

/-- Modelled from the spec: `addFrame(Frame)` of GraphState. A frame whose id is already
registered is rejected without effect (the duplicate frame id input rejection); otherwise
the frame is registered after the existing ones. -/
def GraphState.addFrame {K P : Type} (s : GraphState K P) (frame : D2BaseFrame K P) :
    GraphState K P :=
  if s.hasFrame frame.frame_id then s else { frames := s.frames ++ [frame] }

/-- Modelled from the spec: `size(agent)` of GraphState, the number of frames of the agent. -/
def GraphState.size {K P : Type} (s : GraphState K P) (drone_id : Int) : Nat :=
  (s.getFrames drone_id).length

/-- Modelled from the spec: `headId(agent)` of GraphState, the id of the head (first) frame of
the agent; `none` when the agent has no frame. -/
def GraphState.headId {K P : Type} (s : GraphState K P) (drone_id : Int) : Option Int :=
  (s.getFrames drone_id).head?.map (fun f => f.frame_id)

/-- Modelled from the spec: `availableDrones()` of GraphState, the set of agents that own a
frame. -/
def GraphState.availableDrones {K P : Type} (s : GraphState K P) : List Int :=
  s.frames.foldl (fun acc f => setInsert f.drone_id acc) []

/-- Modelled from the spec: `getPoseState(id)` of GraphState, the stable raw parameter block of
a frame. A block is identified with the id of its frame. -/
def GraphState.getPoseState {K P : Type} (_s : GraphState K P) (frame_id : Int) : Int :=
  frame_id

/-- Modelled from the spec: `syncFromState()` of GraphState, re-packing the raw buffers into
the typed poses. The model keeps a single copy of every pose, so nothing is left to do. -/
def GraphState.syncFromState {K P : Type} (s : GraphState K P) : GraphState K P := s

/-! ### Solver adapter -/

/-- The adapter behind `SolverWrapper *`. -/
inductive SolverKind where
  | CeresSolver
  | ARockPGO
  deriving DecidableEq, Repr

/-- The manifold installed on a pose block: `PosAngleManifold` through `SetManifold`, or
`PoseLocalParameterization` through `SetParameterization`. -/
inductive PoseManifold where
  | PosAngleManifold
  | PoseLocalParameterization
  deriving DecidableEq, Repr

/-- The record made by `RelPoseResInfo::create(factor, loss, frame_ida, frame_idb, is_4d)`;
`factor_4d` tells whether the factor came from `RelPoseFactor4D::Create`, and `loop` is the
edge the factor was created from. -/
structure RelPoseResInfo (K P : Type) where
  loop : LoopEdge K P
  factor_4d : Bool
  frame_ida : Int
  frame_idb : Int
  is_4d : Bool

/-- What the engine does to a `ceres::Problem`: the manifolds installed and the blocks set
constant, both in call order. -/
structure Problem where
  manifolds : List (Int × PoseManifold)
  constant_blocks : List Int
  deriving DecidableEq, Repr

/-- A solver: its kind, the residuals registered through `addResidual` in call order, and
its problem (`getProblem()`). -/
structure SolverWrapper (K P : Type) where
  kind : SolverKind
  residuals : List (RelPoseResInfo K P)
  problem : Problem

/-- The call `solver->addResidual(res_info)`. -/
def SolverWrapper.addResidual {K P : Type} (solver : SolverWrapper K P)
    (res_info : RelPoseResInfo K P) : SolverWrapper K P :=
  { solver with residuals := solver.residuals ++ [res_info] }

/-- A solver as constructed by `new CeresSolver(...)` or `new ARockPGO(...)`. -/
def SolverWrapper.create {K P : Type} (kind : SolverKind) : SolverWrapper K P :=
  { kind := kind, residuals := [], problem := { manifolds := [], constant_blocks := [] } }

/-- The call `resetResiduals()` on a reused distributed solver: the accumulated residuals are
cleared. -/
def SolverWrapper.resetResiduals {K P : Type} (solver : SolverWrapper K P) :
    SolverWrapper K P :=
  { solver with residuals := [] }

/-- Collaborators of the engine that live outside `d2pgo.cpp`. -/
structure External (K P : Type) where
  /-- The norm of the translation of a pose, `pose.pos().norm()`. -/
  posNorm : P → K
  /-- The yaw-only variant `Swarm::Pose::DeltaPose(a, b, true)`. -/
  deltaPoseYawOnly : P → P → P
  /-- The scalar square root behind `cwiseSqrt`. -/
  sqrt : K → K
  /-- The matrix inverse behind `cov.inverse()`. -/
  inverse6 : Matrix (Fin 6) (Fin 6) K → Matrix (Fin 6) (Fin 6) K
  /-- A default-constructed `D2BaseFrame`. -/
  default_frame : D2BaseFrame K P
  /-- The fields that the constructor `LoopEdge(id_a, id_b, pose, sqrt_info)` does not take
  from its arguments. -/
  default_loop : LoopEdge K P
  /-- The PCM filter `rejection.OutlierRejectionLoopEdges`. -/
  outlierRejection : List (LoopEdge K P) → List (LoopEdge K P)
  /-- The rotation initialisation: graph state, loops and fixed frame id to graph state. -/
  rotationInitialization : GraphState K P → List (LoopEdge K P) → Int → GraphState K P
  /-- The query `problem.HasParameterBlock(pointer)` on the problem of a solver. -/
  hasParameterBlock : SolverWrapper K P → Int → Bool
  /-- The call `solver->solve()`, which rewrites the pose estimates. -/
  solverSolve : SolverWrapper K P → GraphState K P → SolverWrapper K P × GraphState K P

/-- The engine `D2PGO`. `solver = none` is the null pointer; `postsolve_calls` and
`g2o_writes` count the invocations of the post-solve callback and of `saveG2O`. -/
structure D2PGO (K P : Type) where
  config : D2PGOConfig K
  self_id : Int
  main_id : Int
  state : GraphState K P
  all_loops : List (LoopEdge K P)
  used_loops : List (LoopEdge K P)
  used_loops_count : Nat
  used_frames : List Int
  ego_motion_trajs : List (Int × DroneTrajectory K P)
  updated : Bool
  solver : Option (SolverWrapper K P)
  solve_count : Nat
  has_postsolve_callback : Bool
  postsolve_calls : Nat
  g2o_writes : Nat

/-! ## Operations of the engine -/

section Operations

variable {K P : Type} [LinearOrderedField K] [Group P]

/-- `D2PGO::addFrame` (lines 11-30). -/
def addFrame (self : D2PGO K P) (frame : D2BaseFrame K P) : D2PGO K P :=
  let frame :=
    if self.config.is_realtime && self.state.hasDrone frame.drone_id then
      -- `.back()` of the agent's frames; the list is not empty when `hasDrone` holds
      match (self.state.getFrames frame.drone_id).getLast? with
      | some last =>
          let ego_motion := frame.initial_ego_pose
          let cur_est_last_frame := last.odom_pose
          let ego_motion_last_frame := last.initial_ego_pose
          let pose := cur_est_last_frame * DeltaPose ego_motion_last_frame ego_motion
          { frame with odom_pose := pose }
      | none => frame
    else frame
  let state := self.state.addFrame frame
  let ego_motion_trajs :=
    if (mapAt frame.drone_id self.ego_motion_trajs).isNone then
      mapInsert frame.drone_id
        { drone_id := frame.drone_id, is_ego_motion := true, entries := [] }
        self.ego_motion_trajs
    else self.ego_motion_trajs
  let ego_motion_trajs :=
    mapModify frame.drone_id
      (fun traj => traj.push frame.stamp frame.initial_ego_pose frame.frame_id)
      ego_motion_trajs
  { self with state := state, updated := true, ego_motion_trajs := ego_motion_trajs }

/-- `D2PGO::addLoop` (lines 32-69). -/
def addLoop (ext : External K P) (self : D2PGO K P) (loop_info : LoopEdge K P)
    (add_state_by_loop : Bool) : D2PGO K P :=
  if ext.posNorm loop_info.relative_pose > self.config.loop_distance_threshold then self
  else
    let self := { self with
      all_loops := self.all_loops ++ [{ loop_info with id := (self.all_loops.length : Int) }] }
    let self :=
      if add_state_by_loop then
        if self.state.hasFrame loop_info.keyframe_id_a
            && !self.state.hasFrame loop_info.keyframe_id_b then
          match self.state.getFramebyId loop_info.keyframe_id_a with
          | some frame_a =>
              addFrame self { ext.default_frame with
                drone_id := loop_info.id_b
                frame_id := loop_info.keyframe_id_b
                reference_frame_id := frame_a.reference_frame_id
                odom_pose := frame_a.odom_pose * loop_info.relative_pose }
          | none => self
        else if !self.state.hasFrame loop_info.keyframe_id_a
            && self.state.hasFrame loop_info.keyframe_id_b then
          match self.state.getFramebyId loop_info.keyframe_id_b with
          | some frame_b =>
              addFrame self { ext.default_frame with
                drone_id := loop_info.id_a
                frame_id := loop_info.keyframe_id_a
                reference_frame_id := frame_b.reference_frame_id
                odom_pose := frame_b.odom_pose * loop_info.relative_pose⁻¹ }
          | none => self
        else self
      else self
    { self with updated := true }

/-- The loop state of the factor set-up: the solver, `used_frames`, `used_loops` and
`used_loops_count`. -/
structure FactorState (K P : Type) where
  solver : SolverWrapper K P
  used_frames : List Int
  used_loops : List (LoopEdge K P)
  used_loops_count : Nat

/-- The body of the loop of `D2PGO::setupLoopFactors` (lines 168-188). -/
def setupLoopFactor (config : D2PGOConfig K) (state : GraphState K P)
    (acc : FactorState K P) (loop : LoopEdge K P) : FactorState K P :=
  let factor_4d := decide (config.pgo_pose_dof = PGO_POSE_DOF.PGO_POSE_4D)
  if state.hasFrame loop.keyframe_id_a && state.hasFrame loop.keyframe_id_b then
    let res_info : RelPoseResInfo K P :=
      { loop := loop, factor_4d := factor_4d, frame_ida := loop.keyframe_id_a,
        frame_idb := loop.keyframe_id_b,
        is_4d := decide (config.pgo_pose_dof = PGO_POSE_DOF.PGO_POSE_4D) }
    { solver := acc.solver.addResidual res_info
      used_frames := setInsert loop.keyframe_id_b (setInsert loop.keyframe_id_a acc.used_frames)
      used_loops_count := acc.used_loops_count + 1
      used_loops := acc.used_loops ++ [loop] }
  else acc

/-- `D2PGO::setupLoopFactors` (lines 164-189). -/
def setupLoopFactors (config : D2PGOConfig K) (state : GraphState K P)
    (acc : FactorState K P) (good_loops : List (LoopEdge K P)) : FactorState K P :=
  good_loops.foldl (setupLoopFactor config state) { acc with used_loops_count := 0 }

/-- The covariance of an ego-motion edge of length `len` (lines 207-210): a zero 6x6 matrix
whose two diagonal 3x3 blocks are then assigned. -/
def egoMotionCov (pos_covariance_per_meter yaw_covariance_per_meter len : K) :
    Matrix (Fin 6) (Fin 6) K :=
  Matrix.of fun i j =>
    if i.val < 3 ∧ j.val < 3 then
      (if i = j then 1 else 0) * pos_covariance_per_meter * len
        + (1 / 2) * (if i = j then 1 else 0) * yaw_covariance_per_meter * len * len
    else if 3 ≤ i.val ∧ 3 ≤ j.val then
      (if i = j then 1 else 0) * yaw_covariance_per_meter * len
    else 0

/-- The square-root information of an ego-motion edge whose relative translation has norm
`len` (lines 203-211): the length is clamped below by `min_cov_len`, then
`cov.inverse().cwiseAbs().cwiseSqrt()`. -/
def egoMotionSqrtInfo (sqrt : K → K)
    (inverse6 : Matrix (Fin 6) (Fin 6) K → Matrix (Fin 6) (Fin 6) K)
    (pos_covariance_per_meter yaw_covariance_per_meter min_cov_len len : K) :
    Matrix (Fin 6) (Fin 6) K :=
  let len := if len < min_cov_len then min_cov_len else len
  let cov := egoMotionCov pos_covariance_per_meter yaw_covariance_per_meter len
  (inverse6 cov).map (fun x => sqrt |x|)

/-- The body of the loop of `D2PGO::setupEgoMotionFactors(solver, drone_id)` (lines 195-224)
for the pair `frame_a = frames[i]`, `frame_b = frames[i + 1]`. -/
def setupEgoMotionFactor (ext : External K P) (config : D2PGOConfig K)
    (acc : FactorState K P) (frame_a frame_b : D2BaseFrame K P) : FactorState K P :=
  let rel_pose :=
    if config.pgo_pose_dof = PGO_POSE_DOF.PGO_POSE_4D then
      ext.deltaPoseYawOnly frame_a.initial_ego_pose frame_b.initial_ego_pose
    else DeltaPose frame_a.initial_ego_pose frame_b.initial_ego_pose
  let len := ext.posNorm rel_pose
  let sqrt_info := egoMotionSqrtInfo ext.sqrt ext.inverse6 config.pos_covariance_per_meter
    config.yaw_covariance_per_meter config.min_cov_len len
  let loop : LoopEdge K P := { ext.default_loop with
    keyframe_id_a := frame_a.frame_id
    keyframe_id_b := frame_b.frame_id
    relative_pose := rel_pose
    sqrt_information := sqrt_info }
  let solver :=
    if config.pgo_pose_dof = PGO_POSE_DOF.PGO_POSE_4D then
      acc.solver.addResidual
        { loop := loop, factor_4d := true, frame_ida := frame_a.frame_id,
          frame_idb := frame_b.frame_id, is_4d := true }
    else if config.pgo_pose_dof = PGO_POSE_DOF.PGO_POSE_6D then
      acc.solver.addResidual
        { loop := loop, factor_4d := false, frame_ida := frame_a.frame_id,
          frame_idb := frame_b.frame_id, is_4d := false }
    else acc.solver
  { acc with
    solver := solver
    used_frames := setInsert frame_b.frame_id (setInsert frame_a.frame_id acc.used_frames)
    used_loops := acc.used_loops ++ [loop] }

/-- The loop `for (int i = 0; i < frames.size() - 1; i ++)` of lines 194-225, started at `i`
with `bound` the value of `frames.size() - 1`. Reading `frames[i]` or `frames[i + 1]` outside
the vector yields `none`. Every iteration that reads inside the vector moves `i` forward by
one position of `frames`, so `fuel = frames.length` never runs out. -/
def egoMotionLoop (ext : External K P) (config : D2PGOConfig K)
    (frames : List (D2BaseFrame K P)) (bound : Nat) :
    Nat → Nat → FactorState K P → Option (FactorState K P)
  | fuel, i, acc =>
      if i < bound then
        match frames.get? i, frames.get? (i + 1) with
        | some frame_a, some frame_b =>
            match fuel with
            | 0 => none
            | fuel + 1 =>
                egoMotionLoop ext config frames bound fuel (i + 1)
                  (setupEgoMotionFactor ext config acc frame_a frame_b)
        | _, _ => none
      else some acc

/-- `D2PGO::setupEgoMotionFactors(solver, drone_id)` (lines 191-226). The bound
`frames.size() - 1` is computed in `size_t`, that is modulo `2 ^ 64`. -/
def setupEgoMotionFactorsOf (ext : External K P) (config : D2PGOConfig K)
    (state : GraphState K P) (acc : FactorState K P) (drone_id : Int) :
    Option (FactorState K P) :=
  let frames := state.getFrames drone_id
  let bound := (frames.length + 2 ^ 64 - 1) % 2 ^ 64
  egoMotionLoop ext config frames bound frames.length 0 acc

/-- `D2PGO::setupEgoMotionFactors(solver)` (lines 228-236). -/
def setupEgoMotionFactors (ext : External K P) (config : D2PGOConfig K) (self_id : Int)
    (state : GraphState K P) (acc : FactorState K P) : Option (FactorState K P) :=
  if config.mode = PGO_MODE.PGO_MODE_NON_DIST then
    state.availableDrones.foldl
      (fun acc drone_id =>
        acc.bind (fun acc => setupEgoMotionFactorsOf ext config state acc drone_id))
      (some acc)
  else if config.mode.toNat ≥ PGO_MODE.PGO_MODE_DISTRIBUTED_AROCK.toNat then
    setupEgoMotionFactorsOf ext config state acc self_id
  else some acc

/-- The loop over `used_frames` of `D2PGO::setStateProperties` (lines 250-260). -/
def installManifolds (config : D2PGOConfig K) (state : GraphState K P)
    (hasParameterBlock : Int → Bool) (used_frames : List Int) (problem : Problem) : Problem :=
  used_frames.foldl
    (fun problem frame_id =>
      let pointer := state.getPoseState frame_id
      if !hasParameterBlock pointer then problem
      else if config.pgo_pose_dof = PGO_POSE_DOF.PGO_POSE_4D then
        { problem with manifolds := problem.manifolds ++ [(pointer, PoseManifold.PosAngleManifold)] }
      else
        { problem with
          manifolds := problem.manifolds ++ [(pointer, PoseManifold.PoseLocalParameterization)] })
    problem

/-- The call `problem.SetParameterBlockConstant(pointer)`. -/
def Problem.SetParameterBlockConstant (problem : Problem) (pointer : Int) : Problem :=
  { problem with constant_blocks := problem.constant_blocks ++ [pointer] }

/-- The loop of lines 270-277: the first frame whose `reference_frame_id` is `main_id` has
its pose block set constant, and the loop is left. -/
def fixFirstReferenced (state : GraphState K P) (main_id : Int) :
    List (D2BaseFrame K P) → Problem → Problem
  | [], problem => problem
  | frame :: rest, problem =>
      if frame.reference_frame_id = main_id then
        problem.SetParameterBlockConstant (state.getPoseState frame.frame_id)
      else fixFirstReferenced state main_id rest problem

/-- `D2PGO::setStateProperties` (lines 238-280) on the problem of a solver; `none` when the
head frame of an agent without frames is asked for. -/
def setStateProperties (self : D2PGO K P) (hasParameterBlock : Int → Bool)
    (problem : Problem) : Option Problem :=
  let problem :=
    installManifolds self.config self.state hasParameterBlock self.used_frames problem
  if self.config.mode = PGO_MODE.PGO_MODE_NON_DIST
      ∨ (self.config.mode.toNat ≥ PGO_MODE.PGO_MODE_DISTRIBUTED_AROCK.toNat
          ∧ self.self_id = self.main_id) then
    match self.state.headId self.self_id with
    | some frame_id =>
        let pointer := self.state.getPoseState frame_id
        some (problem.SetParameterBlockConstant pointer)
    | none => none
  else
    if self.config.mode.toNat ≥ PGO_MODE.PGO_MODE_DISTRIBUTED_AROCK.toNat
        ∧ self.self_id ≠ self.main_id then
      let frames := self.state.getFrames self.self_id
      some (fixFirstReferenced self.state self.main_id frames problem)
    else some problem

/-- The solver that `D2PGO::solve` works on (lines 83-92): a new `CeresSolver` in centralized
mode; in distributed mode a new `ARockPGO` on the first solve and the existing one, with its
residuals reset, afterwards. -/
def solveSolver (self : D2PGO K P) : Option (SolverWrapper K P) :=
  if self.config.mode = PGO_MODE.PGO_MODE_NON_DIST then
    some (SolverWrapper.create SolverKind.CeresSolver)
  else if self.config.mode = PGO_MODE.PGO_MODE_DISTRIBUTED_AROCK then
    match self.solver with
    | none => some (SolverWrapper.create SolverKind.ARockPGO)
    | some solver => some solver.resetResiduals
  else self.solver

/-- The loops of `all_loops` whose two endpoints are frames of GraphState (lines 96-101). -/
def availableLoops (self : D2PGO K P) : List (LoopEdge K P) :=
  self.all_loops.filter (fun loop_info =>
    self.state.hasFrame loop_info.keyframe_id_a
      && self.state.hasFrame loop_info.keyframe_id_b)

/-- Lines 94-107 of `D2PGO::solve`: `used_loops` is cleared and the loop factors are set up,
from the output of the outlier rejection when PCM is enabled. -/
def solveLoopFactors (ext : External K P) (self : D2PGO K P) (solver : SolverWrapper K P) :
    FactorState K P :=
  let available_loops := availableLoops self
  let acc : FactorState K P :=
    { solver := solver, used_frames := self.used_frames, used_loops := [],
      used_loops_count := self.used_loops_count }
  if self.config.enable_pcm then
    setupLoopFactors self.config self.state acc (ext.outlierRejection available_loops)
  else setupLoopFactors self.config self.state acc available_loops

/-- Lines 83-110 of `D2PGO::solve`: the solver with every factor registered; `none` when the
solver is the null pointer or a frame list is read out of bounds. -/
def solveSetup (ext : External K P) (self : D2PGO K P) : Option (FactorState K P) :=
  match solveSolver self with
  | none => none
  | some solver =>
      let acc := solveLoopFactors ext self solver
      if self.config.enable_ego_motion then
        setupEgoMotionFactors ext self.config self.self_id self.state acc
      else some acc

/-- Lines 112-135 of `D2PGO::solve`, after the factors are registered: rotation
initialisation, gauge fixing, the debug sink, the solver run, the callback and the counters;
`none` when the head frame of an agent without frames is asked for. -/
def solveRun (ext : External K P) (self : D2PGO K P) (acc : FactorState K P) :
    Option (Bool × D2PGO K P) :=
  let state : Option (GraphState K P) :=
    if self.config.enable_rotation_initialization then
      (self.state.headId self.self_id).map
        (fun head => ext.rotationInitialization self.state acc.used_loops head)
    else some self.state
  match state with
  | none => none
  | some state =>
    let self := { self with
      state := state, used_frames := acc.used_frames, used_loops := acc.used_loops,
      used_loops_count := acc.used_loops_count }
    let solver : Option (SolverWrapper K P) :=
      if self.config.mode = PGO_MODE.PGO_MODE_NON_DIST then
        (setStateProperties self (ext.hasParameterBlock acc.solver)
          acc.solver.problem).map (fun problem => { acc.solver with problem := problem })
      else some acc.solver
    match solver with
    | none => none
    | some solver =>
      let g2o_writes := if self.config.write_g2o then self.g2o_writes + 1
        else self.g2o_writes
      let solved := ext.solverSolve solver self.state
      let state := solved.2.syncFromState
      let postsolve_calls :=
        if self.has_postsolve_callback then self.postsolve_calls + 1
        else self.postsolve_calls
      some (true, { self with
        state := state, solver := some solved.1, g2o_writes := g2o_writes,
        postsolve_calls := postsolve_calls, solve_count := self.solve_count + 1,
        updated := false })

/-- `D2PGO::solve` (lines 77-136): the returned flag and the engine afterwards; `none` when
the run reads a frame that does not exist. -/
def solve (ext : External K P) (self : D2PGO K P) (force_solve : Bool) :
    Option (Bool × D2PGO K P) :=
  if (decide ((self.state.size self.self_id : Int) < self.config.min_solve_size)
      || !self.updated) && !force_solve then
    some (false, self)
  else
    match solveSetup ext self with
    | none => none
    | some acc => solveRun ext self acc

/-- Accessors of `Swarm::Pose` used by `D2PGO::getOptimizedTrajs`, with attitudes in `Q` and
positions in `V`: `setAtt p q` is the pose `p` after the assignment `p.att() = q`. -/
structure PoseAccess (P Q V : Type) where
  att : P → Q
  att_yaw_only : P → Q
  pos : P → V
  setAtt : P → Q → P

/-- The pose that `D2PGO::getOptimizedTrajs` pushes for a frame (lines 291-297). -/
def optimizedPose {Q V : Type} [Group Q] (access : PoseAccess P Q V) (config : D2PGOConfig K)
    (frame : D2BaseFrame K P) : P :=
  let pose := frame.odom_pose
  if config.pgo_pose_dof = PGO_POSE_DOF.PGO_POSE_4D then
    let ego_pose := frame.initial_ego_pose
    let delta_att := (access.att_yaw_only ego_pose)⁻¹ * access.att ego_pose
    access.setAtt pose (access.att pose * delta_att)
  else pose

/-- `D2PGO::getOptimizedTrajs` (lines 282-302). -/
def getOptimizedTrajs {Q V : Type} [Group Q] (access : PoseAccess P Q V) (self : D2PGO K P) :
    List (Int × DroneTrajectory K P) :=
  self.state.availableDrones.foldl
    (fun trajs drone_id =>
      let trajs := mapInsert drone_id
        { drone_id := drone_id, is_ego_motion := false, entries := [] } trajs
      (self.state.getFrames drone_id).foldl
        (fun trajs frame =>
          if frame.frame_id ∉ self.used_frames then trajs
          else
            mapModify drone_id
              (fun traj =>
                traj.push frame.stamp (optimizedPose access self.config frame) frame.frame_id)
              trajs)
        trajs)
    []

/-- Two graph states hold the same frames, poses apart: the same ids, agents and reference
frames in the same order. -/
def SameFrames (s t : GraphState K P) : Prop :=
  s.frames.map (fun f => (f.frame_id, f.drone_id, f.reference_frame_id))
    = t.frames.map (fun f => (f.frame_id, f.drone_id, f.reference_frame_id))

/-- The rotation initialisation and the solver run write pose estimates only: they neither
add nor drop nor reorder frames. -/
def External.PosesOnly (ext : External K P) : Prop :=
  (∀ state loops head, SameFrames (ext.rotationInitialization state loops head) state) ∧
  (∀ solver state, SameFrames (ext.solverSolve solver state).2 state)

/-- An engine right after construction: no frame, no loop, no solver, nothing used. -/
def IsInitial (self : D2PGO K P) : Prop :=
  self.state.frames = [] ∧ self.all_loops = [] ∧ self.used_loops = [] ∧
  self.used_loops_count = 0 ∧ self.used_frames = [] ∧ self.ego_motion_trajs = [] ∧
  self.solver = none ∧ self.solve_count = 0

/-- The engine states that the public operations `addFrame`, `addLoop` and `solve` reach from
a newly constructed engine. -/
inductive Reachable (ext : External K P) : D2PGO K P → Prop where
  | init (self : D2PGO K P) : IsInitial self → Reachable ext self
  | addFrame (self : D2PGO K P) (frame : D2BaseFrame K P) :
      Reachable ext self → Reachable ext (addFrame self frame)
  | addLoop (self : D2PGO K P) (loop_info : LoopEdge K P) (add_state_by_loop : Bool) :
      Reachable ext self → Reachable ext (addLoop ext self loop_info add_state_by_loop)
  | solve (self next : D2PGO K P) (force_solve ret : Bool) :
      Reachable ext self → solve ext self force_solve = some (ret, next) →
      Reachable ext next

/-- The residuals that a call of `solve` registers with its solver through `addResidual`:
the residuals of the solver after the factor set-up (the solver is new or was reset at the
start of the call), and none when the call stops at the guard or reads a frame that does not
exist. -/
def solveRegistered (ext : External K P) (self : D2PGO K P) (force_solve : Bool) :
    List (RelPoseResInfo K P) :=
  if (decide ((self.state.size self.self_id : Int) < self.config.min_solve_size)
      || !self.updated) && !force_solve then []
  else
    match solveSetup ext self with
    | none => []
    | some acc => acc.solver.residuals

/-- The engine states of `Reachable`, each with the residuals that the calls of `solve` on
the way to it have registered, in registration order. -/
inductive ReachableWith (ext : External K P) :
    D2PGO K P → List (RelPoseResInfo K P) → Prop where
  | init (self : D2PGO K P) : IsInitial self → ReachableWith ext self []
  | addFrame (self : D2PGO K P) (registered : List (RelPoseResInfo K P))
      (frame : D2BaseFrame K P) :
      ReachableWith ext self registered → ReachableWith ext (addFrame self frame) registered
  | addLoop (self : D2PGO K P) (registered : List (RelPoseResInfo K P))
      (loop_info : LoopEdge K P) (add_state_by_loop : Bool) :
      ReachableWith ext self registered →
      ReachableWith ext (addLoop ext self loop_info add_state_by_loop) registered
  | solve (self next : D2PGO K P) (registered : List (RelPoseResInfo K P))
      (force_solve ret : Bool) :
      ReachableWith ext self registered → solve ext self force_solve = some (ret, next) →
      ReachableWith ext next (registered ++ solveRegistered ext self force_solve)

/-! ## A concrete engine for examples -/

/-- Collaborators for running the engine on examples: scalars are rationals and poses are
the translations along a line, so the norm of a translation is its absolute value. The
inverse is the adjugate formula. The square root has no exact rational counterpart; the
identity stands in for it and the examples do not depend on it. -/
def exampleExternal : External ℚ (Multiplicative ℤ) :=
  { posNorm := fun p => |((Multiplicative.toAdd p : ℤ) : ℚ)|
    deltaPoseYawOnly := fun a b => DeltaPose a b
    sqrt := fun x => x
    inverse6 := fun M => M.det⁻¹ • M.adjugate
    default_frame :=
      { frame_id := -1, drone_id := -1, reference_frame_id := -1, stamp := 0,
        initial_ego_pose := 1, odom_pose := 1 }
    default_loop :=
      { id := -1, keyframe_id_a := -1, keyframe_id_b := -1, id_a := -1, id_b := -1,
        relative_pose := 1, sqrt_information := 1 }
    outlierRejection := fun loops => loops
    rotationInitialization := fun state _ _ => state
    hasParameterBlock := fun solver frame_id =>
      solver.residuals.any (fun r => r.frame_ida == frame_id || r.frame_idb == frame_id)
    solverSolve := fun solver state => (solver, state) }

/-- A configuration for examples. -/
def exampleConfig (is_realtime : Bool) (mode : PGO_MODE) : D2PGOConfig ℚ :=
  { is_realtime := is_realtime, mode := mode, pgo_pose_dof := PGO_POSE_DOF.PGO_POSE_4D,
    min_solve_size := 2, loop_distance_threshold := 10, enable_pcm := false,
    enable_ego_motion := true, enable_rotation_initialization := false, min_cov_len := 1 / 10,
    pos_covariance_per_meter := 1 / 100, yaw_covariance_per_meter := 1 / 1000,
    write_g2o := false }

/-- An engine for examples, in the state reached right after construction, holding the given
frames. -/
def exampleEngine (config : D2PGOConfig ℚ) (self_id main_id : Int)
    (frames : List (D2BaseFrame ℚ (Multiplicative ℤ))) : D2PGO ℚ (Multiplicative ℤ) :=
  { config := config, self_id := self_id, main_id := main_id, state := { frames := frames },
    all_loops := [], used_loops := [], used_loops_count := 0, used_frames := [],
    ego_motion_trajs := [], updated := false, solver := none, solve_count := 0,
    has_postsolve_callback := true, postsolve_calls := 0, g2o_writes := 0 }

/-- A frame for examples: its id, agent, reference frame, ego-motion pose and odometry pose;
the stamp is the frame id. -/
def exampleFrame (frame_id drone_id reference_frame_id : Int) (initial_ego_pose odom_pose : ℤ) :
    D2BaseFrame ℚ (Multiplicative ℤ) :=
  { frame_id := frame_id, drone_id := drone_id, reference_frame_id := reference_frame_id,
    stamp := frame_id, initial_ego_pose := Multiplicative.ofAdd initial_ego_pose,
    odom_pose := Multiplicative.ofAdd odom_pose }

/-- A loop for examples between two frames of agent 0, with its relative pose; the id is
the one of a loop that was not inserted yet. -/
def exampleLoop (keyframe_id_a keyframe_id_b : Int) (relative_pose : ℤ) :
    LoopEdge ℚ (Multiplicative ℤ) :=
  { exampleExternal.default_loop with
    keyframe_id_a := keyframe_id_a, keyframe_id_b := keyframe_id_b, id_a := 0, id_b := 0,
    relative_pose := Multiplicative.ofAdd relative_pose }

/-- A centralized engine for examples, ready to solve: agent 0 has frames 1 and 2, and three
loops were added, from 1 to 2, from 2 to the unknown frame 9 and from 2 to 1. -/
def exampleSolveEngine : D2PGO ℚ (Multiplicative ℤ) :=
  { exampleEngine (exampleConfig false PGO_MODE.PGO_MODE_NON_DIST) 0 0
      [exampleFrame 1 0 0 0 0, exampleFrame 2 0 0 1 1] with
    all_loops := [{ exampleLoop 1 2 1 with id := 0 }, { exampleLoop 2 9 1 with id := 1 },
      { exampleLoop 2 1 (-1) with id := 2 }]
    updated := true }

/-- A centralized engine for examples as the public operations build it: from a new engine,
frames 1 and 2 of agent 0 and frame 3 of agent 1 are added. -/
def exampleBuiltEngine : D2PGO ℚ (Multiplicative ℤ) :=
  addFrame
    (addFrame
      (addFrame (exampleEngine (exampleConfig false PGO_MODE.PGO_MODE_NON_DIST) 0 0 [])
        (exampleFrame 1 0 0 0 0))
      (exampleFrame 2 0 0 1 1))
    (exampleFrame 3 1 0 0 0)

/-- Pose accessors for examples on the translations along a line: the whole pose counts as
attitude, its yaw-only part is the identity, and there is no position. -/
def exampleAccess : PoseAccess (Multiplicative ℤ) (Multiplicative ℤ) Unit :=
  { att := fun p => p
    att_yaw_only := fun _ => 1
    pos := fun _ => ()
    setAtt := fun _ q => q }

end Operations

end D2PGO

/-! # Theorems -/

namespace CppStd

section MapLemmas

variable {κ V : Type}

theorem mapAt_mapModify_same [DecidableEq κ] (k : κ) (f : V → V) (m : List (κ × V)) (v : V)
    (h : mapAt k m = some v) : mapAt k (mapModify k f m) = some (f v) := by
  induction m with
  | nil => simp [mapAt] at h
  | cons kv rest ih =>
      obtain ⟨k0, v0⟩ := kv
      by_cases hk : k = k0
      · subst hk
        simp only [mapAt, if_true] at h
        simp only [mapModify, if_true, mapAt]
        cases h
        rfl
      · simp only [mapAt, if_neg hk] at h
        simp only [mapModify, if_neg hk, mapAt]
        exact ih h

theorem mapAt_mapModify_ne [DecidableEq κ] (k k1 : κ) (f : V → V) (m : List (κ × V))
    (h : k1 ≠ k) : mapAt k1 (mapModify k f m) = mapAt k1 m := by
  induction m with
  | nil => rfl
  | cons kv rest ih =>
      obtain ⟨k0, v0⟩ := kv
      by_cases hk : k = k0
      · subst hk
        simp only [mapModify, if_true, mapAt, if_neg h]
      · simp only [mapModify, if_neg hk, mapAt, ih]

theorem mapModify_keys [DecidableEq κ] (k : κ) (f : V → V) (m : List (κ × V)) :
    (mapModify k f m).map Prod.fst = m.map Prod.fst := by
  induction m with
  | nil => rfl
  | cons kv rest ih =>
      obtain ⟨k0, v0⟩ := kv
      by_cases hk : k = k0
      · subst hk
        simp [mapModify]
      · simp [mapModify, hk, ih]

theorem mapAt_of_mem [DecidableEq κ] (m : List (κ × V)) (hnd : (m.map Prod.fst).Nodup)
    (k : κ) (v : V) (h : (k, v) ∈ m) : mapAt k m = some v := by
  induction m with
  | nil => simp at h
  | cons kv rest ih =>
      obtain ⟨k0, v0⟩ := kv
      simp only [List.map_cons, List.nodup_cons] at hnd
      rcases List.mem_cons.mp h with heq | hmem
      · cases heq
        simp [mapAt]
      · have hne : k ≠ k0 := by
          rintro rfl
          exact hnd.1 (List.mem_map.mpr ⟨(k, v), hmem, rfl⟩)
        simp only [mapAt, if_neg hne]
        exact ih hnd.2 hmem

theorem mem_of_mapAt [DecidableEq κ] (m : List (κ × V)) (k : κ) (v : V)
    (h : mapAt k m = some v) : (k, v) ∈ m := by
  induction m with
  | nil => simp [mapAt] at h
  | cons kv rest ih =>
      obtain ⟨k0, v0⟩ := kv
      by_cases hk : k = k0
      · subst hk
        simp only [mapAt, if_true] at h
        cases h
        exact List.mem_cons_self _ _
      · simp only [mapAt, if_neg hk] at h
        exact List.mem_cons_of_mem _ (ih h)

theorem mapAt_mapInsert_same [LinearOrder κ] (k : κ) (v : V) (m : List (κ × V)) :
    mapAt k (mapInsert k v m) = some v := by
  induction m with
  | nil => simp [mapInsert, mapAt]
  | cons kv rest ih =>
      obtain ⟨k0, v0⟩ := kv
      simp only [mapInsert]
      split_ifs with h1 h2
      · simp [mapAt]
      · simp [mapAt]
      · simp only [mapAt, if_neg h2]
        exact ih

theorem mem_mapInsert [LinearOrder κ] (k : κ) (v : V) (m : List (κ × V)) (kv : κ × V)
    (h : kv ∈ mapInsert k v m) : kv = (k, v) ∨ kv ∈ m := by
  induction m with
  | nil =>
      simp only [mapInsert, List.mem_singleton] at h
      exact Or.inl h
  | cons kv0 rest ih =>
      obtain ⟨k0, v0⟩ := kv0
      simp only [mapInsert] at h
      split_ifs at h with h1 h2
      · rcases List.mem_cons.mp h with h | h
        · exact Or.inl h
        · exact Or.inr h
      · rcases List.mem_cons.mp h with h | h
        · exact Or.inl h
        · exact Or.inr (List.mem_cons_of_mem _ h)
      · rcases List.mem_cons.mp h with h | h
        · exact Or.inr (h ▸ List.mem_cons_self _ _)
        · rcases ih h with h | h
          · exact Or.inl h
          · exact Or.inr (List.mem_cons_of_mem _ h)

theorem mapInsert_sorted [LinearOrder κ] (k : κ) (v : V) (m : List (κ × V))
    (hs : (m.map Prod.fst).Pairwise (fun a b => a < b)) :
    ((mapInsert k v m).map Prod.fst).Pairwise (fun a b => a < b) := by
  induction m with
  | nil => simp [mapInsert]
  | cons kv0 rest ih =>
      obtain ⟨k0, v0⟩ := kv0
      simp only [List.map_cons, List.pairwise_cons] at hs
      simp only [mapInsert]
      split_ifs with h1 h2
      · simp only [List.map_cons, List.pairwise_cons]
        refine ⟨?_, hs.1, hs.2⟩
        intro a ha
        rcases List.mem_cons.mp ha with ha | ha
        · exact ha ▸ h1
        · exact lt_trans h1 (hs.1 a ha)
      · subst h2
        simp only [List.map_cons, List.pairwise_cons]
        exact ⟨hs.1, hs.2⟩
      · simp only [List.map_cons, List.pairwise_cons]
        refine ⟨?_, ih hs.2⟩
        intro a ha
        obtain ⟨kv, hkv, rfl⟩ := List.mem_map.mp ha
        rcases mem_mapInsert k v rest kv hkv with h | h
        · subst h
          exact lt_of_le_of_ne (not_lt.mp h1) (Ne.symm h2)
        · exact hs.1 _ (List.mem_map.mpr ⟨kv, h, rfl⟩)

theorem mapAt_mapInsert_ne {κ V : Type} [LinearOrder κ] (k k1 : κ) (v : V)
    (m : List (κ × V)) (h : k1 ≠ k) : mapAt k1 (mapInsert k v m) = mapAt k1 m := by
  induction m with
  | nil => simp [mapInsert, mapAt, h]
  | cons kv rest ih =>
      obtain ⟨k0, v0⟩ := kv
      simp only [mapInsert]
      split_ifs with h1 h2
      · simp [mapAt, h]
      · subst h2
        simp [mapAt, h]
      · simp only [mapAt, ih]

end MapLemmas

end CppStd

namespace D2VINS

open CppStd

theorem prefixSize_zero (pl : List ParamInfo) : prefixSize pl 0 = 0 := by
  simp [prefixSize]

theorem prefixSize_cons_succ (p : ParamInfo) (pl : List ParamInfo) (i : Nat) :
    prefixSize (p :: pl) (i + 1) = p.eff_size + prefixSize pl i := by
  simp [prefixSize]

theorem prefixSize_length (pl : List ParamInfo) :
    prefixSize pl pl.length = (pl.map (fun p => p.eff_size)).sum := by
  simp [prefixSize]

theorem prefixSize_succ (pl : List ParamInfo) :
    ∀ (i : Nat) (p : ParamInfo), pl[i]? = some p →
      prefixSize pl (i + 1) = prefixSize pl i + p.eff_size := by
  induction pl with
  | nil => intro i p h; simp at h
  | cons q rest ih =>
      intro i p h
      cases i with
      | zero =>
          simp only [List.getElem?_cons_zero, Option.some.injEq] at h
          subst h
          simp [prefixSize]
      | succ i =>
          simp only [List.getElem?_cons_succ] at h
          rw [prefixSize_cons_succ, prefixSize_cons_succ, ih i p h, Nat.add_assoc]

theorem prefixSize_mono (pl : List ParamInfo) :
    ∀ (i j : Nat), i ≤ j → prefixSize pl i ≤ prefixSize pl j := by
  induction pl with
  | nil => intro i j _; simp [prefixSize]
  | cons q rest ih =>
      intro i j hij
      cases i with
      | zero => simp [prefixSize]
      | succ i =>
          cases j with
          | zero => omega
          | succ j =>
              rw [prefixSize_cons_succ, prefixSize_cons_succ]
              exact Nat.add_le_add_left (ih i j (by omega)) _

theorem prefixSize_le_total (pl : List ParamInfo) (i : Nat) :
    prefixSize pl i ≤ (pl.map (fun p => p.eff_size)).sum := by
  rcases Nat.le_total i pl.length with h | h
  · rw [← prefixSize_length]
    exact prefixSize_mono pl i pl.length h
  · simp [prefixSize, List.take_of_length_le h]

/-- The indexing loop succeeds on a list of distinct parameters that are all stored in the
map, and assigns running sums of `eff_size` as indices. -/
theorem indexLoop_spec (pl : List ParamInfo) :
    ∀ (mp : List (Nat × ParamInfo)) (cul rem : Nat),
      (pl.map (fun p => p.pointer)).Nodup →
      (∀ p ∈ pl, ∃ n, mapAt p.pointer mp = some { p with index := n }) →
      ∃ mp1, indexLoop pl mp cul rem
          = some (mp1, cul + (pl.map (fun p => p.eff_size)).sum,
              rem + ((pl.filter (fun p => p.is_remove)).map (fun p => p.eff_size)).sum) ∧
        (∀ (i : Nat) (p : ParamInfo), pl[i]? = some p →
          mapAt p.pointer mp1 = some { p with index := cul + prefixSize pl i }) ∧
        (∀ k, (∀ p ∈ pl, p.pointer ≠ k) → mapAt k mp1 = mapAt k mp) ∧
        mp1.map Prod.fst = mp.map Prod.fst := by
  induction pl with
  | nil =>
      intro mp cul rem _ _
      exact ⟨mp, by simp [indexLoop], by simp, fun _ _ => rfl, rfl⟩
  | cons q rest ih =>
      intro mp cul rem hnd hin
      simp only [List.map_cons, List.nodup_cons] at hnd
      obtain ⟨n, hq⟩ := hin q (List.mem_cons_self _ _)
      have hne : ∀ p ∈ rest, p.pointer ≠ q.pointer := by
        intro p hp heq
        exact hnd.1 (List.mem_map.mpr ⟨p, hp, heq⟩)
      have hin1 : ∀ p ∈ rest, ∃ n, mapAt p.pointer
          (mapModify q.pointer (fun v => { v with index := cul }) mp)
            = some { p with index := n } := by
        intro p hp
        obtain ⟨n1, h1⟩ := hin p (List.mem_cons_of_mem _ hp)
        exact ⟨n1, by rw [mapAt_mapModify_ne _ _ _ _ (hne p hp)]; exact h1⟩
      obtain ⟨mp1, hrun, hidx, hother, hkeys⟩ :=
        ih (mapModify q.pointer (fun v => { v with index := cul }) mp)
          (cul + q.eff_size) (if q.is_remove then rem + q.eff_size else rem) hnd.2 hin1
      refine ⟨mp1, ?_, ?_, ?_, ?_⟩
      · simp only [indexLoop, hq, hrun, List.map_cons, List.sum_cons, List.filter_cons]
        cases hr : q.is_remove <;> simp [Nat.add_assoc]
      · intro i p hp
        cases i with
        | zero =>
            simp only [List.getElem?_cons_zero, Option.some.injEq] at hp
            subst hp
            rw [hother q.pointer (fun r hr => hne r hr),
              mapAt_mapModify_same _ _ _ _ hq, prefixSize_zero]
            rfl
        | succ i =>
            simp only [List.getElem?_cons_succ] at hp
            rw [hidx i p hp, prefixSize_cons_succ, Nat.add_assoc]
      · intro k hk
        rw [hother k (fun r hr => hk r (List.mem_cons_of_mem _ hr)),
          mapAt_mapModify_ne _ _ _ _ (hk q (List.mem_cons_self _ _)).symm]
      · rw [hkeys, mapModify_keys]

theorem removedSum_le_total (pl : List ParamInfo) :
    ((pl.filter (fun p => p.is_remove)).map (fun p => p.eff_size)).sum
      ≤ (pl.map (fun p => p.eff_size)).sum := by
  induction pl with
  | nil => simp
  | cons q rest ih =>
      simp only [List.filter_cons, List.map_cons, List.sum_cons]
      cases hq : q.is_remove <;> simp <;> omega

theorem removedSum_eq_total (pl : List ParamInfo) (h : ∀ p ∈ pl, p.is_remove = true) :
    ((pl.filter (fun p => p.is_remove)).map (fun p => p.eff_size)).sum
      = (pl.map (fun p => p.eff_size)).sum := by
  rw [List.filter_eq_self.mpr h]

/-- In a list where no removed parameter stands before a kept one, the columns up to and
including a kept parameter fit into the keep block. -/
theorem kept_range_le (pl : List ParamInfo) :
    pl.Pairwise (fun a b => ¬ (b.is_remove = false ∧ a.is_remove = true)) →
    ∀ (i : Nat) (p : ParamInfo), pl[i]? = some p → p.is_remove = false →
      prefixSize pl i + p.eff_size
          + ((pl.filter (fun p => p.is_remove)).map (fun p => p.eff_size)).sum
        ≤ (pl.map (fun p => p.eff_size)).sum := by
  induction pl with
  | nil => intro _ i p h; simp at h
  | cons q rest ih =>
      intro hpw i p hp hkept
      simp only [List.pairwise_cons] at hpw
      cases i with
      | zero =>
          simp only [List.getElem?_cons_zero, Option.some.injEq] at hp
          subst hp
          have := removedSum_le_total rest
          simp only [List.filter_cons, hkept, List.map_cons, List.sum_cons, prefixSize_zero]
          simp
          omega
      | succ i =>
          simp only [List.getElem?_cons_succ] at hp
          have hq : q.is_remove = false := by
            cases hqr : q.is_remove
            · rfl
            · exact absurd ⟨hkept, hqr⟩ (hpw.1 p (List.getElem?_mem hp))
          have := ih hpw.2 i p hp hkept
          simp only [List.filter_cons, hq, List.map_cons, List.sum_cons, prefixSize_cons_succ]
          simp
          omega

/-- In a list where no removed parameter stands before a kept one, the columns before a
removed parameter contain the whole keep block. -/
theorem removed_range_ge (pl : List ParamInfo) :
    pl.Pairwise (fun a b => ¬ (b.is_remove = false ∧ a.is_remove = true)) →
    ∀ (i : Nat) (p : ParamInfo), pl[i]? = some p → p.is_remove = true →
      (pl.map (fun p => p.eff_size)).sum
        ≤ prefixSize pl i
          + ((pl.filter (fun p => p.is_remove)).map (fun p => p.eff_size)).sum := by
  induction pl with
  | nil => intro _ i p h; simp at h
  | cons q rest ih =>
      intro hpw i p hp hrem
      simp only [List.pairwise_cons] at hpw
      cases i with
      | zero =>
          simp only [List.getElem?_cons_zero, Option.some.injEq] at hp
          subst hp
          have hall : ∀ b ∈ rest, b.is_remove = true := by
            intro b hb
            cases hbr : b.is_remove
            · exact absurd ⟨hbr, hrem⟩ (hpw.1 b hb)
            · rfl
          have := removedSum_eq_total rest hall
          simp only [List.filter_cons, hrem, List.map_cons, List.sum_cons, prefixSize_zero]
          simp
          omega
      | succ i =>
          simp only [List.getElem?_cons_succ] at hp
          have := ih hpw.2 i p hp hrem
          simp only [List.filter_cons, List.map_cons, List.sum_cons, prefixSize_cons_succ]
          cases hq : q.is_remove <;> simp <;> omega

/-- Every column below the total size lies in the range of some parameter. -/
theorem range_cover (pl : List ParamInfo) :
    ∀ x, x < (pl.map (fun p => p.eff_size)).sum →
      ∃ (i : Nat) (p : ParamInfo), pl[i]? = some p ∧ prefixSize pl i ≤ x
        ∧ x < prefixSize pl i + p.eff_size := by
  induction pl with
  | nil => intro x hx; simp at hx
  | cons q rest ih =>
      intro x hx
      simp only [List.map_cons, List.sum_cons] at hx
      by_cases hlt : x < q.eff_size
      · exact ⟨0, q, by simp, by simp [prefixSize_zero], by simp [prefixSize_zero, hlt]⟩
      · obtain ⟨i, p, hp, h1, h2⟩ := ih (x - q.eff_size) (by omega)
        refine ⟨i + 1, p, by simpa using hp, ?_, ?_⟩
        · rw [prefixSize_cons_succ]; omega
        · rw [prefixSize_cons_succ]; omega

/-- The ranges of two parameters at different positions do not overlap. -/
theorem range_disjoint (pl : List ParamInfo) (i j : Nat) (p : ParamInfo)
    (hp : pl[i]? = some p) (hij : i < j) :
    prefixSize pl i + p.eff_size ≤ prefixSize pl j := by
  rw [← prefixSize_succ pl i p hp]
  exact prefixSize_mono pl (i + 1) j hij

theorem sortByRemove_isStdSort : IsStdSort sortByRemove := by
  intro l
  constructor
  · exact (List.perm_append_comm).trans (List.filter_append_perm (fun p => p.is_remove) l)
  · unfold sortByRemove
    rw [List.pairwise_append]
    refine ⟨?_, ?_, ?_⟩
    · rw [List.pairwise_iff_forall_sublist]
      intro a b hab
      have ha : a ∈ l.filter (fun p => !p.is_remove) := hab.subset (by simp)
      have := (List.mem_filter.mp ha).2
      intro hcon
      simp [hcon.2] at this
    · rw [List.pairwise_iff_forall_sublist]
      intro a b hab
      have hb : b ∈ l.filter (fun p => p.is_remove) := hab.subset (by simp)
      have := (List.mem_filter.mp hb).2
      intro hcon
      simp [hcon.1] at this
    · intro a ha b hb hcon
      have := (List.mem_filter.mp hb).2
      simp [hcon.1] at this

/-- C4. Block layout of `Marginalizer::sortParams`. For every `std::sort` behaviour and every
well-formed `_params` map the call returns `(eff_param_size, remove_size)`, and with
`keep_size = eff_param_size - remove_size`: `params_list` holds each parameter of `_params`
once; every kept parameter precedes every removed one; the index stored in `_params` for a
parameter is the sum of `eff_size` of the parameters before it in `params_list` (the other
fields of the entry are untouched); the ranges `[index, index + eff_size)` are pairwise
disjoint and cover `[0, eff_param_size)`; kept ranges lie in `[0, keep_size)` and removed
ranges in `[keep_size, eff_param_size)`. -/
theorem sortParams_block_layout (sort : List ParamInfo → List ParamInfo) (m : Marginalizer)
    (hsort : IsStdSort sort) (hok : ParamsOk m._params) :
    ∃ (m1 : Marginalizer) (eff_param_size remove_size : Nat),
      sortParams sort m = some (m1, (eff_param_size, remove_size)) ∧
      m1.params_list.Perm (m._params.map Prod.snd) ∧
      remove_size ≤ eff_param_size ∧
      (∀ (i j : Nat) (p q : ParamInfo), m1.params_list[i]? = some p →
        m1.params_list[j]? = some q → p.is_remove = false → q.is_remove = true → i < j) ∧
      (∀ (i : Nat) (p : ParamInfo), m1.params_list[i]? = some p →
        mapAt p.pointer m1._params = some { p with index := prefixSize m1.params_list i }) ∧
      (∀ (i : Nat) (p : ParamInfo), m1.params_list[i]? = some p →
        storedIndex m1._params p + p.eff_size ≤ eff_param_size) ∧
      (∀ x, x < eff_param_size → ∃ (i : Nat) (p : ParamInfo), m1.params_list[i]? = some p ∧
        storedIndex m1._params p ≤ x ∧ x < storedIndex m1._params p + p.eff_size) ∧
      (∀ (i j : Nat) (p q : ParamInfo), m1.params_list[i]? = some p →
        m1.params_list[j]? = some q → i ≠ j →
        storedIndex m1._params p + p.eff_size ≤ storedIndex m1._params q
          ∨ storedIndex m1._params q + q.eff_size ≤ storedIndex m1._params p) ∧
      (∀ (i : Nat) (p : ParamInfo), m1.params_list[i]? = some p → p.is_remove = false →
        storedIndex m1._params p + p.eff_size ≤ eff_param_size - remove_size) ∧
      (∀ (i : Nat) (p : ParamInfo), m1.params_list[i]? = some p → p.is_remove = true →
        eff_param_size - remove_size ≤ storedIndex m1._params p
          ∧ storedIndex m1._params p + p.eff_size ≤ eff_param_size) := by
  obtain ⟨hperm, hpw⟩ := hsort (m._params.map Prod.snd)
  generalize hpl : sort (m._params.map Prod.snd) = pl at hperm hpw
  have hkeys : (m._params.map Prod.snd).map (fun p => p.pointer) = m._params.map Prod.fst := by
    rw [List.map_map]
    exact List.map_congr_left (fun kv hkv => hok.2 kv hkv)
  have hndk : (m._params.map Prod.fst).Nodup := hok.1.imp (fun h => ne_of_lt h)
  have hnd : (pl.map (fun p => p.pointer)).Nodup :=
    ((hperm.map (fun p => p.pointer)).nodup_iff).mpr (hkeys ▸ hndk)
  have hin : ∀ p ∈ pl, ∃ n, mapAt p.pointer m._params = some { p with index := n } := by
    intro p hp
    obtain ⟨kv, hkv, rfl⟩ := List.mem_map.mp (hperm.mem_iff.mp hp)
    refine ⟨kv.2.index, ?_⟩
    show mapAt kv.2.pointer m._params = some kv.2
    rw [hok.2 kv hkv]
    exact mapAt_of_mem m._params hndk kv.1 kv.2 hkv
  obtain ⟨mp1, hrun, hidx, -, -⟩ := indexLoop_spec pl m._params 0 0 hnd hin
  have hst : ∀ (i : Nat) (p : ParamInfo), pl[i]? = some p →
      storedIndex mp1 p = prefixSize pl i := by
    intro i p hp
    simp [storedIndex, hidx i p hp]
  refine ⟨{ m with _params := mp1, params_list := pl },
    (pl.map (fun p => p.eff_size)).sum,
    ((pl.filter (fun p => p.is_remove)).map (fun p => p.eff_size)).sum, ?_, hperm,
    removedSum_le_total pl, ?_, ?_, ?_, ?_, ?_, ?_, ?_⟩
  · simp only [sortParams, hpl, hrun, Nat.zero_add]
  · intro i j p q hp hq hkept hrem
    by_contra hji
    rcases Nat.lt_or_ge j i with hlt | hge
    · have hi := (List.getElem?_eq_some.mp hp)
      have hj := (List.getElem?_eq_some.mp hq)
      obtain ⟨hi1, hi2⟩ := hi
      obtain ⟨hj1, hj2⟩ := hj
      have := (List.pairwise_iff_getElem.mp hpw) j i hj1 hi1 hlt
      rw [hi2, hj2] at this
      exact this ⟨hkept, hrem⟩
    · have hij : i = j := by omega
      subst hij
      rw [hp] at hq
      cases hq
      rw [hkept] at hrem
      cases hrem
  · intro i p hp
    simpa using hidx i p hp
  · intro i p hp
    show storedIndex mp1 p + p.eff_size ≤ _
    rw [hst i p hp, ← prefixSize_succ pl i p hp]
    exact prefixSize_le_total pl (i + 1)
  · intro x hx
    obtain ⟨i, p, hp, h1, h2⟩ := range_cover pl x hx
    exact ⟨i, p, hp, by show storedIndex mp1 p ≤ x; rw [hst i p hp]; exact h1,
      by show x < storedIndex mp1 p + p.eff_size; rw [hst i p hp]; exact h2⟩
  · intro i j p q hp hq hij
    show storedIndex mp1 p + p.eff_size ≤ storedIndex mp1 q
      ∨ storedIndex mp1 q + q.eff_size ≤ storedIndex mp1 p
    rw [hst i p hp, hst j q hq]
    rcases Nat.lt_or_ge i j with hlt | hge
    · exact Or.inl (range_disjoint pl i j p hp hlt)
    · exact Or.inr (range_disjoint pl j i q hq (by omega))
  · intro i p hp hkept
    show storedIndex mp1 p + p.eff_size ≤ _
    rw [hst i p hp]
    have := kept_range_le pl hpw i p hp hkept
    omega
  · intro i p hp hrem
    show _ ≤ storedIndex mp1 p ∧ storedIndex mp1 p + p.eff_size ≤ _
    rw [hst i p hp]
    have h1 := removed_range_ge pl hpw i p hp hrem
    have h2 := prefixSize_le_total pl (i + 1)
    rw [prefixSize_succ pl i p hp] at h2
    exact ⟨by omega, h2⟩

/-- Witness of C4: the layout theorem applied to the map built by `filterResiduals` from one
IMU residual between frames 1 and 2 when frame 1 is removed. -/
theorem sortParams_block_layout_witness :
    IsStdSort sortByRemove ∧
    ParamsOk (filterResiduals (fun _ => 0)
      { Marginalizer.ofResiduals [imuResInfo 1 2 100 110 200 210] with
        remove_frame_ids := [1] }).1._params ∧
    ∃ (m1 : Marginalizer) (eff_param_size remove_size : Nat),
      sortParams sortByRemove (filterResiduals (fun _ => 0)
        { Marginalizer.ofResiduals [imuResInfo 1 2 100 110 200 210] with
          remove_frame_ids := [1] }).1 = some (m1, (eff_param_size, remove_size)) ∧
      remove_size ≤ eff_param_size :=
  ⟨sortByRemove_isStdSort, by unfold ParamsOk; decide,
    (sortParams_block_layout sortByRemove _ sortByRemove_isStdSort
      (by unfold ParamsOk; decide)).imp
      (fun _ h => h.imp (fun _ h => h.imp (fun _ h => ⟨h.1, h.2.2.1⟩)))⟩

/-- C1 (code bug). `Marginalizer::marginalize` evaluated on the Jacobian `[[2, 0], [0, 1]]`
and the residual vector `(1, 0)` with one kept and one removed column: `H22 = 1` is
invertible, the emitted prior is `A = [[4]]`, `b = (1)`, the first entry of the stacked
residual vector, where the gradient `Jᵀ r = (2, 0)` has `2`. The kept part `-1/2` of the
minimiser `(-1/2, 0)` of the full problem is not a minimiser of the emitted prior cost; it
is a minimiser of the cost with the gradient entry `2` in the place of `b`. -/
theorem marginalize_prior_shifts_minimiser :
    ∃ (A : Matrix (Fin (2 - 1)) (Fin (2 - 1)) ℚ) (b : Fin (2 - 1) → ℚ),
      marginalizeSchur (fun _ M => M⁻¹) (!![2, 0; 0, 1] : Matrix (Fin 2) (Fin 2) ℚ) ![1, 0] 1
        = some (A, b) ∧
      block ((!![2, 0; 0, 1] : Matrix (Fin 2) (Fin 2) ℚ).transpose * !![2, 0; 0, 1]) 1 1 1 1
        (by decide) (by decide) = 1 ∧
      A = !![4] ∧ b = ![1] ∧
      (!![2, 0; 0, 1] : Matrix (Fin 2) (Fin 2) ℚ).transpose.mulVec ![1, 0] = ![2, 0] ∧
      ∃ delta : Fin 2 → ℚ,
        IsMinimiser (fullCost (!![2, 0; 0, 1] : Matrix (Fin 2) (Fin 2) ℚ) ![1, 0]) delta ∧
        ¬ IsMinimiser (priorCost A b) (segment delta 0 1 (by decide)) ∧
        IsMinimiser (priorCost A ![2]) (segment delta 0 1 (by decide)) := by
  have hH22 : block ((!![2, 0; 0, 1] : Matrix (Fin 2) (Fin 2) ℚ).transpose * !![2, 0; 0, 1])
      1 1 1 1 (by decide) (by decide) = 1 := by
    ext i j
    fin_cases i; fin_cases j
    simp only [block, Matrix.mul_apply, Fin.sum_univ_two, Matrix.transpose_apply,
      Matrix.of_apply]
    norm_num
  have hA : (block ((!![2, 0; 0, 1] : Matrix (Fin 2) (Fin 2) ℚ).transpose * !![2, 0; 0, 1])
        0 0 1 1 (by decide) (by decide)
      - block ((!![2, 0; 0, 1] : Matrix (Fin 2) (Fin 2) ℚ).transpose * !![2, 0; 0, 1])
          0 1 1 1 (by decide) (by decide)
        * (block ((!![2, 0; 0, 1] : Matrix (Fin 2) (Fin 2) ℚ).transpose * !![2, 0; 0, 1])
          1 1 1 1 (by decide) (by decide))⁻¹
        * (block ((!![2, 0; 0, 1] : Matrix (Fin 2) (Fin 2) ℚ).transpose * !![2, 0; 0, 1])
          0 1 1 1 (by decide) (by decide)).transpose) = !![4] := by
    rw [hH22, inv_one, Matrix.mul_one]
    ext i j
    fin_cases i; fin_cases j
    simp only [block, Matrix.mul_apply, Fin.sum_univ_two, Matrix.transpose_apply,
      Matrix.of_apply, Matrix.sub_apply, Finset.univ_unique, Finset.sum_singleton]
    norm_num
  have hb : (segment (![1, 0] : Fin 2 → ℚ) 0 1 (by decide)
      - (block ((!![2, 0; 0, 1] : Matrix (Fin 2) (Fin 2) ℚ).transpose * !![2, 0; 0, 1])
          0 1 1 1 (by decide) (by decide)
        * (block ((!![2, 0; 0, 1] : Matrix (Fin 2) (Fin 2) ℚ).transpose * !![2, 0; 0, 1])
          1 1 1 1 (by decide) (by decide))⁻¹).mulVec
          (segment (![1, 0] : Fin 2 → ℚ) 1 1 (by decide))) = ![1] := by
    rw [hH22, inv_one, Matrix.mul_one]
    ext i
    fin_cases i
    simp only [block, segment, Matrix.mul_apply, Fin.sum_univ_two, Matrix.transpose_apply,
      Matrix.of_apply, Pi.sub_apply, Matrix.mulVec, Matrix.dotProduct, Finset.univ_unique,
      Finset.sum_singleton]
    norm_num
  have hg : (!![2, 0; 0, 1] : Matrix (Fin 2) (Fin 2) ℚ).transpose.mulVec ![1, 0]
      = ![2, 0] := by
    ext i
    fin_cases i <;>
      simp [Matrix.mulVec, Matrix.dotProduct, Fin.sum_univ_two, Matrix.transpose_apply]
  refine ⟨!![4], ![1], ?_, hH22, rfl, rfl, hg, ![-1/2, 0], ?_, ?_, ?_⟩
  · rw [marginalizeSchur, dif_pos (by decide)]
    exact congrArg some (Prod.ext hA hb)
  · intro y
    simp only [fullCost, Fin.sum_univ_two, Matrix.mulVec, Matrix.dotProduct]
    simp
    nlinarith [sq_nonneg (2 * y 0 + 1), sq_nonneg (y 1)]
  · intro hmin
    have := hmin ![-1/4]
    simp only [priorCost, segment, Matrix.dotProduct, Matrix.mulVec, Finset.univ_unique,
      Finset.sum_singleton] at this
    norm_num at this
  · have key : ∀ y : Fin 1 → ℚ,
        priorCost (!![4] : Matrix (Fin 1) (Fin 1) ℚ) ![2]
            (segment (![-1/2, 0] : Fin 2 → ℚ) 0 1 (by decide))
          ≤ priorCost (!![4] : Matrix (Fin 1) (Fin 1) ℚ) ![2] y := by
      intro y
      simp only [priorCost, segment, Matrix.dotProduct, Matrix.mulVec, Finset.univ_unique,
        Finset.sum_singleton]
      norm_num
      nlinarith [sq_nonneg (2 * y 0 + 1)]
    exact key


/-- In `filterResiduals` the flag computed for a landmark is always `false`: the assignment
in the landmark branch goes to the inner variable. -/
theorem paramIsRemove_landmark (getLandmarkBaseFrame : Int → Int) (remove_frame_ids : List Int)
    (param : ParamInfo) (h : param.type = ParamsType.LANDMARK) :
    paramIsRemove getLandmarkBaseFrame remove_frame_ids param = false := by
  simp [paramIsRemove, h]

/-- C3 (code bug). `Marginalizer::filterResiduals` evaluated on one landmark residual between
frames 1 and 2 whose landmark 7 has base frame 1, with frame 1 removed: the residual is
retained, the two poses are recorded with `is_remove = true` and `false`, and the landmark,
although its base frame is removed, is recorded with `is_remove = false`. -/
theorem filterResiduals_landmark_not_marked :
    (filterResiduals (fun _ => 1)
        { Marginalizer.ofResiduals [landmarkResInfo 1 2 7 0 100 200 300 400] with
          remove_frame_ids := [1] }).1.residual_info_list.length = 1 ∧
    ((filterResiduals (fun _ => 1)
        { Marginalizer.ofResiduals [landmarkResInfo 1 2 7 0 100 200 300 400] with
          remove_frame_ids := [1] }).1._params).map
        (fun kv => (kv.1, kv.2.type, kv.2.is_remove))
      = [(100, ParamsType.POSE, true), (200, ParamsType.POSE, false),
          (300, ParamsType.EXTRINSIC, false), (400, ParamsType.LANDMARK, false)] := by
  constructor
  · rfl
  · decide

/-- C2 (code bug). `Marginalizer::marginalize` evaluated on one IMU residual between frames 1
and 2 with frame 1 removed: `params_list` has four entries, two of them kept, while
`keep_state_size = 30 - 15 = 15`, so the range handed to the `PriorFactor` ends past the end
of `params_list`. On two IMU residuals and one landmark residual with frames 1, 2 and 3
removed, `keep_state_size = 7` fits into the eight entries and the list handed over holds
the two kept parameters followed by five removed ones. -/
theorem marginalize_keep_params_by_tangent_size :
    (sortParams sortByRemove
        (filterResiduals (fun _ => 0)
          { Marginalizer.ofResiduals [imuResInfo 1 2 100 110 200 210] with
            remove_frame_ids := [1] }).1).map
        (fun out => (out.1.params_list.map (fun p => (p.pointer, p.is_remove)), out.2))
      = some ([(200, false), (210, false), (100, true), (110, true)], (30, 15)) ∧
    marginalizeParams (fun _ => 0) sortByRemove
        (Marginalizer.ofResiduals [imuResInfo 1 2 100 110 200 210]) [1] = none ∧
    (marginalizeParams (fun _ => 1) sortByRemove
        (Marginalizer.ofResiduals [imuResInfo 1 2 100 110 200 210,
          imuResInfo 2 3 200 210 300 310, landmarkResInfo 1 2 7 0 100 200 400 500])
        [1, 2, 3]).map
        (fun out => (out.2.2.1, out.2.2.2.1,
          out.2.2.2.2.map (fun p => (p.pointer, p.is_remove))))
      = some (52, 45, [(400, false), (500, false), (100, true), (110, true), (200, true),
          (210, true), (300, true)]) := by
  refine ⟨by decide, rfl, by decide⟩

theorem recordParams_paramsOk (g : Int → Int) (rm : List Int) (params : List ParamInfo) :
    ∀ mp, ParamsOk mp → ParamsOk (recordParams g rm params mp) := by
  induction params with
  | nil => intro mp h; exact h
  | cons p rest ih =>
      intro mp h
      simp only [recordParams]
      apply ih
      refine ⟨mapInsert_sorted _ _ _ h.1, ?_⟩
      intro kv hkv
      rcases mem_mapInsert _ _ _ _ hkv with heq | hmem
      · rw [heq]
      · exact h.2 kv hmem

theorem filterLoop_paramsOk (g : Int → Int) (rm : List Int) (infos : List ResidualInfo) :
    ∀ n mp, ParamsOk mp → ParamsOk (filterLoop g rm infos n mp).2.2 := by
  induction infos with
  | nil => intro n mp h; exact h
  | cons info rest ih =>
      intro n mp h
      simp only [filterLoop]
      split_ifs with hrel
      · exact ih _ _ (recordParams_paramsOk g rm _ mp h)
      · exact ih _ _ h

/-- The map that `filterResiduals` leaves in `_params` is well formed. -/
theorem filterResiduals_paramsOk (g : Int → Int) (m : Marginalizer) (h : ParamsOk m._params) :
    ParamsOk (filterResiduals g m).1._params :=
  filterLoop_paramsOk g m.remove_frame_ids m.residual_info_list 0 m._params h

theorem sum_range_succ_shift {K : Type} [AddCommMonoid K] (f : Nat → K) (n : Nat) :
    ((List.range (n + 1)).map f).sum
      = f 0 + ((List.range n).map (fun j => f (j + 1))).sum := by
  rw [List.range_succ_eq_map, List.map_cons, List.sum_cons, List.map_map]
  rfl

theorem setFromTriplets_nil {K : Type} [AddCommMonoid K] (r c : Nat) :
    setFromTriplets ([] : List (Nat × Nat × K)) r c = 0 := rfl

theorem setFromTriplets_append {K : Type} [AddCommMonoid K]
    (ts1 ts2 : List (Nat × Nat × K)) (r c : Nat) :
    setFromTriplets (ts1 ++ ts2) r c = setFromTriplets ts1 r c + setFromTriplets ts2 r c := by
  simp [setFromTriplets, List.filter_append]

theorem setFromTriplets_cons {K : Type} [AddCommMonoid K] (t : Nat × Nat × K)
    (ts : List (Nat × Nat × K)) (r c : Nat) :
    setFromTriplets (t :: ts) r c
      = (if t.1 = r ∧ t.2.1 = c then t.2.2 else 0) + setFromTriplets ts r c := by
  unfold setFromTriplets
  by_cases h : t.1 = r ∧ t.2.1 = c
  · simp [List.filter_cons, h]
  · simp [List.filter_cons, h]

/-- A completed column loop pushed one triplet per column, all inside the bounds. -/
theorem evaluateCols_ok {K : Type} [AddCommMonoid K] (J_blk : Nat → Nat → K)
    (R P i0 j0 i : Nat) (js : List Nat) (ts : List (Nat × Nat × K))
    (h : evaluateCols J_blk R P i0 j0 i js = Except.ok ts) :
    ts = js.map (fun j => (i0 + i, j0 + j, J_blk i j)) := by
  induction js generalizing ts with
  | nil =>
      simp only [evaluateCols, Except.ok.injEq] at h
      simp [← h]
  | cons j rest ih =>
      simp only [evaluateCols] at h
      split_ifs at h
      split at h
      · cases h
      · rename_i ts1 h1
        simp only [Except.ok.injEq] at h
        rw [← h, ih ts1 h1]
        rfl

/-- The column loop completes when every position it writes lies inside the bounds. -/
theorem evaluateCols_of_bounds {K : Type} [AddCommMonoid K] (J_blk : Nat → Nat → K)
    (R P i0 j0 i : Nat) (js : List Nat) (h : ∀ j ∈ js, i0 + i < R ∧ j0 + j < P) :
    ∃ ts, evaluateCols J_blk R P i0 j0 i js = Except.ok ts := by
  induction js with
  | nil => exact ⟨[], rfl⟩
  | cons j rest ih =>
      obtain ⟨ts, hts⟩ := ih (fun x hx => h x (List.mem_cons_of_mem _ hx))
      have hj := h j (List.mem_cons_self _ _)
      have hcond : ¬ (i0 + i ≥ R ∨ j0 + j ≥ P) := by omega
      exact ⟨(i0 + i, j0 + j, J_blk i j) :: ts,
        by simp only [evaluateCols, if_neg hcond, hts]⟩

theorem setFromTriplets_cols {K : Type} [AddCommMonoid K] (J_blk : Nat → Nat → K)
    (i0 j0 i : Nat) (js : List Nat) (r c : Nat) :
    setFromTriplets (js.map (fun j => (i0 + i, j0 + j, J_blk i j))) r c
      = (js.map (fun j => if i0 + i = r ∧ j0 + j = c then J_blk i j else 0)).sum := by
  induction js with
  | nil => rfl
  | cons j rest ih =>
      rw [List.map_cons, setFromTriplets_cons, ih, List.map_cons, List.sum_cons]

/-- A completed row loop assembled the block. -/
theorem evaluateRows_ok {K : Type} [AddCommMonoid K] (J_blk : Nat → Nat → K)
    (R P i0 j0 cols : Nat) (is : List Nat) (ts : List (Nat × Nat × K))
    (h : evaluateRows J_blk R P i0 j0 cols is = Except.ok ts) (r c : Nat) :
    setFromTriplets ts r c
      = (is.map (fun i =>
          ((List.range cols).map (fun j =>
            if i0 + i = r ∧ j0 + j = c then J_blk i j else 0)).sum)).sum := by
  induction is generalizing ts with
  | nil =>
      simp only [evaluateRows, Except.ok.injEq] at h
      simp [← h, setFromTriplets_nil]
  | cons i rest ih =>
      simp only [evaluateRows] at h
      split at h
      · cases h
      · rename_i ts1 h1
        split at h
        · cases h
        · rename_i ts2 h2
          simp only [Except.ok.injEq] at h
          rw [← h, setFromTriplets_append, ih ts2 h2, evaluateCols_ok _ _ _ _ _ _ _ _ h1,
            setFromTriplets_cols, List.map_cons, List.sum_cons]

theorem evaluateRows_of_bounds {K : Type} [AddCommMonoid K] (J_blk : Nat → Nat → K)
    (R P i0 j0 cols : Nat) (is : List Nat)
    (h : ∀ i ∈ is, ∀ j < cols, i0 + i < R ∧ j0 + j < P) :
    ∃ ts, evaluateRows J_blk R P i0 j0 cols is = Except.ok ts := by
  induction is with
  | nil => exact ⟨[], rfl⟩
  | cons i rest ih =>
      obtain ⟨ts2, h2⟩ := ih (fun x hx => h x (List.mem_cons_of_mem _ hx))
      obtain ⟨ts1, h1⟩ := evaluateCols_of_bounds J_blk R P i0 j0 i (List.range cols)
        (fun j hj => h i (List.mem_cons_self _ _) j (List.mem_range.mp hj))
      exact ⟨ts1 ++ ts2, by simp only [evaluateRows, h1, h2]⟩

theorem rowOffset_zero (infos : List ResidualInfo) : rowOffset infos 0 = 0 := by
  simp [rowOffset]

theorem rowOffset_cons_succ (info : ResidualInfo) (rest : List ResidualInfo) (j : Nat) :
    rowOffset (info :: rest) (j + 1) = info.residualSize + rowOffset rest j := by
  simp [rowOffset]

theorem storedIndex_of_mapAt (_params : List (Nat × ParamInfo)) (p entry : ParamInfo)
    (h : mapAt p.pointer _params = some entry) : storedIndex _params p = entry.index := by
  simp [storedIndex, h]

/-- A completed block loop assembled the blocks of the residual, each at the column stored
in `_params`. -/
theorem evaluateBlocks_ok {K : Type} [AddCommMonoid K] (jacobians : Nat → Nat → Nat → K)
    (_params : List (Nat × ParamInfo)) (R P i0 size : Nat) (ps : List ParamInfo) :
    ∀ (blk : Nat) (ts : List (Nat × Nat × K)),
      evaluateBlocks jacobians _params R P i0 size ps blk = Except.ok ts →
      ∀ r c, setFromTriplets ts r c
        = ((List.range ps.length).map (fun b =>
            match ps[b]? with
            | none => 0
            | some p =>
                blockEntry (jacobians (blk + b)) i0 (storedIndex _params p) size p.eff_size
                  r c)).sum := by
  induction ps with
  | nil =>
      intro blk ts h r c
      simp only [evaluateBlocks, Except.ok.injEq] at h
      simp [← h, setFromTriplets_nil]
  | cons p rest ih =>
      intro blk ts h r c
      simp only [evaluateBlocks] at h
      split at h
      · cases h
      · rename_i entry hentry
        split at h
        · cases h
        · rename_i ts1 h1
          split at h
          · cases h
          · rename_i ts2 h2
            simp only [Except.ok.injEq] at h
            rw [← h, setFromTriplets_append, ih (blk + 1) ts2 h2 r c,
              evaluateRows_ok _ _ _ _ _ _ _ _ h1 r c, List.length_cons,
              sum_range_succ_shift]
            have e : ∀ b, blk + 1 + b = blk + (b + 1) := fun b => by omega
            simp only [List.getElem?_cons_zero, List.getElem?_cons_succ, Nat.add_zero,
              storedIndex_of_mapAt _ _ _ hentry, blockEntry, e]

theorem evaluateBlocks_of_bounds {K : Type} [AddCommMonoid K]
    (jacobians : Nat → Nat → Nat → K) (_params : List (Nat × ParamInfo))
    (R P i0 size : Nat) (ps : List ParamInfo)
    (h : ∀ p ∈ ps, ∃ v, mapAt p.pointer _params = some v ∧
      ∀ i < size, ∀ j < p.eff_size, i0 + i < R ∧ v.index + j < P) :
    ∀ blk : Nat, ∃ ts, evaluateBlocks jacobians _params R P i0 size ps blk = Except.ok ts := by
  induction ps with
  | nil => intro blk; exact ⟨[], rfl⟩
  | cons p rest ih =>
      intro blk
      obtain ⟨v, hv, hb⟩ := h p (List.mem_cons_self _ _)
      obtain ⟨ts1, h1⟩ := evaluateRows_of_bounds (jacobians blk) R P i0 v.index p.eff_size
        (List.range size) (fun i hi j hj => hb i (List.mem_range.mp hi) j hj)
      obtain ⟨ts2, h2⟩ := ih (fun x hx => h x (List.mem_cons_of_mem _ hx)) (blk + 1)
      exact ⟨ts1 ++ ts2, by simp only [evaluateBlocks, hv, h1, h2]⟩

/-- A completed residual loop assembled every residual at its row offset. -/
theorem evaluateLoop_ok {K : Type} [AddCommMonoid K] (Evaluate : Nat → Evaluated K)
    (_params : List (Nat × ParamInfo)) (R P : Nat) (rest : List ResidualInfo) :
    ∀ (k cul : Nat) (vec : Nat → K) (out : List (Nat × Nat × K) × (Nat → K)),
      evaluateLoop Evaluate _params R P rest k cul vec = Except.ok out →
      ∀ r c, setFromTriplets out.1 r c
        = ((List.range rest.length).map (fun j =>
            match rest[j]? with
            | none => 0
            | some info =>
                residualEntry (Evaluate (k + j)).jacobians _params info
                  (cul + rowOffset rest j) r c)).sum := by
  induction rest with
  | nil =>
      intro k cul vec out h r c
      simp only [evaluateLoop, Except.ok.injEq] at h
      simp [← h, setFromTriplets_nil]
  | cons info rest ih =>
      intro k cul vec out h r c
      simp only [evaluateLoop] at h
      split_ifs at h
      split at h
      · cases h
      · rename_i ts1 h1
        split at h
        · cases h
        · rename_i out2 h2
          simp only [Except.ok.injEq] at h
          rw [← h]
          simp only []
          rw [setFromTriplets_append, ih (k + 1) _ _ out2 h2 r c,
            evaluateBlocks_ok _ _ _ _ _ _ _ 0 ts1 h1 r c, List.length_cons,
            sum_range_succ_shift]
          have e1 : ∀ j, k + 1 + j = k + (j + 1) := fun j => by omega
          have e2 : ∀ j, cul + info.residualSize + rowOffset rest j
              = cul + (info.residualSize + rowOffset rest j) := fun j => by omega
          simp only [List.getElem?_cons_zero, List.getElem?_cons_succ, Nat.add_zero,
            rowOffset_zero, rowOffset_cons_succ, residualEntry, Nat.zero_add, e1, e2]

theorem evaluateLoop_of_bounds {K : Type} [AddCommMonoid K] (Evaluate : Nat → Evaluated K)
    (_params : List (Nat × ParamInfo)) (R P : Nat) (rest : List ResidualInfo)
    (hat : ∀ info ∈ rest, ∀ p ∈ info.paramsList, ∃ v, mapAt p.pointer _params = some v ∧
      v.index + p.eff_size ≤ P) :
    ∀ (k cul : Nat) (vec : Nat → K), cul + rowOffset rest rest.length ≤ R →
      ∃ out, evaluateLoop Evaluate _params R P rest k cul vec = Except.ok out := by
  induction rest with
  | nil => intro k cul vec _; exact ⟨_, rfl⟩
  | cons info rest ih =>
      intro k cul vec hR
      rw [List.length_cons, rowOffset_cons_succ] at hR
      have hseg : ¬ cul + info.residualSize > R := by omega
      obtain ⟨ts1, h1⟩ := evaluateBlocks_of_bounds (Evaluate k).jacobians _params R P cul
        info.residualSize info.paramsList
        (fun p hp => by
          obtain ⟨v, hv, hb⟩ := hat info (List.mem_cons_self _ _) p hp
          exact ⟨v, hv, fun i hi j hj => ⟨by omega, by omega⟩⟩) 0
      obtain ⟨out2, h2⟩ := ih (fun x hx => hat x (List.mem_cons_of_mem _ hx)) (k + 1)
        (cul + info.residualSize)
        (fun r => if cul ≤ r ∧ r < cul + info.residualSize then
          (Evaluate k).residuals (r - cul) else vec r) (by omega)
      exact ⟨(ts1 ++ out2.1, out2.2), by simp only [evaluateLoop, if_neg hseg, h1, h2]⟩

/-- A completed residual loop wrote the residual vectors one after the other from
`cul_res_size` on and left the other entries of `residual_vec` alone. -/
theorem evaluateLoop_vec {K : Type} [AddCommMonoid K] (Evaluate : Nat → Evaluated K)
    (_params : List (Nat × ParamInfo)) (R P : Nat) (rest : List ResidualInfo) :
    ∀ (k cul : Nat) (vec : Nat → K) (out : List (Nat × Nat × K) × (Nat → K)),
      evaluateLoop Evaluate _params R P rest k cul vec = Except.ok out →
      (∀ r, r < cul → out.2 r = vec r) ∧
      (∀ r, cul + rowOffset rest rest.length ≤ r → out.2 r = vec r) ∧
      (∀ (j : Nat) (info : ResidualInfo), rest[j]? = some info → ∀ i < info.residualSize,
        out.2 (cul + rowOffset rest j + i) = (Evaluate (k + j)).residuals i) ∧
      (List.range (rowOffset rest rest.length)).map (fun r => out.2 (cul + r))
        = concatResiduals Evaluate rest k := by
  induction rest with
  | nil =>
      intro k cul vec out h
      simp only [evaluateLoop, Except.ok.injEq] at h
      subst h
      refine ⟨fun _ _ => rfl, fun _ _ => rfl, ?_, ?_⟩
      · intro j info hj
        simp at hj
      · simp [rowOffset, concatResiduals]
  | cons info rest ih =>
      intro k cul vec out h
      simp only [evaluateLoop] at h
      split_ifs at h
      split at h
      · cases h
      · rename_i ts1 h1
        split at h
        · cases h
        · rename_i out2 h2
          simp only [Except.ok.injEq] at h
          subst h
          obtain ⟨hlow, hhigh, hpt, hcat⟩ := ih (k + 1) _ _ out2 h2
          have hseg : ∀ i, i < info.residualSize →
              out2.2 (cul + i) = (Evaluate k).residuals i := by
            intro i hi
            rw [hlow (cul + i) (by omega)]
            have : cul ≤ cul + i ∧ cul + i < cul + info.residualSize := by omega
            simp only [this, and_self, if_true, Nat.add_sub_cancel_left]
          refine ⟨?_, ?_, ?_, ?_⟩
          · intro r hr
            show out2.2 r = vec r
            rw [hlow r (by omega)]
            have : ¬ (cul ≤ r ∧ r < cul + info.residualSize) := by omega
            simp only [this, if_false]
          · intro r hr
            rw [List.length_cons, rowOffset_cons_succ] at hr
            show out2.2 r = vec r
            rw [hhigh r (by omega)]
            have : ¬ (cul ≤ r ∧ r < cul + info.residualSize) := by omega
            simp only [this, if_false]
          · intro j info1 hj i hi
            show out2.2 _ = _
            cases j with
            | zero =>
                simp only [List.getElem?_cons_zero, Option.some.injEq] at hj
                subst hj
                rw [rowOffset_zero, Nat.add_zero, Nat.add_zero]
                exact hseg i hi
            | succ j =>
                simp only [List.getElem?_cons_succ] at hj
                have := hpt j info1 hj i hi
                rw [rowOffset_cons_succ]
                rw [show cul + (info.residualSize + rowOffset rest j) + i
                  = cul + info.residualSize + rowOffset rest j + i by omega,
                  show k + (j + 1) = k + 1 + j by omega]
                exact this
          · show List.map (fun r => out2.2 (cul + r)) _ = _
            rw [List.length_cons, rowOffset_cons_succ, List.range_add, List.map_append,
              concatResiduals, List.map_map]
            congr 1
            · apply List.map_congr_left
              intro i hi
              exact hseg i (List.mem_range.mp hi)
            · rw [← hcat]
              apply List.map_congr_left
              intro r _
              show out2.2 (cul + (info.residualSize + r)) = _
              rw [Nat.add_assoc]

/-- C15. Assembly by `Marginalizer::evaluate`. When the call returns, the matrix set from
its triplets has at `(r, c)` the sum of the block Jacobian entries `J_blk(i, j)`, `i <
residualSize`, `j < eff_size`, placed at the row offset of their residual plus `i` and at
`_params[ptr].index + j`, and zero where nothing is placed; the returned vector holds the
residual vectors one after the other, residual `k` starting at the sum of `residualSize` of
the residuals before it. The call returns when the rows fit into `eff_residual_size`, every
parameter pointer has an entry in `_params` and every block fits into `eff_param_size`. -/
theorem evaluate_assembly {K : Type} [AddCommMonoid K] (Evaluate : Nat → Evaluated K)
    (uninit : Nat → K) (m : Marginalizer) (eff_residual_size eff_param_size : Nat) :
    (∀ out, evaluate Evaluate uninit m eff_residual_size eff_param_size = Except.ok out →
      (∀ r c, setFromTriplets out.1 r c
        = assembledJacobian Evaluate m._params m.residual_info_list r c) ∧
      (∀ (k : Nat) (info : ResidualInfo), m.residual_info_list[k]? = some info →
        ∀ i < info.residualSize,
          out.2 (rowOffset m.residual_info_list k + i) = (Evaluate k).residuals i) ∧
      (List.range (rowOffset m.residual_info_list m.residual_info_list.length)).map out.2
        = concatResiduals Evaluate m.residual_info_list 0) ∧
    (rowOffset m.residual_info_list m.residual_info_list.length ≤ eff_residual_size →
      (∀ info ∈ m.residual_info_list, ∀ p ∈ info.paramsList,
        ∃ v, mapAt p.pointer m._params = some v ∧ v.index + p.eff_size ≤ eff_param_size) →
      ∃ out, evaluate Evaluate uninit m eff_residual_size eff_param_size = Except.ok out) := by
  constructor
  · intro out h
    unfold evaluate at h
    obtain ⟨-, -, hpt, hcat⟩ := evaluateLoop_vec Evaluate m._params eff_residual_size
      eff_param_size m.residual_info_list 0 0 uninit out h
    refine ⟨?_, ?_, ?_⟩
    · intro r c
      rw [evaluateLoop_ok Evaluate m._params eff_residual_size eff_param_size
        m.residual_info_list 0 0 uninit out h r c]
      simp only [assembledJacobian, Nat.zero_add]
    · intro k info hk i hi
      have := hpt k info hk i hi
      simpa only [Nat.zero_add] using this
    · simpa only [Nat.zero_add] using hcat
  · intro hrows hat
    unfold evaluate
    exact evaluateLoop_of_bounds Evaluate m._params eff_residual_size eff_param_size
      m.residual_info_list hat 0 0 uninit (by omega)

/-- After `recordParams` every listed parameter has an entry, and the entries that were
there before are still there, possibly overwritten. -/
theorem recordParams_has_entries (g : Int → Int) (rm : List Int) (params : List ParamInfo) :
    ∀ mp : List (Nat × ParamInfo),
      (∀ p ∈ params, ∃ v, mapAt p.pointer (recordParams g rm params mp) = some v) ∧
      (∀ k v, mapAt k mp = some v → ∃ w, mapAt k (recordParams g rm params mp) = some w) := by
  induction params with
  | nil =>
      intro mp
      exact ⟨fun p hp => by simp at hp, fun k v h => ⟨v, h⟩⟩
  | cons q rest ih =>
      intro mp
      simp only [recordParams]
      obtain ⟨h1, h2⟩ := ih (mapInsert q.pointer
        { q with is_remove := paramIsRemove g rm q } mp)
      refine ⟨?_, ?_⟩
      · intro p hp
        rcases List.mem_cons.mp hp with heq | hmem
        · subst heq
          exact h2 p.pointer _ (mapAt_mapInsert_same _ _ _)
        · exact h1 p hmem
      · intro k v hk
        by_cases hkq : k = q.pointer
        · subst hkq
          exact h2 _ _ (mapAt_mapInsert_same _ _ _)
        · exact h2 k v (by rw [mapAt_mapInsert_ne _ _ _ _ hkq]; exact hk)

/-- Every entry after `recordParams` was there before or records a listed parameter, whose
tangent size it keeps. -/
theorem recordParams_origin (g : Int → Int) (rm : List Int) (params : List ParamInfo) :
    ∀ (mp : List (Nat × ParamInfo)) (k : Nat) (v : ParamInfo),
      mapAt k (recordParams g rm params mp) = some v →
      mapAt k mp = some v ∨ ∃ q ∈ params, q.pointer = k ∧ v.eff_size = q.eff_size := by
  induction params with
  | nil => intro mp k v h; exact Or.inl h
  | cons q rest ih =>
      intro mp k v h
      simp only [recordParams] at h
      rcases ih _ k v h with h1 | ⟨q1, hq1, hk, he⟩
      · by_cases hkq : k = q.pointer
        · subst hkq
          rw [mapAt_mapInsert_same] at h1
          cases h1
          exact Or.inr ⟨q, List.mem_cons_self _ _, rfl, rfl⟩
        · rw [mapAt_mapInsert_ne _ _ _ _ hkq] at h1
          exact Or.inl h1
      · exact Or.inr ⟨q1, List.mem_cons_of_mem _ hq1, hk, he⟩

/-- What `filterResiduals` leaves behind: the retained residuals come from the list, the
returned size is the sum of their sizes, each of their parameters has an entry in
`_params`, and every entry records a parameter of a residual of the list. -/
theorem filterLoop_spec (g : Int → Int) (rm : List Int) (infos : List ResidualInfo) :
    ∀ (n : Nat) (mp : List (Nat × ParamInfo)),
      (∀ info ∈ (filterLoop g rm infos n mp).1, info ∈ infos) ∧
      (filterLoop g rm infos n mp).2.1
        = n + rowOffset (filterLoop g rm infos n mp).1 (filterLoop g rm infos n mp).1.length ∧
      (∀ info ∈ (filterLoop g rm infos n mp).1, ∀ p ∈ info.paramsList,
        ∃ v, mapAt p.pointer (filterLoop g rm infos n mp).2.2 = some v) ∧
      (∀ k v, mapAt k mp = some v → ∃ w, mapAt k (filterLoop g rm infos n mp).2.2 = some w) ∧
      (∀ k v, mapAt k (filterLoop g rm infos n mp).2.2 = some v →
        mapAt k mp = some v
          ∨ ∃ info ∈ infos, ∃ q ∈ info.paramsList, q.pointer = k ∧ v.eff_size = q.eff_size) := by
  induction infos with
  | nil =>
      intro n mp
      simp only [filterLoop]
      exact ⟨fun _ h => h, by simp [rowOffset], fun info h => by simp at h,
        fun k v h => ⟨v, h⟩, fun k v h => Or.inl h⟩
  | cons info rest ih =>
      intro n mp
      by_cases hrel : info.relavant rm = true
      · simp only [filterLoop, hrel, if_true]
        obtain ⟨h1, h2, h3, h4, h5⟩ := ih (n + info.residualSize)
          (recordParams g rm info.paramsList mp)
        obtain ⟨hr1, hr2⟩ := recordParams_has_entries g rm info.paramsList mp
        refine ⟨?_, ?_, ?_, ?_, ?_⟩
        · intro x hx
          rcases List.mem_cons.mp hx with heq | hmem
          · exact heq ▸ List.mem_cons_self _ _
          · exact List.mem_cons_of_mem _ (h1 x hmem)
        · rw [h2, List.length_cons, rowOffset_cons_succ]
          omega
        · intro x hx p hp
          rcases List.mem_cons.mp hx with heq | hmem
          · subst heq
            obtain ⟨v, hv⟩ := hr1 p hp
            exact h4 _ v hv
          · exact h3 x hmem p hp
        · intro k v hk
          obtain ⟨w, hw⟩ := hr2 k v hk
          exact h4 k w hw
        · intro k v hk
          rcases h5 k v hk with h | ⟨i2, hi2, q, hq, hqk, hqe⟩
          · rcases recordParams_origin g rm info.paramsList mp k v h with h | ⟨q, hq, hqk, hqe⟩
            · exact Or.inl h
            · exact Or.inr ⟨info, List.mem_cons_self _ _, q, hq, hqk, hqe⟩
          · exact Or.inr ⟨i2, List.mem_cons_of_mem _ hi2, q, hq, hqk, hqe⟩
      · simp only [filterLoop, hrel, Bool.false_eq_true, if_false]
        obtain ⟨h1, h2, h3, h4, h5⟩ := ih n mp
        refine ⟨fun x hx => List.mem_cons_of_mem _ (h1 x hx), h2, h3, h4, ?_⟩
        intro k v hk
        rcases h5 k v hk with h | ⟨i2, hi2, q, hq, hqk, hqe⟩
        · exact Or.inl h
        · exact Or.inr ⟨i2, List.mem_cons_of_mem _ hi2, q, hq, hqk, hqe⟩

/-- On a well-formed map `sortParams` returns, keeps the residual list, and gives every
entry an index whose block ends inside `eff_param_size`. -/
theorem sortParams_spec (sort : List ParamInfo → List ParamInfo) (m : Marginalizer)
    (hsort : IsStdSort sort) (hok : ParamsOk m._params) :
    ∃ (m1 : Marginalizer) (eff_param_size remove_size : Nat),
      sortParams sort m = some (m1, (eff_param_size, remove_size)) ∧
      m1.residual_info_list = m.residual_info_list ∧
      ∀ k v, mapAt k m._params = some v →
        ∃ w, mapAt k m1._params = some w ∧ w.eff_size = v.eff_size
          ∧ w.index + v.eff_size ≤ eff_param_size := by
  obtain ⟨hperm, -⟩ := hsort (m._params.map Prod.snd)
  generalize hpl : sort (m._params.map Prod.snd) = pl at hperm
  have hkeys : (m._params.map Prod.snd).map (fun p => p.pointer) = m._params.map Prod.fst := by
    rw [List.map_map]
    exact List.map_congr_left (fun kv hkv => hok.2 kv hkv)
  have hndk : (m._params.map Prod.fst).Nodup := hok.1.imp (fun h => ne_of_lt h)
  have hnd : (pl.map (fun p => p.pointer)).Nodup :=
    ((hperm.map (fun p => p.pointer)).nodup_iff).mpr (hkeys ▸ hndk)
  have hin : ∀ p ∈ pl, ∃ n, mapAt p.pointer m._params = some { p with index := n } := by
    intro p hp
    obtain ⟨kv, hkv, rfl⟩ := List.mem_map.mp (hperm.mem_iff.mp hp)
    refine ⟨kv.2.index, ?_⟩
    show mapAt kv.2.pointer m._params = some kv.2
    rw [hok.2 kv hkv]
    exact mapAt_of_mem m._params hndk kv.1 kv.2 hkv
  obtain ⟨mp1, hrun, hidx, -, -⟩ := indexLoop_spec pl m._params 0 0 hnd hin
  refine ⟨{ m with _params := mp1, params_list := pl },
    (pl.map (fun p => p.eff_size)).sum,
    ((pl.filter (fun p => p.is_remove)).map (fun p => p.eff_size)).sum, ?_, rfl, ?_⟩
  · simp only [sortParams, hpl, hrun, Nat.zero_add]
  · intro k v hkv
    have hmem : (k, v) ∈ m._params := mem_of_mapAt _ _ _ hkv
    have hvk : v.pointer = k := hok.2 (k, v) hmem
    have hvpl : v ∈ pl := hperm.mem_iff.mpr (List.mem_map.mpr ⟨(k, v), hmem, rfl⟩)
    obtain ⟨i, hi⟩ := List.getElem?_of_mem hvpl
    have := hidx i v hi
    rw [hvk] at this
    refine ⟨_, this, rfl, ?_⟩
    show 0 + prefixSize pl i + v.eff_size ≤ _
    rw [Nat.zero_add, ← prefixSize_succ pl i v hi]
    exact prefixSize_le_total pl (i + 1)

/-- C18. In `Marginalizer::marginalize`, `evaluate` is called with the `eff_residual_size`
returned by `filterResiduals` and the `eff_param_size` returned by `sortParams` on the same
residual list. When every parameter has one tangent size in all the parameter lists that
name it, the call returns: the `exit(1)` of the bounds check is not reached, every
`_params.at` lookup succeeds and every segment lies inside `residual_vec`. -/
theorem marginalize_evaluate_in_bounds {K : Type} [AddCommMonoid K]
    (getLandmarkBaseFrame : Int → Int) (sort : List ParamInfo → List ParamInfo)
    (Evaluate : Nat → Evaluated K) (uninit : Nat → K) (m : Marginalizer)
    (_remove_frame_ids : List Int) (hsort : IsStdSort sort)
    (hstable : ∀ i1 ∈ m.residual_info_list, ∀ i2 ∈ m.residual_info_list,
      ∀ p1 ∈ i1.paramsList, ∀ p2 ∈ i2.paramsList,
        p1.pointer = p2.pointer → p1.eff_size = p2.eff_size) :
    ∃ out, marginalizeEvaluate getLandmarkBaseFrame sort Evaluate uninit m _remove_frame_ids
      = some (Except.ok out) := by
  obtain ⟨h1, h2, h3, -, h5⟩ := filterLoop_spec getLandmarkBaseFrame _remove_frame_ids
    m.residual_info_list 0 []
  have hok : ParamsOk (filterLoop getLandmarkBaseFrame _remove_frame_ids
      m.residual_info_list 0 []).2.2 :=
    filterLoop_paramsOk _ _ _ 0 [] ⟨by simp, by simp⟩
  obtain ⟨m1, eff, rem, hsp, hres, hent⟩ := sortParams_spec sort
    (filterResiduals getLandmarkBaseFrame
      { m with remove_frame_ids := _remove_frame_ids, params_list := [], _params := [] }).1
    hsort hok
  have hat : ∀ info ∈ m1.residual_info_list, ∀ p ∈ info.paramsList,
      ∃ v, mapAt p.pointer m1._params = some v ∧ v.index + p.eff_size ≤ eff := by
    rw [hres]
    intro info hinfo p hp
    obtain ⟨v, hv⟩ := h3 info hinfo p hp
    obtain ⟨w, hw, -, hwb⟩ := hent p.pointer v hv
    refine ⟨w, hw, ?_⟩
    have hve : v.eff_size = p.eff_size := by
      rcases h5 p.pointer v hv with h | ⟨i2, hi2, q, hq, hqk, hqe⟩
      · simp [mapAt] at h
      · rw [hqe]
        exact hstable i2 hi2 info (h1 info hinfo) q hq p hp hqk
    omega
  have hrow : 0 + rowOffset m1.residual_info_list m1.residual_info_list.length
      ≤ (filterLoop getLandmarkBaseFrame _remove_frame_ids m.residual_info_list 0 []).2.1 := by
    rw [hres]
    exact le_of_eq h2.symm
  obtain ⟨out, hout⟩ := evaluateLoop_of_bounds Evaluate m1._params
    (filterLoop getLandmarkBaseFrame _remove_frame_ids m.residual_info_list 0 []).2.1 eff
    m1.residual_info_list hat 0 0 uninit hrow
  refine ⟨out, ?_⟩
  unfold marginalizeEvaluate
  simp only [hsp]
  exact congrArg some hout

/-- Witness of C15: the example marginalizer with three rows and three columns. The call
returns; the vector is `(0, 1, 10)`; the entry at row 1, column 2 is the entry `(1, 0)` of
the second block of the first residual, and the entry at row 2, column 0 is zero. -/
theorem evaluate_assembly_witness :
    ∃ out, evaluate exampleEvaluate (fun _ => 0) exampleSorted 3 3 = Except.ok out ∧
      (List.range 3).map out.2 = [0, 1, 10] ∧
      setFromTriplets out.1 1 2 = 14 ∧ setFromTriplets out.1 2 0 = 0 ∧
      setFromTriplets out.1 2 2 = 101 := by
  obtain ⟨out, hout⟩ := (evaluate_assembly exampleEvaluate (fun _ => 0) exampleSorted 3 3).2
    (by decide) (by
      intro info hinfo p hp
      simp only [exampleSorted, List.mem_cons, List.mem_singleton, List.not_mem_nil,
        or_false] at hinfo
      rcases hinfo with rfl | rfl
      · simp only [List.mem_cons, List.mem_singleton, List.not_mem_nil, or_false] at hp
        rcases hp with rfl | rfl
        · exact ⟨_, rfl, by decide⟩
        · exact ⟨_, rfl, by decide⟩
      · simp only [List.mem_cons, List.mem_singleton, List.not_mem_nil, or_false] at hp
        subst hp
        exact ⟨_, rfl, by decide⟩)
  obtain ⟨hJ, -, hvec⟩ :=
    (evaluate_assembly exampleEvaluate (fun _ => 0) exampleSorted 3 3).1 out hout
  refine ⟨out, hout, ?_, ?_, ?_, ?_⟩
  · exact hvec.trans (by decide)
  · rw [hJ]; decide
  · rw [hJ]; decide
  · rw [hJ]; decide

/-- Witness of C18: one IMU residual between frames 1 and 2, frame 1 removed. -/
theorem marginalize_evaluate_in_bounds_witness :
    IsStdSort sortByRemove ∧
    ∃ out, marginalizeEvaluate (fun _ => 0) sortByRemove exampleEvaluate (fun _ => 0)
        (Marginalizer.ofResiduals [imuResInfo 1 2 100 110 200 210]) [1]
      = some (Except.ok out) :=
  ⟨sortByRemove_isStdSort,
    marginalize_evaluate_in_bounds (fun _ => 0) sortByRemove exampleEvaluate (fun _ => 0)
      (Marginalizer.ofResiduals [imuResInfo 1 2 100 110 200 210]) [1]
      sortByRemove_isStdSort (by decide)⟩

/-- A block of `Jᵀ J` is the product of the two column groups of `J` it pairs. -/
theorem block_transpose_mul_self {K : Type} [Field K] {R P : Nat}
    (J : Matrix (Fin R) (Fin P) K) (i0 j0 p q : Nat) (hi : i0 + p ≤ P) (hj : j0 + q ≤ P) :
    block (J.transpose * J) i0 j0 p q hi hj
      = (columns J i0 p hi).transpose * columns J j0 q hj := by
  ext a b
  simp only [block, columns, Matrix.mul_apply, Matrix.transpose_apply, Matrix.of_apply]

/-- The matrix `A` emitted by `marginalize` is the `A` of `marginalizeA`. -/
theorem marginalizeSchur_fst {K : Type} [Field K] {R P : Nat}
    (inverse : (n : Nat) → Matrix (Fin n) (Fin n) K → Matrix (Fin n) (Fin n) K)
    (J : Matrix (Fin R) (Fin P) K) (residual_vec : Fin R → K) (remove_state_size : Nat)
    (hrem : remove_state_size ≤ P) (hres : P ≤ R) :
    ∃ b, marginalizeSchur inverse J residual_vec remove_state_size
      = some (marginalizeA inverse J remove_state_size hrem, b) := by
  rw [marginalizeSchur, dif_pos ⟨hrem, hres⟩]
  exact ⟨_, rfl⟩

/-- With `S = J2ᵀ J2` and `S W = 1`, the Schur complement `J1ᵀ J1 - (J1ᵀ J2) W (J1ᵀ J2)ᵀ` is
`Lᵀ L` for `L = J1 - J2 W J2ᵀ J1`. -/
theorem schur_factor {K : Type} [Field K] {R k m : Nat}
    (J1 : Matrix (Fin R) (Fin k) K) (J2 : Matrix (Fin R) (Fin m) K)
    (W : Matrix (Fin m) (Fin m) K) (hW : J2.transpose * J2 * W = 1) :
    J1.transpose * J1 - J1.transpose * J2 * W * (J1.transpose * J2).transpose
      = (J1 - J2 * (W * (J2.transpose * J1))).transpose
          * (J1 - J2 * (W * (J2.transpose * J1))) := by
  have hS : (J2.transpose * J2).transpose = J2.transpose * J2 := by
    rw [Matrix.transpose_mul, Matrix.transpose_transpose]
  have hWt : W.transpose * (J2.transpose * J2) = 1 := by
    have := congrArg Matrix.transpose hW
    rwa [Matrix.transpose_mul, hS, Matrix.transpose_one] at this
  have hWsymm : W.transpose = W := by
    calc W.transpose = W.transpose * (J2.transpose * J2 * W) := by rw [hW, Matrix.mul_one]
      _ = W.transpose * (J2.transpose * J2) * W := by simp only [Matrix.mul_assoc]
      _ = W := by rw [hWt, Matrix.one_mul]
  have hWS : W * (J2.transpose * J2) = 1 := by rw [← hWsymm]; exact hWt
  have hLt : (J1 - J2 * (W * (J2.transpose * J1))).transpose
      = J1.transpose - J1.transpose * J2 * W * J2.transpose := by
    rw [Matrix.transpose_sub, Matrix.transpose_mul, Matrix.transpose_mul,
      Matrix.transpose_mul, Matrix.transpose_transpose, hWsymm, Matrix.mul_assoc,
      Matrix.mul_assoc]
  have hkey : J1.transpose * J2 * W * J2.transpose * (J2 * (W * (J2.transpose * J1)))
      = J1.transpose * J2 * W * (J2.transpose * J1) := by
    calc J1.transpose * J2 * W * J2.transpose * (J2 * (W * (J2.transpose * J1)))
        = J1.transpose * J2 * (W * (J2.transpose * J2)) * (W * (J2.transpose * J1)) := by
          simp only [Matrix.mul_assoc]
      _ = J1.transpose * J2 * W * (J2.transpose * J1) := by
          rw [hWS, Matrix.mul_one, Matrix.mul_assoc, Matrix.mul_assoc, Matrix.mul_assoc]
  rw [hLt, Matrix.sub_mul, Matrix.mul_sub, Matrix.mul_sub, hkey, Matrix.transpose_mul,
    Matrix.transpose_transpose]
  have e : J1.transpose * (J2 * (W * (J2.transpose * J1)))
      = J1.transpose * J2 * W * (J2.transpose * J1) := by
    simp only [Matrix.mul_assoc]
  have e2 : J1.transpose * J2 * W * J2.transpose * J1
      = J1.transpose * J2 * W * (J2.transpose * J1) := by
    simp only [Matrix.mul_assoc]
  rw [e, e2]
  abel

/-- A matrix `Lᵀ L` over an ordered field is symmetric and its quadratic form is a sum of
squares. -/
theorem transpose_mul_self_psd {K : Type} [LinearOrderedField K] {R k : Nat}
    (L : Matrix (Fin R) (Fin k) K) :
    (L.transpose * L).transpose = L.transpose * L ∧
      ∀ x : Fin k → K, 0 ≤ Matrix.dotProduct x ((L.transpose * L).mulVec x) := by
  refine ⟨by rw [Matrix.transpose_mul, Matrix.transpose_transpose], fun x => ?_⟩
  rw [← Matrix.mulVec_mulVec, Matrix.dotProduct_mulVec, Matrix.vecMul_transpose]
  exact Finset.sum_nonneg fun i _ => mul_self_nonneg _

/-- C19. The matrix `A = H11 - H12 * H22_inv * H12ᵀ` that `Marginalizer::marginalize` computes
from `H = Jᵀ J`, over any linearly ordered field (the reals among them), for every Jacobian
`J` and every split with `remove_state_size ≤ eff_param_size` for which `H22_inv` is an
inverse of `H22`: `A` is symmetric, its quadratic form is nonnegative, and `A = Lᵀ L` for
some `L`; and when the residual vector is long enough for the two segments, `marginalize`
emits this `A`. -/
theorem marginalize_prior_is_psd {K : Type} [LinearOrderedField K] {R P : Nat}
    (inverse : (n : Nat) → Matrix (Fin n) (Fin n) K → Matrix (Fin n) (Fin n) K)
    (J : Matrix (Fin R) (Fin P) K) (residual_vec : Fin R → K) (remove_state_size : Nat)
    (hrem : remove_state_size ≤ P)
    (hinv : block (J.transpose * J) (P - remove_state_size) (P - remove_state_size)
          remove_state_size remove_state_size (by omega) (by omega)
        * inverse remove_state_size
            (block (J.transpose * J) (P - remove_state_size) (P - remove_state_size)
              remove_state_size remove_state_size (by omega) (by omega)) = 1) :
    (marginalizeA inverse J remove_state_size hrem).transpose
        = marginalizeA inverse J remove_state_size hrem ∧
      (∀ x, 0 ≤ Matrix.dotProduct x
        ((marginalizeA inverse J remove_state_size hrem).mulVec x)) ∧
      (∃ L : Matrix (Fin R) (Fin (P - remove_state_size)) K,
        marginalizeA inverse J remove_state_size hrem = L.transpose * L) ∧
      (P ≤ R → ∃ b, marginalizeSchur inverse J residual_vec remove_state_size
        = some (marginalizeA inverse J remove_state_size hrem, b)) := by
  have hk : 0 + (P - remove_state_size) ≤ P := by omega
  have hr : (P - remove_state_size) + remove_state_size ≤ P := by omega
  have hA : marginalizeA inverse J remove_state_size hrem
      = (columns J 0 (P - remove_state_size) hk
          - columns J (P - remove_state_size) remove_state_size hr
            * (inverse remove_state_size
                (block (J.transpose * J) (P - remove_state_size) (P - remove_state_size)
                  remove_state_size remove_state_size hr hr)
              * ((columns J (P - remove_state_size) remove_state_size hr).transpose
                * columns J 0 (P - remove_state_size) hk))).transpose
        * (columns J 0 (P - remove_state_size) hk
          - columns J (P - remove_state_size) remove_state_size hr
            * (inverse remove_state_size
                (block (J.transpose * J) (P - remove_state_size) (P - remove_state_size)
                  remove_state_size remove_state_size hr hr)
              * ((columns J (P - remove_state_size) remove_state_size hr).transpose
                * columns J 0 (P - remove_state_size) hk))) := by
    rw [← schur_factor _ _ _ (by rw [← block_transpose_mul_self]; exact hinv)]
    simp only [marginalizeA, block_transpose_mul_self]
  refine ⟨?_, ?_, ⟨_, hA⟩, fun hres => marginalizeSchur_fst inverse J residual_vec _ hrem hres⟩
  · rw [hA]; exact (transpose_mul_self_psd _).1
  · rw [hA]; exact (transpose_mul_self_psd _).2

/-- Witness of C19 over the reals: the Jacobian `[[1, 1], [0, 1]]` with one kept and one
removed column, where `H22 = 2` is invertible. -/
theorem marginalize_prior_is_psd_witness :
    1 ≤ 2 ∧
    block ((!![1, 1; 0, 1] : Matrix (Fin 2) (Fin 2) ℝ).transpose * !![1, 1; 0, 1])
        (2 - 1) (2 - 1) 1 1 (by decide) (by decide)
      * (block ((!![1, 1; 0, 1] : Matrix (Fin 2) (Fin 2) ℝ).transpose * !![1, 1; 0, 1])
        (2 - 1) (2 - 1) 1 1 (by decide) (by decide))⁻¹ = 1 ∧
    (marginalizeA (fun _ M => M⁻¹) (!![1, 1; 0, 1] : Matrix (Fin 2) (Fin 2) ℝ) 1
        (by decide)).transpose
      = marginalizeA (fun _ M => M⁻¹) (!![1, 1; 0, 1] : Matrix (Fin 2) (Fin 2) ℝ) 1
        (by decide) ∧
    (∀ x, 0 ≤ Matrix.dotProduct x
      ((marginalizeA (fun _ M => M⁻¹) (!![1, 1; 0, 1] : Matrix (Fin 2) (Fin 2) ℝ) 1
        (by decide)).mulVec x)) ∧
    (∃ L : Matrix (Fin 2) (Fin (2 - 1)) ℝ,
      marginalizeA (fun _ M => M⁻¹) (!![1, 1; 0, 1] : Matrix (Fin 2) (Fin 2) ℝ) 1
        (by decide) = L.transpose * L) ∧
    (2 ≤ 2 → ∃ b, marginalizeSchur (fun _ M => M⁻¹)
        (!![1, 1; 0, 1] : Matrix (Fin 2) (Fin 2) ℝ) ![1, 0] 1
      = some (marginalizeA (fun _ M => M⁻¹) (!![1, 1; 0, 1] : Matrix (Fin 2) (Fin 2) ℝ) 1
        (by decide), b)) := by
  have h : block ((!![1, 1; 0, 1] : Matrix (Fin 2) (Fin 2) ℝ).transpose * !![1, 1; 0, 1])
        (2 - 1) (2 - 1) 1 1 (by decide) (by decide)
      * (block ((!![1, 1; 0, 1] : Matrix (Fin 2) (Fin 2) ℝ).transpose * !![1, 1; 0, 1])
        (2 - 1) (2 - 1) 1 1 (by decide) (by decide))⁻¹ = 1 := by
    apply Matrix.mul_nonsing_inv
    rw [Matrix.det_unique, isUnit_iff_ne_zero]
    simp only [block, Matrix.mul_apply, Fin.sum_univ_two, Matrix.transpose_apply,
      Matrix.of_apply]
    norm_num
  exact ⟨by decide, h,
    marginalize_prior_is_psd (fun _ M => M⁻¹) (!![1, 1; 0, 1] : Matrix (Fin 2) (Fin 2) ℝ)
      ![1, 0] 1 (by decide) h⟩

/-- On a well-formed map `sortParams` returns with `params_list` a rearrangement of the
entries that `_params` held before the call, indices included, while the index written into
`_params` for the entry at position `i` is the sum of `eff_size` before that position. -/
theorem sortParams_params_list_copies (sort : List ParamInfo → List ParamInfo)
    (m : Marginalizer) (hsort : IsStdSort sort) (hok : ParamsOk m._params) :
    ∃ (m1 : Marginalizer) (eff_param_size remove_size : Nat),
      sortParams sort m = some (m1, (eff_param_size, remove_size)) ∧
      m1.params_list.Perm (m._params.map Prod.snd) ∧
      ∀ (i : Nat) (p : ParamInfo), m1.params_list[i]? = some p →
        storedIndex m1._params p = prefixSize m1.params_list i := by
  obtain ⟨hperm, -⟩ := hsort (m._params.map Prod.snd)
  generalize hpl : sort (m._params.map Prod.snd) = pl at hperm
  have hkeys : (m._params.map Prod.snd).map (fun p => p.pointer) = m._params.map Prod.fst := by
    rw [List.map_map]
    exact List.map_congr_left (fun kv hkv => hok.2 kv hkv)
  have hndk : (m._params.map Prod.fst).Nodup := hok.1.imp (fun h => ne_of_lt h)
  have hnd : (pl.map (fun p => p.pointer)).Nodup :=
    ((hperm.map (fun p => p.pointer)).nodup_iff).mpr (hkeys ▸ hndk)
  have hin : ∀ p ∈ pl, ∃ n, mapAt p.pointer m._params = some { p with index := n } := by
    intro p hp
    obtain ⟨kv, hkv, rfl⟩ := List.mem_map.mp (hperm.mem_iff.mp hp)
    refine ⟨kv.2.index, ?_⟩
    show mapAt kv.2.pointer m._params = some kv.2
    rw [hok.2 kv hkv]
    exact mapAt_of_mem m._params hndk kv.1 kv.2 hkv
  obtain ⟨mp1, hrun, hidx, -, -⟩ := indexLoop_spec pl m._params 0 0 hnd hin
  refine ⟨{ m with _params := mp1, params_list := pl },
    (pl.map (fun p => p.eff_size)).sum,
    ((pl.filter (fun p => p.is_remove)).map (fun p => p.eff_size)).sum, ?_, hperm, ?_⟩
  · simp only [sortParams, hpl, hrun, Nat.zero_add]
  · intro i p hp
    simp [storedIndex, hidx i p hp]

/-- C21 (code bug). `Marginalizer::sortParams` on the map that `filterResiduals` builds from
one IMU residual between frames 1 and 2 with frame 1 removed, for every `std::sort`
behaviour: the call returns with four entries in `params_list`; every entry still has the
index `0` that `paramsList` reported, while the index assigned to its pointer in `_params`
is the sum of `eff_size` of the entries before it, which is at least `6` from the second
entry on. So `params_list[i].index` differs from `_params[params_list[i].pointer].index` for
`i = 1, 2, 3`. -/
theorem sortParams_params_list_index_stale (sort : List ParamInfo → List ParamInfo)
    (hsort : IsStdSort sort) :
    ∃ (m1 : Marginalizer) (eff_param_size remove_size : Nat),
      sortParams sort (filterResiduals (fun _ => 0)
        { Marginalizer.ofResiduals [imuResInfo 1 2 100 110 200 210] with
          remove_frame_ids := [1] }).1 = some (m1, (eff_param_size, remove_size)) ∧
      m1.params_list.length = 4 ∧
      ∀ (i : Nat) (p : ParamInfo), m1.params_list[i]? = some p →
        p.index = 0 ∧
        storedIndex m1._params p = prefixSize m1.params_list i ∧
        (0 < i → p.index ≠ storedIndex m1._params p) := by
  obtain ⟨m1, P, r, hrun, hperm, hst⟩ := sortParams_params_list_copies sort
    (filterResiduals (fun _ => 0)
      { Marginalizer.ofResiduals [imuResInfo 1 2 100 110 200 210] with
        remove_frame_ids := [1] }).1 hsort (by unfold ParamsOk; decide)
  have hbefore : ∀ p ∈ (filterResiduals (fun _ => 0)
      { Marginalizer.ofResiduals [imuResInfo 1 2 100 110 200 210] with
        remove_frame_ids := [1] }).1._params.map Prod.snd, p.index = 0 ∧ 6 ≤ p.eff_size := by
    decide
  have hall : ∀ p ∈ m1.params_list, p.index = 0 ∧ 6 ≤ p.eff_size :=
    fun p hp => hbefore p (hperm.mem_iff.mp hp)
  refine ⟨m1, P, r, hrun, ?_, ?_⟩
  · rw [hperm.length_eq]; decide
  · intro i p hp
    obtain ⟨hlen, hget⟩ := List.getElem?_eq_some.mp hp
    have hidx := (hall p (hget ▸ List.getElem_mem hlen)).1
    refine ⟨hidx, hst i p hp, fun hi => ?_⟩
    rw [hidx, hst i p hp]
    have h0 : 0 < m1.params_list.length := by omega
    have hq : m1.params_list[0]? = some (m1.params_list[0]) := List.getElem?_eq_getElem h0
    have h1 : prefixSize m1.params_list 1
        = prefixSize m1.params_list 0 + (m1.params_list[0]).eff_size :=
      prefixSize_succ m1.params_list 0 _ hq
    have h4 := prefixSize_zero m1.params_list
    have h2 := prefixSize_mono m1.params_list 1 i hi
    have h3 := (hall _ (List.getElem_mem h0)).2
    omega

/-- Witness of C21 with the sort that keeps each group in its previous order: the pairs
(pointer, index) of `params_list` and of `_params` after the call. -/
theorem sortParams_params_list_index_stale_witness :
    IsStdSort sortByRemove ∧
    (∃ (m1 : Marginalizer) (eff_param_size remove_size : Nat),
      sortParams sortByRemove (filterResiduals (fun _ => 0)
        { Marginalizer.ofResiduals [imuResInfo 1 2 100 110 200 210] with
          remove_frame_ids := [1] }).1 = some (m1, (eff_param_size, remove_size)) ∧
      m1.params_list.length = 4 ∧
      ∀ (i : Nat) (p : ParamInfo), m1.params_list[i]? = some p →
        p.index = 0 ∧
        storedIndex m1._params p = prefixSize m1.params_list i ∧
        (0 < i → p.index ≠ storedIndex m1._params p)) ∧
    (sortParams sortByRemove (filterResiduals (fun _ => 0)
        { Marginalizer.ofResiduals [imuResInfo 1 2 100 110 200 210] with
          remove_frame_ids := [1] }).1).map
        (fun out => (out.1.params_list.map (fun p => (p.pointer, p.index)),
          out.1._params.map (fun kv => (kv.1, kv.2.index))))
      = some ([(200, 0), (210, 0), (100, 0), (110, 0)],
          [(100, 15), (110, 21), (200, 0), (210, 6)]) :=
  ⟨sortByRemove_isStdSort, sortParams_params_list_index_stale sortByRemove
    sortByRemove_isStdSort, by decide⟩

end D2VINS

namespace D2PGO

open CppStd

section EngineTheorems

variable {K P : Type} [LinearOrderedField K] [Group P]

/-- C5. A loop whose relative translation is longer than `loop_distance_threshold` is
ignored by `D2PGO::addLoop`, whatever `add_state_by_loop` is: the engine afterwards is the
engine before, so `all_loops`, the frames of GraphState, `ego_motion_trajs` and `updated` are
unchanged. -/
theorem addLoop_over_threshold (ext : External K P) (self : D2PGO K P)
    (loop_info : LoopEdge K P) (add_state_by_loop : Bool)
    (h : ext.posNorm loop_info.relative_pose > self.config.loop_distance_threshold) :
    addLoop ext self loop_info add_state_by_loop = self ∧
    (addLoop ext self loop_info add_state_by_loop).all_loops.length = self.all_loops.length := by
  have : addLoop ext self loop_info add_state_by_loop = self := by
    unfold addLoop
    rw [if_pos h]
  exact ⟨this, by rw [this]⟩

/-- Witness of C5: a loop of length 11 offered to an engine whose threshold is 10. -/
theorem addLoop_over_threshold_witness :
    exampleExternal.posNorm (Multiplicative.ofAdd (11 : ℤ))
        > (exampleEngine (exampleConfig false PGO_MODE.PGO_MODE_NON_DIST) 0 0
            [exampleFrame 1 0 0 0 0]).config.loop_distance_threshold ∧
    addLoop exampleExternal
        (exampleEngine (exampleConfig false PGO_MODE.PGO_MODE_NON_DIST) 0 0
          [exampleFrame 1 0 0 0 0])
        { exampleExternal.default_loop with
          keyframe_id_a := 1, keyframe_id_b := 2, id_a := 0, id_b := 0,
          relative_pose := Multiplicative.ofAdd (11 : ℤ) } true
      = exampleEngine (exampleConfig false PGO_MODE.PGO_MODE_NON_DIST) 0 0
          [exampleFrame 1 0 0 0 0] :=
  ⟨by simp [exampleExternal, exampleEngine, exampleConfig]; norm_num,
    (addLoop_over_threshold exampleExternal _ _ true
      (by simp [exampleExternal, exampleEngine, exampleConfig]; norm_num)).1⟩

/-- C8. With fewer than `min_solve_size` frames on the local agent, `D2PGO::solve(false)`
returns `false` and the engine afterwards is the engine before: the solver, `used_loops`,
`used_frames`, `solve_count`, `updated` and the count of post-solve callbacks keep their
values. -/
theorem solve_insufficient_frames (ext : External K P) (self : D2PGO K P)
    (h : (self.state.size self.self_id : Int) < self.config.min_solve_size) :
    solve ext self false = some (false, self) := by
  unfold solve
  simp [h]

/-- Witness of C8: one local frame where two are required, with `updated` set. -/
theorem solve_insufficient_frames_witness :
    ((exampleEngine (exampleConfig false PGO_MODE.PGO_MODE_NON_DIST) 0 0
        [exampleFrame 1 0 0 0 0]).state.size 0 : Int)
      < (exampleConfig false PGO_MODE.PGO_MODE_NON_DIST).min_solve_size ∧
    solve exampleExternal
        { exampleEngine (exampleConfig false PGO_MODE.PGO_MODE_NON_DIST) 0 0
            [exampleFrame 1 0 0 0 0] with updated := true } false
      = some (false, { exampleEngine (exampleConfig false PGO_MODE.PGO_MODE_NON_DIST) 0 0
            [exampleFrame 1 0 0 0 0] with updated := true }) :=
  ⟨by decide, solve_insufficient_frames exampleExternal _ (by decide)⟩

theorem getFrames_getLast_of_hasDrone (s : GraphState K P) (drone_id : Int)
    (h : s.hasDrone drone_id = true) :
    ∃ last, (s.getFrames drone_id).getLast? = some last := by
  cases hl : (s.getFrames drone_id).getLast? with
  | some last => exact ⟨last, rfl⟩
  | none =>
      exfalso
      rw [List.getLast?_eq_none_iff] at hl
      simp only [GraphState.hasDrone, List.any_eq_true] at h
      obtain ⟨f, hf, hd⟩ := h
      have : f ∈ s.getFrames drone_id := List.mem_filter.mpr ⟨hf, hd⟩
      rw [hl] at this
      simp at this

theorem installManifolds_constant_blocks (config : D2PGOConfig K) (state : GraphState K P)
    (hasParameterBlock : Int → Bool) (used_frames : List Int) :
    ∀ problem : Problem,
      (installManifolds config state hasParameterBlock used_frames problem).constant_blocks
        = problem.constant_blocks := by
  induction used_frames with
  | nil => intro problem; rfl
  | cons frame_id rest ih =>
      intro problem
      simp only [installManifolds, List.foldl_cons] at ih ⊢
      rw [ih]
      split_ifs <;> rfl

theorem fixFirstReferenced_constant_blocks (state : GraphState K P) (main_id : Int)
    (frames : List (D2BaseFrame K P)) (problem : Problem) :
    (fixFirstReferenced state main_id frames problem).constant_blocks
      = problem.constant_blocks
        ++ ((frames.find? (fun f => f.reference_frame_id == main_id)).map
            (fun f => state.getPoseState f.frame_id)).toList := by
  induction frames with
  | nil => simp [fixFirstReferenced]
  | cons frame rest ih =>
      by_cases h : frame.reference_frame_id = main_id
      · simp [fixFirstReferenced, h, Problem.SetParameterBlockConstant]
      · simp [fixFirstReferenced, h, ih]

/-- In centralized mode, or in distributed mode with `self_id = main_id`,
`setStateProperties` installs the manifolds and then fixes the head frame. -/
theorem setStateProperties_head_branch (self : D2PGO K P) (hasParameterBlock : Int → Bool)
    (problem : Problem) (head : Int)
    (hmode : self.config.mode = PGO_MODE.PGO_MODE_NON_DIST
      ∨ (self.config.mode = PGO_MODE.PGO_MODE_DISTRIBUTED_AROCK
          ∧ self.self_id = self.main_id))
    (hhead : self.state.headId self.self_id = some head) :
    setStateProperties self hasParameterBlock problem
      = some ((installManifolds self.config self.state hasParameterBlock self.used_frames
          problem).SetParameterBlockConstant (self.state.getPoseState head)) := by
  have hcond : self.config.mode = PGO_MODE.PGO_MODE_NON_DIST
      ∨ (self.config.mode.toNat ≥ PGO_MODE.PGO_MODE_DISTRIBUTED_AROCK.toNat
          ∧ self.self_id = self.main_id) := by
    rcases hmode with h | ⟨h, h2⟩
    · exact Or.inl h
    · exact Or.inr ⟨by rw [h], h2⟩
  simp only [setStateProperties, if_pos hcond, hhead]

/-- In distributed mode with `self_id ≠ main_id`, `setStateProperties` installs the manifolds
and then runs the loop over the local frames. -/
theorem setStateProperties_reference_branch (self : D2PGO K P)
    (hasParameterBlock : Int → Bool) (problem : Problem)
    (hmode : self.config.mode = PGO_MODE.PGO_MODE_DISTRIBUTED_AROCK)
    (hne : self.self_id ≠ self.main_id) :
    setStateProperties self hasParameterBlock problem
      = some (fixFirstReferenced self.state self.main_id
          (self.state.getFrames self.self_id)
          (installManifolds self.config self.state hasParameterBlock self.used_frames
            problem)) := by
  have hcond : ¬ (self.config.mode = PGO_MODE.PGO_MODE_NON_DIST
      ∨ (self.config.mode.toNat ≥ PGO_MODE.PGO_MODE_DISTRIBUTED_AROCK.toNat
          ∧ self.self_id = self.main_id)) := by
    rintro (h | ⟨-, h⟩)
    · rw [hmode] at h; cases h
    · exact hne h
  have hcond2 : self.config.mode.toNat ≥ PGO_MODE.PGO_MODE_DISTRIBUTED_AROCK.toNat
      ∧ self.self_id ≠ self.main_id := ⟨by rw [hmode], hne⟩
  simp only [setStateProperties, if_neg hcond, if_pos hcond2]

/-- C6. Anchor selection in `D2PGO::setStateProperties`. In centralized mode, or in
distributed mode with `self_id = main_id`, the one block set constant is the pose block of
`state.headId(self_id)`. In distributed mode with `self_id ≠ main_id` the block set constant
is the pose block of the first frame of `state.getFrames(self_id)`, in list order, whose
`reference_frame_id` is `main_id`. No other block is set constant. -/
theorem setStateProperties_anchor (self : D2PGO K P) (hasParameterBlock : Int → Bool)
    (problem : Problem) :
    (∀ head : Int,
      (self.config.mode = PGO_MODE.PGO_MODE_NON_DIST
        ∨ (self.config.mode = PGO_MODE.PGO_MODE_DISTRIBUTED_AROCK
            ∧ self.self_id = self.main_id)) →
      self.state.headId self.self_id = some head →
      ∃ p, setStateProperties self hasParameterBlock problem = some p ∧
        p.constant_blocks = problem.constant_blocks ++ [self.state.getPoseState head]) ∧
    ((self.config.mode = PGO_MODE.PGO_MODE_DISTRIBUTED_AROCK
        ∧ self.self_id ≠ self.main_id) →
      ∃ p, setStateProperties self hasParameterBlock problem = some p ∧
        p.constant_blocks = problem.constant_blocks
          ++ (((self.state.getFrames self.self_id).find?
                (fun f => f.reference_frame_id == self.main_id)).map
              (fun f => self.state.getPoseState f.frame_id)).toList) := by
  constructor
  · intro head hmode hhead
    refine ⟨_, setStateProperties_head_branch self hasParameterBlock problem head hmode hhead,
      ?_⟩
    show (installManifolds self.config self.state hasParameterBlock self.used_frames
      problem).constant_blocks ++ [self.state.getPoseState head] = _
    rw [installManifolds_constant_blocks]
  · rintro ⟨hmode, hne⟩
    refine ⟨_, setStateProperties_reference_branch self hasParameterBlock problem hmode hne,
      ?_⟩
    rw [fixFirstReferenced_constant_blocks, installManifolds_constant_blocks]

/-- Witness of C6: a centralized engine whose agent 0 has frames 1 and 2 fixes frame 1; a
distributed engine of agent 1 with main agent 0 and frames 10 (reference 1), 11 and 12
(reference 0) fixes frame 11. -/
theorem setStateProperties_anchor_witness :
    (∃ p, setStateProperties
        (exampleEngine (exampleConfig false PGO_MODE.PGO_MODE_NON_DIST) 0 0
          [exampleFrame 1 0 0 0 0, exampleFrame 2 0 0 1 1])
        (fun _ => true) { manifolds := [], constant_blocks := [] } = some p ∧
      p.constant_blocks = [1]) ∧
    (∃ p, setStateProperties
        (exampleEngine (exampleConfig false PGO_MODE.PGO_MODE_DISTRIBUTED_AROCK) 1 0
          [exampleFrame 10 1 1 0 0, exampleFrame 11 1 0 1 1, exampleFrame 12 1 0 2 2])
        (fun _ => true) { manifolds := [], constant_blocks := [] } = some p ∧
      p.constant_blocks = [11]) :=
  ⟨(setStateProperties_anchor
      (exampleEngine (exampleConfig false PGO_MODE.PGO_MODE_NON_DIST) 0 0
        [exampleFrame 1 0 0 0 0, exampleFrame 2 0 0 1 1])
      (fun _ => true) { manifolds := [], constant_blocks := [] }).1 1 (Or.inl rfl) (by decide),
   (setStateProperties_anchor
      (exampleEngine (exampleConfig false PGO_MODE.PGO_MODE_DISTRIBUTED_AROCK) 1 0
        [exampleFrame 10 1 1 0 0, exampleFrame 11 1 0 1 1, exampleFrame 12 1 0 2 2])
      (fun _ => true) { manifolds := [], constant_blocks := [] }).2 ⟨rfl, by decide⟩⟩

/-- Counterexample to C7 as stated: a distributed engine of agent 1 with main agent 0 whose
only local frame 10 has reference frame 1. The local agent has a frame, and
`setStateProperties` returns with no block set constant. -/
theorem setStateProperties_no_anchor :
    0 < (exampleEngine (exampleConfig false PGO_MODE.PGO_MODE_DISTRIBUTED_AROCK) 1 0
          [exampleFrame 10 1 1 0 0]).state.size 1 ∧
    setStateProperties
        { exampleEngine (exampleConfig false PGO_MODE.PGO_MODE_DISTRIBUTED_AROCK) 1 0
            [exampleFrame 10 1 1 0 0] with used_frames := [10] }
        (fun _ => true) { manifolds := [], constant_blocks := [] }
      = some { manifolds := [(10, PoseManifold.PosAngleManifold)], constant_blocks := [] } := by
  constructor
  · decide
  · decide

/-- C7, amended. When the local agent has at least one frame, `D2PGO::setStateProperties`
returns and sets at most one block constant: exactly one in centralized mode, when
`self_id = main_id`, or when some local frame has `reference_frame_id = main_id`; none in
distributed mode with `self_id ≠ main_id` when no local frame has
`reference_frame_id = main_id`. -/
theorem setStateProperties_constant_count (self : D2PGO K P) (hasParameterBlock : Int → Bool)
    (problem : Problem) (hframes : 0 < self.state.size self.self_id) :
    ∃ p, setStateProperties self hasParameterBlock problem = some p ∧
      ((self.config.mode = PGO_MODE.PGO_MODE_NON_DIST ∨ self.self_id = self.main_id
          ∨ ∃ f ∈ self.state.getFrames self.self_id, f.reference_frame_id = self.main_id) →
        p.constant_blocks.length = problem.constant_blocks.length + 1) ∧
      ((self.config.mode = PGO_MODE.PGO_MODE_DISTRIBUTED_AROCK ∧ self.self_id ≠ self.main_id
          ∧ ∀ f ∈ self.state.getFrames self.self_id, f.reference_frame_id ≠ self.main_id) →
        p.constant_blocks = problem.constant_blocks) := by
  have hhead : ∃ head, self.state.headId self.self_id = some head := by
    unfold GraphState.headId
    unfold GraphState.size at hframes
    cases hl : self.state.getFrames self.self_id with
    | nil => rw [hl] at hframes; simp at hframes
    | cons f rest => exact ⟨f.frame_id, rfl⟩
  obtain ⟨head, hhead⟩ := hhead
  by_cases hcase : self.config.mode = PGO_MODE.PGO_MODE_NON_DIST
      ∨ (self.config.mode = PGO_MODE.PGO_MODE_DISTRIBUTED_AROCK ∧ self.self_id = self.main_id)
  · refine ⟨_, setStateProperties_head_branch self hasParameterBlock problem head hcase hhead,
      fun _ => ?_, ?_⟩
    · simp [Problem.SetParameterBlockConstant, installManifolds_constant_blocks]
    rintro ⟨hm, hne, -⟩
    rcases hcase with h | ⟨-, h⟩
    · rw [hm] at h; cases h
    · exact absurd h hne
  · have hmode : self.config.mode = PGO_MODE.PGO_MODE_DISTRIBUTED_AROCK := by
      cases hm : self.config.mode
      · exact absurd (Or.inl hm) hcase
      · rfl
    have hne : self.self_id ≠ self.main_id := fun h => hcase (Or.inr ⟨hmode, h⟩)
    have hc := fixFirstReferenced_constant_blocks self.state self.main_id
      (self.state.getFrames self.self_id)
      (installManifolds self.config self.state hasParameterBlock self.used_frames problem)
    rw [installManifolds_constant_blocks] at hc
    refine ⟨_, setStateProperties_reference_branch self hasParameterBlock problem hmode hne,
      ?_, ?_⟩
    · rintro (h | h | ⟨f, hf, href⟩)
      · rw [hmode] at h; cases h
      · exact absurd h hne
      · cases hfind : (self.state.getFrames self.self_id).find?
            (fun f => f.reference_frame_id == self.main_id) with
        | none =>
            rw [List.find?_eq_none] at hfind
            exact absurd (by simpa using href) (hfind f hf)
        | some g => simp [hc, hfind]
    · rintro ⟨-, -, hall⟩
      have hfind : (self.state.getFrames self.self_id).find?
          (fun f => f.reference_frame_id == self.main_id) = none := by
        rw [List.find?_eq_none]
        intro f hf
        simpa using hall f hf
      simp [hc, hfind]

/-- Witness of C7, amended: a centralized engine whose agent 0 has two frames. -/
theorem setStateProperties_constant_count_witness :
    0 < (exampleEngine (exampleConfig false PGO_MODE.PGO_MODE_NON_DIST) 0 0
          [exampleFrame 1 0 0 0 0, exampleFrame 2 0 0 1 1]).state.size 0 ∧
    ∃ p, setStateProperties
        (exampleEngine (exampleConfig false PGO_MODE.PGO_MODE_NON_DIST) 0 0
          [exampleFrame 1 0 0 0 0, exampleFrame 2 0 0 1 1])
        (fun _ => true) { manifolds := [], constant_blocks := [] } = some p ∧
      p.constant_blocks.length = 1 :=
  ⟨by decide,
    (setStateProperties_constant_count
      (exampleEngine (exampleConfig false PGO_MODE.PGO_MODE_NON_DIST) 0 0
        [exampleFrame 1 0 0 0 0, exampleFrame 2 0 0 1 1])
      (fun _ => true) { manifolds := [], constant_blocks := [] } (by decide)).imp
      (fun _ h => ⟨h.1, h.2.1 (Or.inl rfl)⟩)⟩

theorem GraphState.addFrame_fresh (s : GraphState K P) (frame : D2BaseFrame K P)
    (h : s.hasFrame frame.frame_id = false) :
    (s.addFrame frame).frames = s.frames ++ [frame] := by
  simp [GraphState.addFrame, h]

/-- C9. Real-time propagation in `D2PGO::addFrame`. With `is_realtime` set and an agent that
already has frames, the frame handed to GraphState has odometry pose
`last.odom_pose * last.initial_ego_pose⁻¹ * frame.initial_ego_pose`, where `last` is the
agent's last frame; otherwise the frame is handed on with the odometry pose it came with.
When its id is not registered yet, that frame is stored after the existing ones. -/
theorem addFrame_realtime_propagation (self : D2PGO K P) (frame : D2BaseFrame K P) :
    (self.config.is_realtime = true → self.state.hasDrone frame.drone_id = true →
      ∃ last, (self.state.getFrames frame.drone_id).getLast? = some last ∧
        (addFrame self frame).state = self.state.addFrame { frame with
          odom_pose := last.odom_pose * last.initial_ego_pose⁻¹ * frame.initial_ego_pose } ∧
        (self.state.hasFrame frame.frame_id = false →
          (addFrame self frame).state.frames = self.state.frames ++ [{ frame with
            odom_pose :=
              last.odom_pose * last.initial_ego_pose⁻¹ * frame.initial_ego_pose }])) ∧
    ((self.config.is_realtime = false ∨ self.state.hasDrone frame.drone_id = false) →
      (addFrame self frame).state = self.state.addFrame frame ∧
      (self.state.hasFrame frame.frame_id = false →
        (addFrame self frame).state.frames = self.state.frames ++ [frame])) := by
  constructor
  · intro hrt hdrone
    obtain ⟨last, hlast⟩ := getFrames_getLast_of_hasDrone self.state frame.drone_id hdrone
    have hstate : (addFrame self frame).state = self.state.addFrame { frame with
        odom_pose := last.odom_pose * last.initial_ego_pose⁻¹ * frame.initial_ego_pose } := by
      simp only [addFrame, hrt, hdrone, hlast, DeltaPose, Bool.and_self, if_true, mul_assoc]
    refine ⟨last, hlast, hstate, fun hfresh => ?_⟩
    rw [hstate]
    exact GraphState.addFrame_fresh self.state _ hfresh
  · intro hcase
    have hcond : (self.config.is_realtime && self.state.hasDrone frame.drone_id) = false := by
      rcases hcase with h | h <;> simp [h]
    have hstate : (addFrame self frame).state = self.state.addFrame frame := by
      simp only [addFrame, hcond, Bool.false_eq_true, if_false]
    refine ⟨hstate, fun hfresh => ?_⟩
    rw [hstate]
    exact GraphState.addFrame_fresh self.state _ hfresh

/-- Witness of C9: in real-time mode, agent 0 holds frame 1 with ego pose 5 and estimate 7;
frame 2 arrives with ego pose 8 and is stored with estimate 7 - 5 + 8 = 10. Without
real-time mode the same frame is stored with the estimate 0 it came with. -/
theorem addFrame_realtime_propagation_witness :
    (addFrame (exampleEngine (exampleConfig true PGO_MODE.PGO_MODE_NON_DIST) 0 0
        [exampleFrame 1 0 0 5 7]) (exampleFrame 2 0 0 8 0)).state.frames
      = [exampleFrame 1 0 0 5 7, exampleFrame 2 0 0 8 10] ∧
    (addFrame (exampleEngine (exampleConfig false PGO_MODE.PGO_MODE_NON_DIST) 0 0
        [exampleFrame 1 0 0 5 7]) (exampleFrame 2 0 0 8 0)).state.frames
      = [exampleFrame 1 0 0 5 7, exampleFrame 2 0 0 8 0] := by
  constructor
  · obtain ⟨last, hlast, -, hstored⟩ :=
      (addFrame_realtime_propagation
        (exampleEngine (exampleConfig true PGO_MODE.PGO_MODE_NON_DIST) 0 0
          [exampleFrame 1 0 0 5 7]) (exampleFrame 2 0 0 8 0)).1 rfl (by decide)
    have hl : last = exampleFrame 1 0 0 5 7 := by
      have : (exampleEngine (exampleConfig true PGO_MODE.PGO_MODE_NON_DIST) 0 0
          [exampleFrame 1 0 0 5 7]).state.getFrames (exampleFrame 2 0 0 8 0).drone_id
          = [exampleFrame 1 0 0 5 7] := rfl
      rw [this] at hlast
      exact (Option.some.inj hlast).symm
    subst hl
    rw [hstored (by decide)]
    rfl
  · exact ((addFrame_realtime_propagation
        (exampleEngine (exampleConfig false PGO_MODE.PGO_MODE_NON_DIST) 0 0
          [exampleFrame 1 0 0 5 7]) (exampleFrame 2 0 0 8 0)).2 (Or.inl rfl)).2 (by decide)

/-- The diagonal of the ego-motion covariance for the (clamped) length `len`. -/
theorem egoMotionCov_eq_diagonal {K : Type} [LinearOrderedField K] (sp sy len : K) :
    egoMotionCov sp sy len
      = Matrix.diagonal (fun i : Fin 6 =>
          if i.val < 3 then sp * len + (1 / 2) * sy * len * len else sy * len) := by
  ext i j
  by_cases hij : i = j
  · subst hij
    by_cases h3 : i.val < 3
    · simp [egoMotionCov, Matrix.diagonal_apply, h3]
    · simp [egoMotionCov, Matrix.diagonal_apply, h3, not_lt.mp h3]
  · simp [egoMotionCov, Matrix.diagonal_apply, hij]

/-- Entries of the square-root information over the reals, for a clamped length with a
positive covariance diagonal. -/
theorem egoMotionSqrtInfo_apply (sp sy mcl len : ℝ) (hp : 0 < sp) (hy : 0 < sy)
    (hm : 0 < mcl) (i j : Fin 6) :
    egoMotionSqrtInfo Real.sqrt (fun M => M⁻¹) sp sy mcl len i j
      = if i = j then
          Real.sqrt (if i.val < 3 then
            (sp * max len mcl + (1 / 2) * sy * max len mcl * max len mcl)⁻¹
            else (sy * max len mcl)⁻¹)
        else 0 := by
  have hclamp : (if len < mcl then mcl else len) = max len mcl := by
    rcases lt_or_le len mcl with h | h
    · rw [if_pos h, max_eq_right h.le]
    · rw [if_neg (not_lt.mpr h), max_eq_left h]
  have hL : 0 < max len mcl := lt_of_lt_of_le hm (le_max_right _ _)
  have hd : ∀ i : Fin 6, 0 < (if i.val < 3 then
      sp * max len mcl + (1 / 2) * sy * max len mcl * max len mcl else sy * max len mcl) := by
    intro i
    split_ifs
    · positivity
    · positivity
  have hinv : (Matrix.diagonal (fun i : Fin 6 => if i.val < 3 then
      sp * max len mcl + (1 / 2) * sy * max len mcl * max len mcl else sy * max len mcl))⁻¹
      = Matrix.diagonal (fun i : Fin 6 => (if i.val < 3 then
          sp * max len mcl + (1 / 2) * sy * max len mcl * max len mcl
          else sy * max len mcl)⁻¹) := by
    apply Matrix.inv_eq_right_inv
    rw [Matrix.diagonal_mul_diagonal]
    rw [← Matrix.diagonal_one]
    refine congrArg Matrix.diagonal (funext fun i => ?_)
    exact mul_inv_cancel₀ (ne_of_gt (hd i))
  simp only [egoMotionSqrtInfo, hclamp, egoMotionCov_eq_diagonal, hinv, Matrix.map_apply,
    Matrix.diagonal_apply]
  by_cases hij : i = j
  · subst hij
    simp only [if_true]
    rw [abs_of_pos (inv_pos.mpr (hd i))]
    split_ifs <;> rfl
  · simp [hij]

/-- C10. Ego-motion monotone covariance over the reals: for positive
`pos_covariance_per_meter`, `yaw_covariance_per_meter` and `min_cov_len` and edge lengths
`L1 < L2`, every entry of the square-root information matrix that
`D2PGO::setupEgoMotionFactors` builds for `L1` is greater than or equal to the same entry of
the one it builds for `L2`. -/
theorem egoMotionSqrtInfo_antitone (sp sy mcl L1 L2 : ℝ) (hp : 0 < sp) (hy : 0 < sy)
    (hm : 0 < mcl) (hL : L1 < L2) (i j : Fin 6) :
    egoMotionSqrtInfo Real.sqrt (fun M => M⁻¹) sp sy mcl L2 i j
      ≤ egoMotionSqrtInfo Real.sqrt (fun M => M⁻¹) sp sy mcl L1 i j := by
  rw [egoMotionSqrtInfo_apply sp sy mcl L1 hp hy hm, egoMotionSqrtInfo_apply sp sy mcl L2 hp hy hm]
  have h1 : 0 < max L1 mcl := lt_of_lt_of_le hm (le_max_right _ _)
  have h12 : max L1 mcl ≤ max L2 mcl := max_le_max hL.le le_rfl
  by_cases hij : i = j
  · simp only [if_pos hij]
    apply Real.sqrt_le_sqrt
    by_cases h3 : i.val < 3
    · simp only [if_pos h3]
      apply inv_anti₀ (by positivity)
      have : max L1 mcl * max L1 mcl ≤ max L2 mcl * max L2 mcl :=
        mul_le_mul h12 h12 h1.le (h1.le.trans h12)
      nlinarith [mul_le_mul_of_nonneg_left h12 hp.le, mul_le_mul_of_nonneg_left this hy.le]
    · simp only [if_neg h3]
      apply inv_anti₀ (by positivity)
      exact mul_le_mul_of_nonneg_left h12 hy.le
  · simp only [if_neg hij, le_refl]

/-- Witness of C10: unit noise densities, minimum length 1, lengths 1 and 2. -/
theorem egoMotionSqrtInfo_antitone_witness :
    (0 : ℝ) < 1 ∧ (1 : ℝ) < 2 ∧ ∀ i j : Fin 6,
      egoMotionSqrtInfo Real.sqrt (fun M => M⁻¹) (1 : ℝ) 1 1 2 i j
        ≤ egoMotionSqrtInfo Real.sqrt (fun M => M⁻¹) (1 : ℝ) 1 1 1 i j :=
  ⟨one_pos, one_lt_two, fun i j =>
    egoMotionSqrtInfo_antitone 1 1 1 1 2 one_pos one_pos one_pos one_lt_two i j⟩

/-- The frame that `addFrame` hands to GraphState keeps every field but the odometry pose. -/
theorem addFrame_state_plain (self : D2PGO K P) (frame : D2BaseFrame K P)
    (h : self.config.is_realtime = false ∨ self.state.hasDrone frame.drone_id = false) :
    (addFrame self frame).state = self.state.addFrame frame := by
  have hcond : (self.config.is_realtime && self.state.hasDrone frame.drone_id) = false := by
    rcases h with h | h <;> simp [h]
  simp only [addFrame, hcond, Bool.false_eq_true, if_false]

theorem addFrame_state_realtime (self : D2PGO K P) (frame last : D2BaseFrame K P)
    (hrt : self.config.is_realtime = true) (hdrone : self.state.hasDrone frame.drone_id = true)
    (hlast : (self.state.getFrames frame.drone_id).getLast? = some last) :
    (addFrame self frame).state = self.state.addFrame { frame with
      odom_pose := last.odom_pose * last.initial_ego_pose⁻¹ * frame.initial_ego_pose } := by
  simp only [addFrame, hrt, hdrone, hlast, DeltaPose, Bool.and_self, if_true, mul_assoc]

/-- Whatever the mode, the frame handed to GraphState differs from the input in its odometry
pose only. -/
theorem addFrame_state_exists (self : D2PGO K P) (frame : D2BaseFrame K P) :
    ∃ pose, (addFrame self frame).state = self.state.addFrame { frame with odom_pose := pose } := by
  by_cases h : self.config.is_realtime = true ∧ self.state.hasDrone frame.drone_id = true
  · obtain ⟨last, hlast⟩ := getFrames_getLast_of_hasDrone self.state frame.drone_id h.2
    exact ⟨_, addFrame_state_realtime self frame last h.1 h.2 hlast⟩
  · refine ⟨frame.odom_pose, ?_⟩
    have : self.config.is_realtime = false ∨ self.state.hasDrone frame.drone_id = false := by
      by_cases h1 : self.config.is_realtime = true
      · right
        cases hd : self.state.hasDrone frame.drone_id
        · rfl
        · exact absurd ⟨h1, hd⟩ h
      · left
        simpa using h1
    exact addFrame_state_plain self frame this

theorem addFrame_updated (self : D2PGO K P) (frame : D2BaseFrame K P) :
    (addFrame self frame).updated = true := rfl

theorem addFrame_all_loops (self : D2PGO K P) (frame : D2BaseFrame K P) :
    (addFrame self frame).all_loops = self.all_loops := rfl

/-- The trajectory entry that `addFrame` pushes. -/
theorem addFrame_ego_motion_trajs (self : D2PGO K P) (frame : D2BaseFrame K P) :
    ∃ traj, mapAt frame.drone_id (addFrame self frame).ego_motion_trajs = some traj ∧
      traj.entries
        = (match mapAt frame.drone_id self.ego_motion_trajs with
            | some old => old.entries
            | none => [])
          ++ [(frame.stamp, frame.initial_ego_pose, frame.frame_id)] := by
  have hfields : ∀ f : D2BaseFrame K P,
      (if self.config.is_realtime && self.state.hasDrone frame.drone_id then
        match (self.state.getFrames frame.drone_id).getLast? with
        | some last => { frame with odom_pose :=
            last.odom_pose * DeltaPose last.initial_ego_pose frame.initial_ego_pose }
        | none => frame
      else frame) = f →
      f.drone_id = frame.drone_id ∧ f.stamp = frame.stamp
        ∧ f.initial_ego_pose = frame.initial_ego_pose ∧ f.frame_id = frame.frame_id := by
    intro f hf
    subst hf
    split_ifs
    · split <;> exact ⟨rfl, rfl, rfl, rfl⟩
    · exact ⟨rfl, rfl, rfl, rfl⟩
  obtain ⟨h1, h2, h3, h4⟩ := hfields _ rfl
  simp only [addFrame]
  rw [h1, h2, h3, h4]
  cases hold : mapAt frame.drone_id self.ego_motion_trajs with
  | none =>
      simp only [Option.isNone_none, if_true]
      exact ⟨_, mapAt_mapModify_same _ _ _ _ (mapAt_mapInsert_same _ _ _), rfl⟩
  | some old =>
      simp only [Option.isNone_some, Bool.false_eq_true, if_false]
      exact ⟨_, mapAt_mapModify_same _ _ _ _ hold, rfl⟩

theorem GraphState.addFrame_of_hasFrame (s : GraphState K P) (frame : D2BaseFrame K P)
    (h : s.hasFrame frame.frame_id = true) : s.addFrame frame = s := by
  simp [GraphState.addFrame, h]

/-- Counterexample to C11 as stated: frame 1 of agent 0 is offered to an engine that already
holds it. Afterwards `updated` has gone from `false` to `true` and the ego-motion trajectory
of agent 0, absent before, holds an entry for frame 1. -/
theorem addFrame_duplicate_has_effect :
    (exampleEngine (exampleConfig false PGO_MODE.PGO_MODE_NON_DIST) 0 0
      [exampleFrame 1 0 0 5 7]).state.hasFrame (exampleFrame 1 0 0 5 7).frame_id = true ∧
    (exampleEngine (exampleConfig false PGO_MODE.PGO_MODE_NON_DIST) 0 0
      [exampleFrame 1 0 0 5 7]).updated = false ∧
    (addFrame (exampleEngine (exampleConfig false PGO_MODE.PGO_MODE_NON_DIST) 0 0
      [exampleFrame 1 0 0 5 7]) (exampleFrame 1 0 0 5 7)).updated = true ∧
    (exampleEngine (exampleConfig false PGO_MODE.PGO_MODE_NON_DIST) 0 0
      [exampleFrame 1 0 0 5 7]).ego_motion_trajs.map
        (fun kv => (kv.1, kv.2.entries.map (fun e => e.2.2))) = [] ∧
    (addFrame (exampleEngine (exampleConfig false PGO_MODE.PGO_MODE_NON_DIST) 0 0
      [exampleFrame 1 0 0 5 7]) (exampleFrame 1 0 0 5 7)).ego_motion_trajs.map
        (fun kv => (kv.1, kv.2.entries.map (fun e => e.2.2))) = [(0, [1])] := by
  refine ⟨by decide, rfl, rfl, rfl, by decide⟩

/-- C11, amended. For a frame whose `frame_id` is already present in GraphState,
`D2PGO::addFrame` leaves the frames of GraphState unchanged, sets `updated` to `true` and
pushes one entry `(stamp, initial_ego_pose, frame_id)` onto the ego-motion trajectory of the
frame's agent, which it creates when the agent has none. -/
theorem addFrame_duplicate (self : D2PGO K P) (frame : D2BaseFrame K P)
    (hdup : self.state.hasFrame frame.frame_id = true) :
    (addFrame self frame).state = self.state ∧
    (addFrame self frame).updated = true ∧
    ∃ traj, mapAt frame.drone_id (addFrame self frame).ego_motion_trajs = some traj ∧
      traj.entries
        = (match mapAt frame.drone_id self.ego_motion_trajs with
            | some old => old.entries
            | none => [])
          ++ [(frame.stamp, frame.initial_ego_pose, frame.frame_id)] := by
  refine ⟨?_, rfl, addFrame_ego_motion_trajs self frame⟩
  obtain ⟨pose, hpose⟩ := addFrame_state_exists self frame
  rw [hpose]
  exact GraphState.addFrame_of_hasFrame self.state _ hdup

/-- Witness of C11, amended: frame 1 offered a second time. -/
theorem addFrame_duplicate_witness :
    (exampleEngine (exampleConfig false PGO_MODE.PGO_MODE_NON_DIST) 0 0
      [exampleFrame 1 0 0 5 7]).state.hasFrame (exampleFrame 1 0 0 5 7).frame_id = true ∧
    (addFrame (exampleEngine (exampleConfig false PGO_MODE.PGO_MODE_NON_DIST) 0 0
      [exampleFrame 1 0 0 5 7]) (exampleFrame 1 0 0 5 7)).state
      = (exampleEngine (exampleConfig false PGO_MODE.PGO_MODE_NON_DIST) 0 0
          [exampleFrame 1 0 0 5 7]).state :=
  ⟨by decide, (addFrame_duplicate _ (exampleFrame 1 0 0 5 7) (by decide)).1⟩

/-- The frames that `addFrame` leaves in GraphState depend on the configuration and on
GraphState only. -/
theorem addFrame_state_congr (s1 s2 : D2PGO K P) (frame : D2BaseFrame K P)
    (hc : s1.config = s2.config) (hs : s1.state = s2.state) :
    (addFrame s1 frame).state = (addFrame s2 frame).state := by
  simp only [addFrame, hc, hs]

/-- An accepted loop with `add_state_by_loop` unset, or with both or neither endpoint known,
touches `all_loops` and `updated` only. -/
theorem addLoop_state_unchanged (ext : External K P) (self : D2PGO K P)
    (loop_info : LoopEdge K P) (add_state_by_loop : Bool)
    (h : add_state_by_loop = false
      ∨ self.state.hasFrame loop_info.keyframe_id_a
          = self.state.hasFrame loop_info.keyframe_id_b) :
    (addLoop ext self loop_info add_state_by_loop).state = self.state := by
  unfold addLoop
  by_cases hthr : ext.posNorm loop_info.relative_pose > self.config.loop_distance_threshold
  · rw [if_pos hthr]
  · rw [if_neg hthr]
    rcases h with h | h
    · subst h
      simp
    · cases hb : self.state.hasFrame loop_info.keyframe_id_b <;> simp [h, hb]

/-- An accepted loop whose endpoint `b` alone is missing hands the frame built from `a` and
the loop to `addFrame`. -/
theorem addLoop_state_b_missing (ext : External K P) (self : D2PGO K P)
    (loop_info : LoopEdge K P) (frame_a : D2BaseFrame K P)
    (hacc : ¬ ext.posNorm loop_info.relative_pose > self.config.loop_distance_threshold)
    (ha : self.state.hasFrame loop_info.keyframe_id_a = true)
    (hb : self.state.hasFrame loop_info.keyframe_id_b = false)
    (hfa : self.state.getFramebyId loop_info.keyframe_id_a = some frame_a) :
    (addLoop ext self loop_info true).state
      = (addFrame self
          { ext.default_frame with
            drone_id := loop_info.id_b
            frame_id := loop_info.keyframe_id_b
            reference_frame_id := frame_a.reference_frame_id
            odom_pose := frame_a.odom_pose * loop_info.relative_pose }).state := by
  unfold addLoop
  simp only [hacc, ha, hb, hfa, if_false, if_true, Bool.not_false, Bool.and_self]
  exact addFrame_state_congr _ _ _ rfl rfl

/-- An accepted loop whose endpoint `a` alone is missing hands the frame built from `b` and
the inverse of the loop to `addFrame`. -/
theorem addLoop_state_a_missing (ext : External K P) (self : D2PGO K P)
    (loop_info : LoopEdge K P) (frame_b : D2BaseFrame K P)
    (hacc : ¬ ext.posNorm loop_info.relative_pose > self.config.loop_distance_threshold)
    (ha : self.state.hasFrame loop_info.keyframe_id_a = false)
    (hb : self.state.hasFrame loop_info.keyframe_id_b = true)
    (hfb : self.state.getFramebyId loop_info.keyframe_id_b = some frame_b) :
    (addLoop ext self loop_info true).state
      = (addFrame self
          { ext.default_frame with
            drone_id := loop_info.id_a
            frame_id := loop_info.keyframe_id_a
            reference_frame_id := frame_b.reference_frame_id
            odom_pose := frame_b.odom_pose * loop_info.relative_pose⁻¹ }).state := by
  unfold addLoop
  simp only [hacc, ha, hb, hfb, if_false, if_true, Bool.not_false, Bool.and_self,
    Bool.not_true, Bool.and_false, Bool.false_eq_true, Bool.false_and]
  exact addFrame_state_congr _ _ _ rfl rfl

/-- C12 (code bug). `D2PGO::addLoop` in real-time mode, with poses as translations along a
line: agent 0 holds frame 1 with ego pose 5 and estimate 7; the accepted loop from frame 1
to the unknown frame 2 of agent 0 with relative pose 3 is added with `add_state_by_loop`.
Lines 50-51 compute `pose_a * T_ab = 7 + 3 = 10` for the new frame, and `addFrame`, since
agent 0 already has a frame, replaces it by the real-time propagation from frame 1 with the
ego pose `0` of the default-constructed frame: frame 2 is stored with estimate
`7 - 5 + 0 = 2`, so that `pose_a⁻¹ * pose_b = -5` and not `T_ab = 3`. -/
theorem addLoop_realtime_overrides_loop_pose :
    ¬ (exampleExternal.posNorm (Multiplicative.ofAdd (3 : ℤ))
        > (exampleConfig true PGO_MODE.PGO_MODE_NON_DIST).loop_distance_threshold) ∧
    (addLoop exampleExternal
        (exampleEngine (exampleConfig true PGO_MODE.PGO_MODE_NON_DIST) 0 0
          [exampleFrame 1 0 0 5 7])
        { exampleExternal.default_loop with
          keyframe_id_a := 1, keyframe_id_b := 2, id_a := 0, id_b := 0,
          relative_pose := Multiplicative.ofAdd (3 : ℤ) } true).state.frames.map
        (fun f => (f.frame_id, f.drone_id, Multiplicative.toAdd f.odom_pose))
      = [(1, 0, 7), (2, 0, 2)] := by
  constructor
  · simp [exampleExternal, exampleConfig]
    norm_num
  · have hacc : ¬ (exampleExternal.posNorm (Multiplicative.ofAdd (3 : ℤ))
        > (exampleConfig true PGO_MODE.PGO_MODE_NON_DIST).loop_distance_threshold) := by
      simp [exampleExternal, exampleConfig]
      norm_num
    rw [addLoop_state_b_missing exampleExternal
      (exampleEngine (exampleConfig true PGO_MODE.PGO_MODE_NON_DIST) 0 0
        [exampleFrame 1 0 0 5 7])
      { exampleExternal.default_loop with
        keyframe_id_a := 1, keyframe_id_b := 2, id_a := 0, id_b := 0,
        relative_pose := Multiplicative.ofAdd (3 : ℤ) }
      (exampleFrame 1 0 0 5 7) hacc (by decide) (by decide) rfl]
    rfl

/-- What `D2PGO::addLoop` stores for an accepted loop `(a, b, T_ab)` added with
`add_state_by_loop`. When `a` is known and `b` is not, and real-time mode is off or the
agent of `b` has no frame yet, frame `b` is stored with the odometry pose `pose_a * T_ab`
computed at lines 50-51; when `b` is known and `a` is not, and real-time mode is off or the
agent of `a` has no frame yet, frame `a` is stored with `pose_b * T_ab⁻¹`; in both cases
`pose_a⁻¹ * pose_b = T_ab` afterwards. In real-time mode, when the agent of the missing
endpoint already has frames, the computed pose is lost: `addFrame` stores the propagation
from that agent's last frame with the ego pose of the default-constructed frame. When both
or neither endpoint is known, or without `add_state_by_loop`, GraphState is unchanged. -/
theorem addLoop_auto_instantiation (ext : External K P) (self : D2PGO K P)
    (loop_info : LoopEdge K P)
    (hacc : ¬ ext.posNorm loop_info.relative_pose > self.config.loop_distance_threshold) :
    (∀ frame_a : D2BaseFrame K P,
      self.state.hasFrame loop_info.keyframe_id_a = true →
      self.state.hasFrame loop_info.keyframe_id_b = false →
      self.state.getFramebyId loop_info.keyframe_id_a = some frame_a →
      ((self.config.is_realtime = false ∨ self.state.hasDrone loop_info.id_b = false) →
        (addLoop ext self loop_info true).state.frames
          = self.state.frames ++ [{ ext.default_frame with
              drone_id := loop_info.id_b
              frame_id := loop_info.keyframe_id_b
              reference_frame_id := frame_a.reference_frame_id
              odom_pose := frame_a.odom_pose * loop_info.relative_pose }] ∧
        frame_a.odom_pose⁻¹ * (frame_a.odom_pose * loop_info.relative_pose)
          = loop_info.relative_pose) ∧
      (∀ last : D2BaseFrame K P, self.config.is_realtime = true →
        (self.state.getFrames loop_info.id_b).getLast? = some last →
        (addLoop ext self loop_info true).state.frames
          = self.state.frames ++ [{ ext.default_frame with
              drone_id := loop_info.id_b
              frame_id := loop_info.keyframe_id_b
              reference_frame_id := frame_a.reference_frame_id
              odom_pose := last.odom_pose * last.initial_ego_pose⁻¹
                * ext.default_frame.initial_ego_pose }])) ∧
    (∀ frame_b : D2BaseFrame K P,
      self.state.hasFrame loop_info.keyframe_id_a = false →
      self.state.hasFrame loop_info.keyframe_id_b = true →
      self.state.getFramebyId loop_info.keyframe_id_b = some frame_b →
      ((self.config.is_realtime = false ∨ self.state.hasDrone loop_info.id_a = false) →
        (addLoop ext self loop_info true).state.frames
          = self.state.frames ++ [{ ext.default_frame with
              drone_id := loop_info.id_a
              frame_id := loop_info.keyframe_id_a
              reference_frame_id := frame_b.reference_frame_id
              odom_pose := frame_b.odom_pose * loop_info.relative_pose⁻¹ }] ∧
        (frame_b.odom_pose * loop_info.relative_pose⁻¹)⁻¹ * frame_b.odom_pose
          = loop_info.relative_pose) ∧
      (∀ last : D2BaseFrame K P, self.config.is_realtime = true →
        (self.state.getFrames loop_info.id_a).getLast? = some last →
        (addLoop ext self loop_info true).state.frames
          = self.state.frames ++ [{ ext.default_frame with
              drone_id := loop_info.id_a
              frame_id := loop_info.keyframe_id_a
              reference_frame_id := frame_b.reference_frame_id
              odom_pose := last.odom_pose * last.initial_ego_pose⁻¹
                * ext.default_frame.initial_ego_pose }])) ∧
    (self.state.hasFrame loop_info.keyframe_id_a = self.state.hasFrame loop_info.keyframe_id_b →
      (addLoop ext self loop_info true).state = self.state) ∧
    (addLoop ext self loop_info false).state = self.state := by
  have hlast_drone : ∀ (d : Int) (last : D2BaseFrame K P),
      (self.state.getFrames d).getLast? = some last → self.state.hasDrone d = true := by
    intro d last hl
    have hmem : last ∈ self.state.getFrames d := List.mem_of_getLast?_eq_some hl
    have := List.mem_filter.mp hmem
    simp only [GraphState.hasDrone, List.any_eq_true]
    exact ⟨last, this.1, this.2⟩
  refine ⟨?_, ?_, ?_, ?_⟩
  · intro frame_a ha hb hfa
    rw [addLoop_state_b_missing ext self loop_info frame_a hacc ha hb hfa]
    constructor
    · intro hmode
      rw [addFrame_state_plain self _ hmode]
      exact ⟨GraphState.addFrame_fresh self.state _ hb, by group⟩
    · intro last hrt hlast
      rw [addFrame_state_realtime self _ last hrt (hlast_drone _ last hlast) hlast]
      exact GraphState.addFrame_fresh self.state _ hb
  · intro frame_b ha hb hfb
    rw [addLoop_state_a_missing ext self loop_info frame_b hacc ha hb hfb]
    constructor
    · intro hmode
      rw [addFrame_state_plain self _ hmode]
      exact ⟨GraphState.addFrame_fresh self.state _ ha, by group⟩
    · intro last hrt hlast
      rw [addFrame_state_realtime self _ last hrt (hlast_drone _ last hlast) hlast]
      exact GraphState.addFrame_fresh self.state _ ha
  · intro h
    exact addLoop_state_unchanged ext self loop_info true (Or.inr h)
  · exact addLoop_state_unchanged ext self loop_info false (Or.inl rfl)

/-- An instance of `addLoop_auto_instantiation`: without real-time mode, agent 0 holds
frame 1 with estimate 7; the accepted loop from frame 1 to the unknown frame 2 with relative
pose 3 stores frame 2 with estimate 10. -/
theorem addLoop_auto_instantiation_witness :
    ¬ (exampleExternal.posNorm (Multiplicative.ofAdd (3 : ℤ))
        > (exampleConfig false PGO_MODE.PGO_MODE_NON_DIST).loop_distance_threshold) ∧
    (addLoop exampleExternal
        (exampleEngine (exampleConfig false PGO_MODE.PGO_MODE_NON_DIST) 0 0
          [exampleFrame 1 0 0 5 7])
        { exampleExternal.default_loop with
          keyframe_id_a := 1, keyframe_id_b := 2, id_a := 0, id_b := 0,
          relative_pose := Multiplicative.ofAdd (3 : ℤ) } true).state.frames
      = [exampleFrame 1 0 0 5 7,
          { exampleExternal.default_frame with
            drone_id := 0, frame_id := 2, reference_frame_id := 0,
            odom_pose := Multiplicative.ofAdd (10 : ℤ) }] := by
  have hacc : ¬ (exampleExternal.posNorm (Multiplicative.ofAdd (3 : ℤ))
      > (exampleConfig false PGO_MODE.PGO_MODE_NON_DIST).loop_distance_threshold) := by
    simp [exampleExternal, exampleConfig]
    norm_num
  exact ⟨hacc, ((addLoop_auto_instantiation exampleExternal
    (exampleEngine (exampleConfig false PGO_MODE.PGO_MODE_NON_DIST) 0 0
      [exampleFrame 1 0 0 5 7])
    { exampleExternal.default_loop with
      keyframe_id_a := 1, keyframe_id_b := 2, id_a := 0, id_b := 0,
      relative_pose := Multiplicative.ofAdd (3 : ℤ) } hacc).1
    (exampleFrame 1 0 0 5 7) (by decide) (by decide) rfl).1 (Or.inl rfl) |>.1⟩

/-- An accepted loop is appended to `all_loops` with its position as id. -/
theorem addLoop_all_loops_accepted (ext : External K P) (self : D2PGO K P)
    (loop_info : LoopEdge K P) (add_state_by_loop : Bool)
    (hacc : ¬ ext.posNorm loop_info.relative_pose > self.config.loop_distance_threshold) :
    (addLoop ext self loop_info add_state_by_loop).all_loops
      = self.all_loops ++ [{ loop_info with id := (self.all_loops.length : Int) }] := by
  unfold addLoop
  rw [if_neg hacc]
  simp only []
  split_ifs
  · split <;> rfl
  · split <;> rfl
  · rfl
  · rfl

/-- What a completed run of `solveRun` leaves in the engine. -/
theorem solveRun_result (ext : External K P) (self next : D2PGO K P) (acc : FactorState K P)
    (ret : Bool) (h : solveRun ext self acc = some (ret, next)) :
    ret = true ∧ next.updated = false ∧ next.all_loops = self.all_loops
      ∧ next.config = self.config ∧ next.self_id = self.self_id
      ∧ next.main_id = self.main_id ∧ next.used_frames = acc.used_frames
      ∧ next.used_loops = acc.used_loops ∧ next.solve_count = self.solve_count + 1 := by
  unfold solveRun at h
  simp only [] at h
  split at h
  · cases h
  · split at h
    · cases h
    · simp only [Option.some.injEq, Prod.mk.injEq] at h
      obtain ⟨h1, h2⟩ := h
      subst h2
      exact ⟨h1.symm, rfl, rfl, rfl, rfl, rfl, rfl, rfl, rfl⟩

/-- A call of `solve` either returns `false` at the guard and leaves the engine alone, or
sets up the factors and runs. -/
theorem solve_result (ext : External K P) (self next : D2PGO K P) (force_solve ret : Bool)
    (h : solve ext self force_solve = some (ret, next)) :
    (ret = false ∧ next = self
      ∧ ((decide ((self.state.size self.self_id : Int) < self.config.min_solve_size)
          || !self.updated) && !force_solve) = true)
    ∨ (((decide ((self.state.size self.self_id : Int) < self.config.min_solve_size)
          || !self.updated) && !force_solve) = false
        ∧ ∃ acc, solveSetup ext self = some acc ∧ solveRun ext self acc = some (ret, next)) := by
  unfold solve at h
  split_ifs at h with hg
  · simp only [Option.some.injEq, Prod.mk.injEq] at h
    exact Or.inl ⟨h.1.symm, h.2.symm, hg⟩
  · right
    refine ⟨by simpa using hg, ?_⟩
    cases hs : solveSetup ext self with
    | none => rw [hs] at h; cases h
    | some acc => rw [hs] at h; exact ⟨acc, rfl, h⟩

theorem solve_all_loops (ext : External K P) (self next : D2PGO K P) (force_solve ret : Bool)
    (h : solve ext self force_solve = some (ret, next)) : next.all_loops = self.all_loops := by
  rcases solve_result ext self next force_solve ret h with ⟨-, h2, -⟩ | ⟨-, acc, -, hrun⟩
  · rw [h2]
  · exact (solveRun_result ext self next acc ret hrun).2.2.1

/-- In every reachable state the id of a loop is its position in `all_loops`. -/
theorem reachable_loop_ids (ext : External K P) (self : D2PGO K P) (h : Reachable ext self) :
    ∀ (i : Nat) (l : LoopEdge K P), self.all_loops[i]? = some l → l.id = (i : Int) := by
  induction h with
  | init s hinit =>
      intro i l hl
      rw [hinit.2.1] at hl
      simp at hl
  | addFrame s frame _ ih =>
      intro i l hl
      exact ih i l hl
  | addLoop s loop_info flag _ ih =>
      intro i l hl
      by_cases hthr : ext.posNorm loop_info.relative_pose > s.config.loop_distance_threshold
      · have : addLoop ext s loop_info flag = s := by unfold addLoop; rw [if_pos hthr]
        rw [this] at hl
        exact ih i l hl
      · rw [addLoop_all_loops_accepted ext s loop_info flag hthr] at hl
        rcases Nat.lt_or_ge i s.all_loops.length with hlt | hge
        · rw [List.getElem?_append_left hlt] at hl
          exact ih i l hl
        · rw [List.getElem?_append_right hge] at hl
          have hi : i - s.all_loops.length = 0 := by
            by_contra hne
            rw [List.getElem?_eq_none (by simp; omega)] at hl
            cases hl
          rw [hi] at hl
          simp only [List.getElem?_cons_zero, Option.some.injEq] at hl
          subst hl
          show (s.all_loops.length : Int) = (i : Int)
          congr 1
          omega
  | solve s next force ret _ hsolve ih =>
      intro i l hl
      rw [solve_all_loops ext s next force ret hsolve] at hl
      exact ih i l hl

/-- C13. Loop ids are the insertion positions. A call of `D2PGO::addLoop` with translation
norm at most `loop_distance_threshold` appends one entry to `all_loops`, the input loop with
its id set to the previous size of `all_loops`, and leaves the earlier entries as they were.
In every reachable state `all_loops[i].id = i`, and the ids increase strictly in insertion
order. -/
theorem addLoop_ids_are_positions (ext : External K P) (self : D2PGO K P)
    (loop_info : LoopEdge K P) (add_state_by_loop : Bool) :
    (¬ ext.posNorm loop_info.relative_pose > self.config.loop_distance_threshold →
      (addLoop ext self loop_info add_state_by_loop).all_loops
        = self.all_loops ++ [{ loop_info with id := (self.all_loops.length : Int) }]) ∧
    (Reachable ext self →
      (∀ (i : Nat) (l : LoopEdge K P), self.all_loops[i]? = some l → l.id = (i : Int)) ∧
      self.all_loops.Pairwise (fun a b => a.id < b.id)) := by
  refine ⟨addLoop_all_loops_accepted ext self loop_info add_state_by_loop, fun hreach => ?_⟩
  have hid := reachable_loop_ids ext self hreach
  refine ⟨hid, ?_⟩
  rw [List.pairwise_iff_getElem]
  intro i j hi hj hij
  rw [hid i _ (List.getElem?_eq_getElem hi), hid j _ (List.getElem?_eq_getElem hj)]
  exact_mod_cast hij

/-- Witness of C13: two accepted loops added to a new engine; the second is appended with
id 1, and the ids increase strictly. -/
theorem addLoop_ids_are_positions_witness :
    (addLoop exampleExternal
      (addLoop exampleExternal
        (exampleEngine (exampleConfig false PGO_MODE.PGO_MODE_NON_DIST) 0 0 [])
        { exampleExternal.default_loop with keyframe_id_a := 1, keyframe_id_b := 2 } false)
      { exampleExternal.default_loop with keyframe_id_a := 2, keyframe_id_b := 3 }
      false).all_loops.map (fun l => (l.id, l.keyframe_id_a, l.keyframe_id_b))
      = [(0, 1, 2), (1, 2, 3)] ∧
    (addLoop exampleExternal
      (addLoop exampleExternal
        (exampleEngine (exampleConfig false PGO_MODE.PGO_MODE_NON_DIST) 0 0 [])
        { exampleExternal.default_loop with keyframe_id_a := 1, keyframe_id_b := 2 } false)
      { exampleExternal.default_loop with keyframe_id_a := 2, keyframe_id_b := 3 }
      false).all_loops.Pairwise (fun a b => a.id < b.id) := by
  have hacc : ¬ (exampleExternal.posNorm exampleExternal.default_loop.relative_pose
      > (exampleConfig false PGO_MODE.PGO_MODE_NON_DIST).loop_distance_threshold) := by
    simp [exampleExternal, exampleConfig]
  constructor
  · rw [(addLoop_ids_are_positions exampleExternal
      (addLoop exampleExternal
        (exampleEngine (exampleConfig false PGO_MODE.PGO_MODE_NON_DIST) 0 0 [])
        { exampleExternal.default_loop with keyframe_id_a := 1, keyframe_id_b := 2 } false)
      { exampleExternal.default_loop with keyframe_id_a := 2, keyframe_id_b := 3 }
      false).1 hacc]
    rw [(addLoop_ids_are_positions exampleExternal
      (exampleEngine (exampleConfig false PGO_MODE.PGO_MODE_NON_DIST) 0 0 [])
      { exampleExternal.default_loop with keyframe_id_a := 1, keyframe_id_b := 2 }
      false).1 hacc]
    rfl
  · exact ((addLoop_ids_are_positions exampleExternal _
        exampleExternal.default_loop false).2
      (Reachable.addLoop _ _ _ (Reachable.addLoop _ _ _
        (Reachable.init _ ⟨rfl, rfl, rfl, rfl, rfl, rfl, rfl, rfl⟩)))).2

/-- The ego-motion loop fails at once on an empty frame list: the bound has wrapped around
and `frames[0]` does not exist. -/
theorem setupEgoMotionFactorsOf_no_frames (ext : External K P) (config : D2PGOConfig K)
    (state : GraphState K P) (acc : FactorState K P) (drone_id : Int)
    (h : state.getFrames drone_id = []) :
    setupEgoMotionFactorsOf ext config state acc drone_id = none := by
  unfold setupEgoMotionFactorsOf
  simp only [h, List.length_nil]
  unfold egoMotionLoop
  simp

/-- The pairs `(frames[i], frames[i + 1])` of a frame list, in order. -/
theorem zip_tail_getElem? (frames : List (D2BaseFrame K P)) (i : Nat)
    (frame_a frame_b : D2BaseFrame K P) (ha : frames.get? i = some frame_a)
    (hb : frames.get? (i + 1) = some frame_b) :
    (frames.zip frames.tail)[i]? = some (frame_a, frame_b) := by
  rw [List.getElem?_zip_eq_some]
  simp only [List.get?_eq_getElem?] at ha hb
  refine ⟨ha, ?_⟩
  rw [List.getElem?_tail]
  exact hb

/-- The ego-motion loop, run from index `i` with a bound inside the frame list and enough
fuel, completes and applies the loop body to the consecutive pairs from `i` up to the
bound. -/
theorem egoMotionLoop_spec (ext : External K P) (config : D2PGOConfig K)
    (frames : List (D2BaseFrame K P)) (bound : Nat) (hbound : bound + 1 ≤ frames.length) :
    ∀ (k i fuel : Nat) (acc : FactorState K P), i + k = bound → k ≤ fuel →
      egoMotionLoop ext config frames bound fuel i acc
        = some ((((frames.zip frames.tail).drop i).take k).foldl
            (fun acc pair => setupEgoMotionFactor ext config acc pair.1 pair.2) acc) := by
  intro k
  induction k with
  | zero =>
      intro i fuel acc hik _
      unfold egoMotionLoop
      have : ¬ i < bound := by omega
      simp [this]
  | succ k ih =>
      intro i fuel acc hik hfuel
      have hlt : i < bound := by omega
      obtain ⟨frame_a, ha⟩ : ∃ f, frames.get? i = some f :=
        ⟨frames.get ⟨i, by omega⟩, List.get?_eq_get _⟩
      obtain ⟨frame_b, hb⟩ : ∃ f, frames.get? (i + 1) = some f :=
        ⟨frames.get ⟨i + 1, by omega⟩, List.get?_eq_get _⟩
      obtain ⟨fuel1, rfl⟩ : ∃ f, fuel = f + 1 := ⟨fuel - 1, by omega⟩
      have hpair := zip_tail_getElem? frames i frame_a frame_b ha hb
      have hdrop : (frames.zip frames.tail).drop i
          = (frame_a, frame_b) :: (frames.zip frames.tail).drop (i + 1) := by
        have hi : i < (frames.zip frames.tail).length := by
          by_contra hge
          rw [List.getElem?_eq_none (by omega)] at hpair
          cases hpair
        rw [List.drop_eq_getElem_cons hi]
        congr 1
        rw [List.getElem?_eq_getElem hi] at hpair
        exact Option.some.inj hpair
      unfold egoMotionLoop
      simp only [hlt, if_true, ha, hb]
      rw [ih (i + 1) fuel1 _ (by omega) (by omega), hdrop]
      rfl

/-- For an agent with at least one frame the ego-motion set-up completes. -/
theorem setupEgoMotionFactorsOf_some (ext : External K P) (config : D2PGOConfig K)
    (state : GraphState K P) (acc : FactorState K P) (drone_id : Int)
    (h : 0 < (state.getFrames drone_id).length) :
    ∃ out, setupEgoMotionFactorsOf ext config state acc drone_id = some out := by
  unfold setupEgoMotionFactorsOf
  have hb : ((state.getFrames drone_id).length + 2 ^ 64 - 1) % 2 ^ 64 + 1
      ≤ (state.getFrames drone_id).length := by
    have h1 : (state.getFrames drone_id).length + 2 ^ 64 - 1
        = ((state.getFrames drone_id).length - 1) + 2 ^ 64 := by omega
    rw [h1, Nat.add_mod_right]
    have := Nat.mod_le ((state.getFrames drone_id).length - 1) (2 ^ 64)
    omega
  exact ⟨_, egoMotionLoop_spec ext config (state.getFrames drone_id)
    (((state.getFrames drone_id).length + 2 ^ 64 - 1) % 2 ^ 64) hb
    (((state.getFrames drone_id).length + 2 ^ 64 - 1) % 2 ^ 64) 0
    (state.getFrames drone_id).length acc (Nat.zero_add _) (by omega)⟩

/-- C17 (code bug). `D2PGO::setupEgoMotionFactors(solver, drone_id)` evaluated for agent 1 on
a GraphState that holds frames of agent 0 only, so `n = 0`: the bound `frames.size() - 1`
is `2 ^ 64 - 1`, the loop body runs at `i = 0` and reads `frames[0]` and `frames[1]` of an
empty list. For agent 0 with its two frames the set-up registers one residual, for the pair
of frames 1 and 2. -/
theorem setupEgoMotionFactors_empty_agent :
    ((exampleEngine (exampleConfig false PGO_MODE.PGO_MODE_DISTRIBUTED_AROCK) 1 0
        [exampleFrame 1 0 0 0 0, exampleFrame 2 0 0 1 1]).state.getFrames 1).length = 0 ∧
    ((0 : Nat) + 2 ^ 64 - 1) % 2 ^ 64 = 18446744073709551615 ∧
    setupEgoMotionFactorsOf exampleExternal
        (exampleConfig false PGO_MODE.PGO_MODE_DISTRIBUTED_AROCK)
        (exampleEngine (exampleConfig false PGO_MODE.PGO_MODE_DISTRIBUTED_AROCK) 1 0
          [exampleFrame 1 0 0 0 0, exampleFrame 2 0 0 1 1]).state
        { solver := SolverWrapper.create SolverKind.ARockPGO, used_frames := [],
          used_loops := [], used_loops_count := 0 } 1 = none ∧
    (setupEgoMotionFactorsOf exampleExternal
        (exampleConfig false PGO_MODE.PGO_MODE_DISTRIBUTED_AROCK)
        (exampleEngine (exampleConfig false PGO_MODE.PGO_MODE_DISTRIBUTED_AROCK) 1 0
          [exampleFrame 1 0 0 0 0, exampleFrame 2 0 0 1 1]).state
        { solver := SolverWrapper.create SolverKind.ARockPGO, used_frames := [],
          used_loops := [], used_loops_count := 0 } 0).map
        (fun out => (out.solver.residuals.map (fun r => (r.frame_ida, r.frame_idb)),
          out.used_frames))
      = some ([(1, 2)], [1, 2]) := by
  refine ⟨by decide, by norm_num, ?_, ?_⟩
  · exact setupEgoMotionFactorsOf_no_frames _ _ _ _ _ rfl
  · rfl

/-- The solver that `solve` works on exists and starts without residuals. -/
theorem solveSolver_spec (self : D2PGO K P) :
    ∃ solver, solveSolver self = some solver ∧ solver.residuals = [] := by
  unfold solveSolver
  cases hm : self.config.mode
  · exact ⟨SolverWrapper.create SolverKind.CeresSolver, by simp, rfl⟩
  · cases hs : self.solver with
    | none => exact ⟨SolverWrapper.create SolverKind.ARockPGO, by simp, rfl⟩
    | some solver => exact ⟨solver.resetResiduals, by simp, rfl⟩

/-- A property of the factor state that every pass of the ego-motion loop body keeps is kept
by the loop. -/
theorem egoMotionLoop_invariant (ext : External K P) (config : D2PGOConfig K)
    (frames : List (D2BaseFrame K P)) (bound : Nat) (Inv : FactorState K P → Prop)
    (hstep : ∀ acc frame_a frame_b, frame_a ∈ frames → frame_b ∈ frames → Inv acc →
      Inv (setupEgoMotionFactor ext config acc frame_a frame_b)) :
    ∀ (fuel i : Nat) (acc out : FactorState K P),
      egoMotionLoop ext config frames bound fuel i acc = some out → Inv acc → Inv out := by
  intro fuel
  induction fuel with
  | zero =>
      intro i acc out h hinv
      unfold egoMotionLoop at h
      split_ifs at h with hlt
      · split at h
        · cases h
        · cases h
      · cases h
        exact hinv
  | succ fuel ih =>
      intro i acc out h hinv
      unfold egoMotionLoop at h
      split_ifs at h with hlt
      · split at h
        · rename_i frame_a frame_b ha hb
          exact ih (i + 1) _ out h
            (hstep acc frame_a frame_b (List.get?_mem ha) (List.get?_mem hb) hinv)
        · cases h
      · cases h
        exact hinv

/-- A property of the factor state that the ego-motion loop body keeps for the frames of
GraphState is kept by `setupEgoMotionFactors`. -/
theorem setupEgoMotionFactors_invariant (ext : External K P) (config : D2PGOConfig K)
    (self_id : Int) (state : GraphState K P) (Inv : FactorState K P → Prop)
    (hstep : ∀ acc frame_a frame_b, frame_a ∈ state.frames → frame_b ∈ state.frames →
      Inv acc → Inv (setupEgoMotionFactor ext config acc frame_a frame_b))
    (acc out : FactorState K P)
    (h : setupEgoMotionFactors ext config self_id state acc = some out) (hinv : Inv acc) :
    Inv out := by
  have hof : ∀ (d : Int) (a o : FactorState K P),
      setupEgoMotionFactorsOf ext config state a d = some o → Inv a → Inv o := by
    intro d a o ho ha
    unfold setupEgoMotionFactorsOf at ho
    exact egoMotionLoop_invariant ext config (state.getFrames d) _ Inv
      (fun acc fa fb hfa hfb => hstep acc fa fb (List.mem_filter.mp hfa).1
        (List.mem_filter.mp hfb).1) _ _ a o ho ha
  unfold setupEgoMotionFactors at h
  split_ifs at h with h1 h2
  · have hfold : ∀ (drones : List Int) (a : Option (FactorState K P)) (o : FactorState K P),
        drones.foldl (fun acc drone_id =>
          acc.bind (fun acc => setupEgoMotionFactorsOf ext config state acc drone_id)) a
          = some o → (∀ x, a = some x → Inv x) → Inv o := by
      intro drones
      induction drones with
      | nil =>
          intro a o ho ha
          exact ha o ho
      | cons d rest ih =>
          intro a o ho ha
          simp only [List.foldl_cons] at ho
          refine ih _ o ho ?_
          intro x hx
          cases a with
          | none => cases hx
          | some a0 => exact hof d a0 x hx (ha a0 rfl)
    exact hfold _ _ out h (fun x hx => by cases hx; exact hinv)
  · exact hof self_id acc out h hinv
  · cases h
    exact hinv

/-- A property of the factor state that the loop-factor body keeps is kept by
`setupLoopFactors`, which first resets `used_loops_count`. -/
theorem setupLoopFactors_invariant (config : D2PGOConfig K) (state : GraphState K P)
    (Inv : FactorState K P → Prop)
    (hstep : ∀ acc loop, Inv acc → Inv (setupLoopFactor config state acc loop))
    (acc : FactorState K P) (good_loops : List (LoopEdge K P))
    (hinv : Inv { acc with used_loops_count := 0 }) :
    Inv (setupLoopFactors config state acc good_loops) := by
  unfold setupLoopFactors
  generalize ({ acc with used_loops_count := 0 } : FactorState K P) = a at hinv
  induction good_loops generalizing a with
  | nil => exact hinv
  | cons l rest ih => exact ih _ (hstep a l hinv)

/-- On loops whose endpoints are all frames of GraphState, `setupLoopFactors` registers one
residual per loop, in order. -/
theorem setupLoopFactors_all_present (config : D2PGOConfig K) (state : GraphState K P)
    (acc : FactorState K P) (good_loops : List (LoopEdge K P))
    (h : ∀ l ∈ good_loops,
      (state.hasFrame l.keyframe_id_a && state.hasFrame l.keyframe_id_b) = true) :
    (setupLoopFactors config state acc good_loops).solver.residuals
        = acc.solver.residuals ++ good_loops.map (fun l =>
            { loop := l
              factor_4d := decide (config.pgo_pose_dof = PGO_POSE_DOF.PGO_POSE_4D)
              frame_ida := l.keyframe_id_a
              frame_idb := l.keyframe_id_b
              is_4d := decide (config.pgo_pose_dof = PGO_POSE_DOF.PGO_POSE_4D) }) ∧
    (setupLoopFactors config state acc good_loops).used_loops_count = good_loops.length ∧
    (setupLoopFactors config state acc good_loops).used_loops
        = acc.used_loops ++ good_loops := by
  unfold setupLoopFactors
  have key : ∀ (loops : List (LoopEdge K P)) (a : FactorState K P),
      (∀ l ∈ loops,
        (state.hasFrame l.keyframe_id_a && state.hasFrame l.keyframe_id_b) = true) →
      (loops.foldl (setupLoopFactor config state) a).solver.residuals
          = a.solver.residuals ++ loops.map (fun l =>
              { loop := l
                factor_4d := decide (config.pgo_pose_dof = PGO_POSE_DOF.PGO_POSE_4D)
                frame_ida := l.keyframe_id_a
                frame_idb := l.keyframe_id_b
                is_4d := decide (config.pgo_pose_dof = PGO_POSE_DOF.PGO_POSE_4D) }) ∧
      (loops.foldl (setupLoopFactor config state) a).used_loops_count
          = a.used_loops_count + loops.length ∧
      (loops.foldl (setupLoopFactor config state) a).used_loops = a.used_loops ++ loops := by
    intro loops
    induction loops with
    | nil => intro a _; simp
    | cons l rest ih =>
        intro a hall
        have hl := hall l (List.mem_cons_self _ _)
        obtain ⟨h1, h2, h3⟩ := ih (setupLoopFactor config state a l)
          (fun x hx => hall x (List.mem_cons_of_mem _ hx))
        simp only [List.foldl_cons, h1, h2, h3]
        simp only [setupLoopFactor, hl, if_true, SolverWrapper.addResidual, List.map_cons,
          List.append_assoc, List.singleton_append, List.length_cons]
        exact ⟨trivial, by omega, trivial⟩
  obtain ⟨h1, h2, h3⟩ := key good_loops { acc with used_loops_count := 0 } h
  exact ⟨h1, by simpa using h2, h3⟩

theorem mem_setInsert {κ : Type} [LinearOrder κ] (k x : κ) (l : List κ)
    (h : x ∈ setInsert k l) : x = k ∨ x ∈ l := by
  induction l with
  | nil =>
      simp only [setInsert, List.mem_singleton] at h
      exact Or.inl h
  | cons k0 rest ih =>
      simp only [setInsert] at h
      split_ifs at h with h1 h2
      · rcases List.mem_cons.mp h with h | h
        · exact Or.inl h
        · exact Or.inr h
      · exact Or.inr h
      · rcases List.mem_cons.mp h with h | h
        · exact Or.inr (h ▸ List.mem_cons_self _ _)
        · rcases ih h with h | h
          · exact Or.inl h
          · exact Or.inr (List.mem_cons_of_mem _ h)

/-- Every available agent owns a frame. -/
theorem availableDrones_has_frames (state : GraphState K P) (d : Int)
    (h : d ∈ state.availableDrones) : 0 < (state.getFrames d).length := by
  have key : ∀ (frames : List (D2BaseFrame K P)) (init : List Int),
      d ∈ frames.foldl (fun acc f => setInsert f.drone_id acc) init →
      d ∈ init ∨ ∃ f ∈ frames, f.drone_id = d := by
    intro frames
    induction frames with
    | nil => intro init hd; exact Or.inl hd
    | cons f rest ih =>
        intro init hd
        simp only [List.foldl_cons] at hd
        rcases ih _ hd with h1 | ⟨g, hg, hgd⟩
        · rcases mem_setInsert _ _ _ h1 with h2 | h2
          · exact Or.inr ⟨f, List.mem_cons_self _ _, h2.symm⟩
          · exact Or.inl h2
        · exact Or.inr ⟨g, List.mem_cons_of_mem _ hg, hgd⟩
  rcases key state.frames [] h with h1 | ⟨f, hf, hfd⟩
  · simp at h1
  · have : f ∈ state.getFrames d := List.mem_filter.mpr ⟨hf, by simp [hfd]⟩
    exact List.length_pos_of_mem this

/-- The ego-motion set-up completes in centralized mode, and in distributed mode when the
local agent has a frame. -/
theorem setupEgoMotionFactors_some (ext : External K P) (config : D2PGOConfig K)
    (self_id : Int) (state : GraphState K P) (acc : FactorState K P)
    (h : config.mode = PGO_MODE.PGO_MODE_NON_DIST ∨ 0 < (state.getFrames self_id).length) :
    ∃ out, setupEgoMotionFactors ext config self_id state acc = some out := by
  unfold setupEgoMotionFactors
  by_cases hm : config.mode = PGO_MODE.PGO_MODE_NON_DIST
  · rw [if_pos hm]
    have hfold : ∀ (drones : List Int), (∀ d ∈ drones, 0 < (state.getFrames d).length) →
        ∀ a : FactorState K P, ∃ out, drones.foldl (fun acc drone_id =>
          acc.bind (fun acc => setupEgoMotionFactorsOf ext config state acc drone_id))
          (some a) = some out := by
      intro drones
      induction drones with
      | nil => intro _ a; exact ⟨a, rfl⟩
      | cons d rest ih =>
          intro hall a
          obtain ⟨o, ho⟩ := setupEgoMotionFactorsOf_some ext config state a d
            (hall d (List.mem_cons_self _ _))
          rw [List.foldl_cons, show ((some a).bind fun acc =>
            setupEgoMotionFactorsOf ext config state acc d) = some o from ho]
          exact ih (fun x hx => hall x (List.mem_cons_of_mem _ hx)) o
    exact hfold _ (fun d hd => availableDrones_has_frames state d hd) acc
  · rw [if_neg hm]
    have hlen : 0 < (state.getFrames self_id).length := by
      rcases h with h | h
      · exact absurd h hm
      · exact h
    split_ifs
    · exact setupEgoMotionFactorsOf_some ext config state acc self_id hlen
    · exact ⟨acc, rfl⟩

/-- The factor set-up of `solve` completes when ego-motion factors are disabled, in
centralized mode, or when the local agent has a frame. -/
theorem solveSetup_some (ext : External K P) (self : D2PGO K P)
    (h : self.config.enable_ego_motion = false
      ∨ self.config.mode = PGO_MODE.PGO_MODE_NON_DIST
      ∨ 0 < self.state.size self.self_id) :
    ∃ acc, solveSetup ext self = some acc := by
  obtain ⟨solver, hs, -⟩ := solveSolver_spec self
  unfold solveSetup
  rw [hs]
  simp only []
  by_cases he : self.config.enable_ego_motion = true
  · rw [if_pos he]
    rcases h with h | h | h
    · rw [he] at h; cases h
    · exact setupEgoMotionFactors_some ext _ _ _ _ (Or.inl h)
    · exact setupEgoMotionFactors_some ext _ _ _ _ (Or.inr h)
  · rw [if_neg he]
    exact ⟨_, rfl⟩

/-- C16. Every relative-pose residual that `D2PGO::solve` registers, through
`setupLoopFactors` on whatever the outlier rejection returns and through
`setupEgoMotionFactors`, references two frames of GraphState. With PCM disabled the loop
residuals registered are the entries of `all_loops` whose two endpoints are frames of
GraphState, in insertion order, `used_loops_count` is their number, and the ego-motion
residuals follow them. The set-up completes when ego-motion factors are disabled, in
centralized mode, or when the local agent has a frame. -/
theorem solve_registered_residuals (ext : External K P) (self : D2PGO K P) :
    (∀ acc, solveSetup ext self = some acc →
      ∀ r ∈ acc.solver.residuals,
        self.state.hasFrame r.frame_ida = true ∧ self.state.hasFrame r.frame_idb = true) ∧
    (self.config.enable_pcm = false →
      ∀ solver, solveSolver self = some solver →
        (solveLoopFactors ext self solver).solver.residuals.map
            (fun r => (r.loop, r.frame_ida, r.frame_idb))
          = (self.all_loops.filter (fun l =>
              self.state.hasFrame l.keyframe_id_a && self.state.hasFrame l.keyframe_id_b)).map
              (fun l => (l, l.keyframe_id_a, l.keyframe_id_b)) ∧
        (solveLoopFactors ext self solver).used_loops_count
          = (self.all_loops.filter (fun l =>
              self.state.hasFrame l.keyframe_id_a
                && self.state.hasFrame l.keyframe_id_b)).length ∧
        ∀ acc, solveSetup ext self = some acc →
          acc.used_loops_count = (solveLoopFactors ext self solver).used_loops_count ∧
          ∃ ego, acc.solver.residuals
            = (solveLoopFactors ext self solver).solver.residuals ++ ego) ∧
    ((self.config.enable_ego_motion = false
        ∨ self.config.mode = PGO_MODE.PGO_MODE_NON_DIST
        ∨ 0 < self.state.size self.self_id) →
      ∃ acc, solveSetup ext self = some acc) := by
  obtain ⟨solver0, hs0, hres0⟩ := solveSolver_spec self
  have hmemframe : ∀ f ∈ self.state.frames, self.state.hasFrame f.frame_id = true := by
    intro f hf
    simp only [GraphState.hasFrame, List.any_eq_true]
    exact ⟨f, hf, by simp⟩
  have hego_step : ∀ (Inv : FactorState K P → Prop),
      (∀ acc frame_a frame_b, frame_a ∈ self.state.frames → frame_b ∈ self.state.frames →
        Inv acc → Inv (setupEgoMotionFactor ext self.config acc frame_a frame_b)) →
      ∀ start acc, (if self.config.enable_ego_motion then
          setupEgoMotionFactors ext self.config self.self_id self.state start
        else some start) = some acc → Inv start → Inv acc := by
    intro Inv hstep start acc h hinv
    split_ifs at h
    · exact setupEgoMotionFactors_invariant ext _ _ _ Inv hstep start acc h hinv
    · cases h
      exact hinv
  refine ⟨?_, ?_, solveSetup_some ext self⟩
  · intro acc hacc
    unfold solveSetup at hacc
    rw [hs0] at hacc
    simp only [] at hacc
    refine hego_step (fun a => ∀ r ∈ a.solver.residuals,
      self.state.hasFrame r.frame_ida = true ∧ self.state.hasFrame r.frame_idb = true)
      ?_ _ acc hacc ?_
    · intro a frame_a frame_b ha hb hinv r hr
      unfold setupEgoMotionFactor at hr
      simp only [SolverWrapper.addResidual] at hr
      split_ifs at hr
      · rcases List.mem_append.mp hr with h | h
        · exact hinv r h
        · simp only [List.mem_singleton] at h
          subst h
          exact ⟨hmemframe _ ha, hmemframe _ hb⟩
      · rcases List.mem_append.mp hr with h | h
        · exact hinv r h
        · simp only [List.mem_singleton] at h
          subst h
          exact ⟨hmemframe _ ha, hmemframe _ hb⟩
      · exact hinv r hr
    · have hloop : ∀ (start : FactorState K P) (loops : List (LoopEdge K P)),
          (∀ r ∈ start.solver.residuals,
            self.state.hasFrame r.frame_ida = true
              ∧ self.state.hasFrame r.frame_idb = true) →
          ∀ r ∈ (setupLoopFactors self.config self.state start loops).solver.residuals,
            self.state.hasFrame r.frame_ida = true
              ∧ self.state.hasFrame r.frame_idb = true := by
        intro start loops hstart
        refine setupLoopFactors_invariant self.config self.state
          (fun a => ∀ r ∈ a.solver.residuals,
            self.state.hasFrame r.frame_ida = true ∧ self.state.hasFrame r.frame_idb = true)
          ?_ start loops hstart
        intro a l hinv r hr
        unfold setupLoopFactor at hr
        split_ifs at hr with hcheck
        · simp only [SolverWrapper.addResidual] at hr
          rcases List.mem_append.mp hr with h | h
          · exact hinv r h
          · simp only [List.mem_singleton] at h
            subst h
            simpa using hcheck
        · exact hinv r hr
      unfold solveLoopFactors
      simp only []
      split_ifs
      · exact hloop _ _ (by simp [hres0])
      · exact hloop _ _ (by simp [hres0])
  · intro hpcm solver hsolver
    rw [hs0] at hsolver
    cases hsolver
    have hall : ∀ l ∈ availableLoops self,
        (self.state.hasFrame l.keyframe_id_a && self.state.hasFrame l.keyframe_id_b)
          = true := by
      intro l hl
      exact (List.mem_filter.mp hl).2
    have hlf : solveLoopFactors ext self solver0
        = setupLoopFactors self.config self.state
            { solver := solver0, used_frames := self.used_frames, used_loops := [],
              used_loops_count := self.used_loops_count } (availableLoops self) := by
      unfold solveLoopFactors
      simp [hpcm]
    obtain ⟨h1, h2, -⟩ := setupLoopFactors_all_present self.config self.state
      { solver := solver0, used_frames := self.used_frames, used_loops := [],
        used_loops_count := self.used_loops_count } (availableLoops self) hall
    refine ⟨?_, ?_, ?_⟩
    · rw [hlf, h1, hres0]
      simp [availableLoops, List.map_map, Function.comp]
    · rw [hlf, h2]
      rfl
    · intro acc hacc
      unfold solveSetup at hacc
      rw [hs0] at hacc
      simp only [] at hacc
      refine hego_step (fun a =>
        a.used_loops_count = (solveLoopFactors ext self solver0).used_loops_count ∧
        ∃ ego, a.solver.residuals
          = (solveLoopFactors ext self solver0).solver.residuals ++ ego)
        ?_ _ acc hacc ⟨rfl, [], by simp⟩
      intro a frame_a frame_b _ _ hinv
      obtain ⟨hc, ego, hego⟩ := hinv
      refine ⟨hc, ?_⟩
      unfold setupEgoMotionFactor
      simp only [SolverWrapper.addResidual]
      split_ifs
      · exact ⟨ego ++ [_], by rw [hego, List.append_assoc]⟩
      · exact ⟨ego ++ [_], by rw [hego, List.append_assoc]⟩
      · exact ⟨ego, hego⟩

/-- Witness of C16: on the example engine (frames 1 and 2 of agent 0; loops 1 to 2, 2 to the
unknown frame 9, 2 to 1; no PCM) the set-up completes, every registered residual references
frames of GraphState, two loops are counted, and the residuals are the two loops followed by
the ego-motion edge from 1 to 2. -/
theorem solve_registered_residuals_witness :
    ∃ acc, solveSetup exampleExternal exampleSolveEngine = some acc ∧
      (∀ r ∈ acc.solver.residuals,
        exampleSolveEngine.state.hasFrame r.frame_ida = true ∧
        exampleSolveEngine.state.hasFrame r.frame_idb = true) ∧
      acc.used_loops_count = 2 ∧
      acc.solver.residuals.map (fun r => (r.frame_ida, r.frame_idb))
        = [(1, 2), (2, 1), (1, 2)] := by
  obtain ⟨acc, hacc⟩ := (solve_registered_residuals exampleExternal exampleSolveEngine).2.2
    (Or.inr (Or.inl rfl))
  have hpcm := (solve_registered_residuals exampleExternal exampleSolveEngine).2.1 rfl
    (SolverWrapper.create SolverKind.CeresSolver) rfl
  refine ⟨acc, hacc,
    (solve_registered_residuals exampleExternal exampleSolveEngine).1 acc hacc, ?_, ?_⟩
  · rw [(hpcm.2.2 acc hacc).1, hpcm.2.1]
    rfl
  · have hrfl : (solveSetup exampleExternal exampleSolveEngine).map
        (fun acc => acc.solver.residuals.map (fun r => (r.frame_ida, r.frame_idb)))
        = some [(1, 2), (2, 1), (1, 2)] := rfl
    rw [hacc] at hrfl
    exact Option.some.inj hrfl

theorem mem_mapModify {κ V : Type} [DecidableEq κ] (k : κ) (f : V → V) (m : List (κ × V))
    (kv : κ × V) (h : kv ∈ mapModify k f m) :
    kv ∈ m ∨ ∃ v, (k, v) ∈ m ∧ kv = (k, f v) := by
  induction m with
  | nil => simp [mapModify] at h
  | cons kv0 rest ih =>
      obtain ⟨k0, v0⟩ := kv0
      simp only [mapModify] at h
      split_ifs at h with hk
      · rcases List.mem_cons.mp h with h | h
        · subst hk
          exact Or.inr ⟨v0, List.mem_cons_self _ _, h⟩
        · exact Or.inl (List.mem_cons_of_mem _ h)
      · rcases List.mem_cons.mp h with h | h
        · exact Or.inl (h ▸ List.mem_cons_self _ _)
        · rcases ih h with h | ⟨v, hv, hkv⟩
          · exact Or.inl (List.mem_cons_of_mem _ h)
          · exact Or.inr ⟨v, List.mem_cons_of_mem _ hv, hkv⟩

/-- Every entry of every trajectory that `getOptimizedTrajs` returns was pushed for a used
frame of that agent, with the pose computed by `optimizedPose`. -/
theorem getOptimizedTrajs_entries {Q V : Type} [Group Q] (access : PoseAccess P Q V)
    (self : D2PGO K P) :
    ∀ kv ∈ getOptimizedTrajs access self, ∀ e ∈ kv.2.entries,
      ∃ f ∈ self.state.getFrames kv.1, f.frame_id ∈ self.used_frames ∧
        e = (f.stamp, optimizedPose access self.config f, f.frame_id) := by
  unfold getOptimizedTrajs
  have hinner : ∀ (d : Int) (frames : List (D2BaseFrame K P))
      (trajs : List (Int × DroneTrajectory K P)),
      (∀ f ∈ frames, f ∈ self.state.getFrames d) →
      (∀ kv ∈ trajs, ∀ e ∈ kv.2.entries,
        ∃ f ∈ self.state.getFrames kv.1, f.frame_id ∈ self.used_frames ∧
          e = (f.stamp, optimizedPose access self.config f, f.frame_id)) →
      ∀ kv ∈ frames.foldl
          (fun trajs frame =>
            if frame.frame_id ∉ self.used_frames then trajs
            else
              mapModify d
                (fun traj =>
                  traj.push frame.stamp (optimizedPose access self.config frame)
                    frame.frame_id)
                trajs)
          trajs,
        ∀ e ∈ kv.2.entries,
          ∃ f ∈ self.state.getFrames kv.1, f.frame_id ∈ self.used_frames ∧
            e = (f.stamp, optimizedPose access self.config f, f.frame_id) := by
    intro d frames
    induction frames with
    | nil => intro trajs _ hinv; exact hinv
    | cons frame rest ih =>
        intro trajs hsub hinv
        simp only [List.foldl_cons]
        apply ih _ (fun f hf => hsub f (List.mem_cons_of_mem _ hf))
        by_cases hused : frame.frame_id ∈ self.used_frames
        · rw [if_neg (not_not.mpr hused)]
          intro kv hkv e he
          rcases mem_mapModify _ _ _ _ hkv with h | ⟨v, hv, hkveq⟩
          · exact hinv kv h e he
          · subst hkveq
            simp only [DroneTrajectory.push, List.mem_append, List.mem_singleton] at he
            rcases he with he | he
            · exact hinv (d, v) hv e he
            · exact ⟨frame, hsub frame (List.mem_cons_self _ _), hused, he⟩
        · rw [if_pos hused]
          exact hinv
  have houter : ∀ (drones : List Int) (trajs : List (Int × DroneTrajectory K P)),
      (∀ kv ∈ trajs, ∀ e ∈ kv.2.entries,
        ∃ f ∈ self.state.getFrames kv.1, f.frame_id ∈ self.used_frames ∧
          e = (f.stamp, optimizedPose access self.config f, f.frame_id)) →
      ∀ kv ∈ drones.foldl
          (fun trajs drone_id =>
            (self.state.getFrames drone_id).foldl
              (fun trajs frame =>
                if frame.frame_id ∉ self.used_frames then trajs
                else
                  mapModify drone_id
                    (fun traj =>
                      traj.push frame.stamp (optimizedPose access self.config frame)
                        frame.frame_id)
                    trajs)
              (mapInsert drone_id
                { drone_id := drone_id, is_ego_motion := false, entries := [] } trajs))
          trajs,
        ∀ e ∈ kv.2.entries,
          ∃ f ∈ self.state.getFrames kv.1, f.frame_id ∈ self.used_frames ∧
            e = (f.stamp, optimizedPose access self.config f, f.frame_id) := by
    intro drones
    induction drones with
    | nil => intro trajs hinv; exact hinv
    | cons d rest ih =>
        intro trajs hinv
        simp only [List.foldl_cons]
        apply ih
        apply hinner d _ _ (fun f hf => hf)
        intro kv hkv e he
        rcases mem_mapInsert _ _ _ _ hkv with h | h
        · subst h
          simp at he
        · exact hinv kv h e he
  exact houter _ [] (by simp)

/-- C14. Attitude returned by `D2PGO::getOptimizedTrajs`. Every entry of every returned
trajectory belongs to a used frame of the agent and carries its stamp and id. In 4-DoF mode
the attitude of the returned pose is the frame's odometry attitude times
`att_yaw_only(initial_ego_pose)⁻¹ * att(initial_ego_pose)` and its position is the frame's
odometry position; in 6-DoF mode the returned pose is the frame's odometry pose. -/
theorem getOptimizedTrajs_attitude {Q V : Type} [Group Q] (access : PoseAccess P Q V)
    (self : D2PGO K P)
    (hatt : ∀ p q, access.att (access.setAtt p q) = q)
    (hpos : ∀ p q, access.pos (access.setAtt p q) = access.pos p) :
    ∀ kv ∈ getOptimizedTrajs access self, ∀ e ∈ kv.2.entries,
      ∃ f ∈ self.state.getFrames kv.1, f.frame_id ∈ self.used_frames ∧
        e.1 = f.stamp ∧ e.2.2 = f.frame_id ∧
        (self.config.pgo_pose_dof = PGO_POSE_DOF.PGO_POSE_4D →
          access.att e.2.1
              = access.att f.odom_pose
                * ((access.att_yaw_only f.initial_ego_pose)⁻¹
                    * access.att f.initial_ego_pose) ∧
          access.pos e.2.1 = access.pos f.odom_pose) ∧
        (self.config.pgo_pose_dof = PGO_POSE_DOF.PGO_POSE_6D → e.2.1 = f.odom_pose) := by
  intro kv hkv e he
  obtain ⟨f, hf, hused, heq⟩ := getOptimizedTrajs_entries access self kv hkv e he
  subst heq
  refine ⟨f, hf, hused, rfl, rfl, ?_, ?_⟩
  · intro h4
    simp only [optimizedPose, h4, if_true, hatt, hpos, and_self]
  · intro h6
    simp only [optimizedPose, h6]
    rfl

/-- Witness of C14: the example engine in 4-DoF mode with frames 1 and 2 used; frame 2 has
ego pose 1 and estimate 1, and is returned with attitude `1 + (0 + 1) = 2`. -/
theorem getOptimizedTrajs_attitude_witness :
    (getOptimizedTrajs exampleAccess { exampleSolveEngine with used_frames := [1, 2] }).map
        (fun kv => (kv.1, kv.2.entries.map (fun e => (e.2.2, Multiplicative.toAdd e.2.1))))
      = [(0, [(1, 0), (2, 2)])] ∧
    ∀ kv ∈ getOptimizedTrajs exampleAccess
        { exampleSolveEngine with used_frames := [1, 2] },
      ∀ e ∈ kv.2.entries,
        ∃ f ∈ exampleSolveEngine.state.getFrames kv.1,
          e.2.2 = f.frame_id ∧ e.2.1 = f.odom_pose * ((1 : Multiplicative ℤ)⁻¹
            * f.initial_ego_pose) := by
  refine ⟨by decide, ?_⟩
  intro kv hkv e he
  obtain ⟨f, hf, -, -, hid, h4, -⟩ := getOptimizedTrajs_attitude exampleAccess
    { exampleSolveEngine with used_frames := [1, 2] } (fun _ _ => rfl) (fun _ _ => rfl)
    kv hkv e he
  exact ⟨f, hf, hid, (h4 rfl).1⟩

theorem mem_setInsert_self {κ : Type} [LinearOrder κ] (k : κ) (l : List κ) :
    k ∈ setInsert k l := by
  induction l with
  | nil => simp [setInsert]
  | cons k0 rest ih =>
      unfold setInsert
      split_ifs with h1 h2
      · exact List.mem_cons_self _ _
      · rw [h2]; exact List.mem_cons_self _ _
      · exact List.mem_cons_of_mem _ ih

theorem mem_setInsert_of_mem {κ : Type} [LinearOrder κ] (k x : κ) (l : List κ)
    (h : x ∈ l) : x ∈ setInsert k l := by
  induction l with
  | nil => cases h
  | cons k0 rest ih =>
      unfold setInsert
      split_ifs with h1 h2
      · exact List.mem_cons_of_mem _ h
      · exact h
      · rcases List.mem_cons.mp h with h | h
        · rw [h]; exact List.mem_cons_self _ _
        · exact List.mem_cons_of_mem _ (ih h)

/-- The factor set-up of `solve` keeps every id of `used_frames`, and every id it adds is an
endpoint of a residual it registers. -/
theorem solveSetup_used_frames (ext : External K P) (self : D2PGO K P)
    (acc : FactorState K P) (h : solveSetup ext self = some acc) :
    (∀ x ∈ self.used_frames, x ∈ acc.used_frames) ∧
    (∀ x ∈ acc.used_frames, x ∈ self.used_frames
      ∨ ∃ r ∈ acc.solver.residuals, r.frame_ida = x ∨ r.frame_idb = x) := by
  obtain ⟨solver0, hs0, -⟩ := solveSolver_spec self
  have hloopstep : ∀ (a : FactorState K P) (l : LoopEdge K P),
      ((∀ x ∈ self.used_frames, x ∈ a.used_frames) ∧
        (∀ x ∈ a.used_frames, x ∈ self.used_frames
          ∨ ∃ r ∈ a.solver.residuals, r.frame_ida = x ∨ r.frame_idb = x)) →
      ((∀ x ∈ self.used_frames, x ∈ (setupLoopFactor self.config self.state a l).used_frames) ∧
        (∀ x ∈ (setupLoopFactor self.config self.state a l).used_frames,
          x ∈ self.used_frames
          ∨ ∃ r ∈ (setupLoopFactor self.config self.state a l).solver.residuals,
              r.frame_ida = x ∨ r.frame_idb = x)) := by
    intro a l hinv
    unfold setupLoopFactor
    split_ifs with hcheck
    · refine ⟨fun x hx => mem_setInsert_of_mem _ _ _ (mem_setInsert_of_mem _ _ _ (hinv.1 x hx)),
        fun x hx => ?_⟩
      simp only [SolverWrapper.addResidual]
      rcases mem_setInsert _ _ _ hx with hb | hx
      · exact Or.inr ⟨_, List.mem_append_right _ (List.mem_singleton_self _), Or.inr hb.symm⟩
      · rcases mem_setInsert _ _ _ hx with ha | hx
        · exact Or.inr ⟨_, List.mem_append_right _ (List.mem_singleton_self _),
            Or.inl ha.symm⟩
        · rcases hinv.2 x hx with h | ⟨r, hr, hrx⟩
          · exact Or.inl h
          · exact Or.inr ⟨r, List.mem_append_left _ hr, hrx⟩
    · exact hinv
  have hegostep : ∀ (a : FactorState K P) (frame_a frame_b : D2BaseFrame K P),
      frame_a ∈ self.state.frames → frame_b ∈ self.state.frames →
      ((∀ x ∈ self.used_frames, x ∈ a.used_frames) ∧
        (∀ x ∈ a.used_frames, x ∈ self.used_frames
          ∨ ∃ r ∈ a.solver.residuals, r.frame_ida = x ∨ r.frame_idb = x)) →
      ((∀ x ∈ self.used_frames,
          x ∈ (setupEgoMotionFactor ext self.config a frame_a frame_b).used_frames) ∧
        (∀ x ∈ (setupEgoMotionFactor ext self.config a frame_a frame_b).used_frames,
          x ∈ self.used_frames
          ∨ ∃ r ∈ (setupEgoMotionFactor ext self.config a frame_a frame_b).solver.residuals,
              r.frame_ida = x ∨ r.frame_idb = x)) := by
    intro a frame_a frame_b _ _ hinv
    refine ⟨fun x hx => mem_setInsert_of_mem _ _ _ (mem_setInsert_of_mem _ _ _ (hinv.1 x hx)),
      fun x hx => ?_⟩
    have hx1 : x = frame_b.frame_id ∨ x = frame_a.frame_id ∨ x ∈ a.used_frames := by
      rcases mem_setInsert _ _ _ hx with hb | hx
      · exact Or.inl hb
      · exact Or.inr (mem_setInsert _ _ _ hx)
    unfold setupEgoMotionFactor
    simp only [SolverWrapper.addResidual]
    cases hdof : self.config.pgo_pose_dof with
    | PGO_POSE_4D =>
        simp only [if_true]
        rcases hx1 with hb | ha | hx
        · exact Or.inr ⟨_, List.mem_append_right _ (List.mem_singleton_self _), Or.inr hb.symm⟩
        · exact Or.inr ⟨_, List.mem_append_right _ (List.mem_singleton_self _), Or.inl ha.symm⟩
        · rcases hinv.2 x hx with h | ⟨r, hr, hrx⟩
          · exact Or.inl h
          · exact Or.inr ⟨r, List.mem_append_left _ hr, hrx⟩
    | PGO_POSE_6D =>
        simp only [reduceCtorEq, if_false, if_true]
        rcases hx1 with hb | ha | hx
        · exact Or.inr ⟨_, List.mem_append_right _ (List.mem_singleton_self _), Or.inr hb.symm⟩
        · exact Or.inr ⟨_, List.mem_append_right _ (List.mem_singleton_self _), Or.inl ha.symm⟩
        · rcases hinv.2 x hx with h | ⟨r, hr, hrx⟩
          · exact Or.inl h
          · exact Or.inr ⟨r, List.mem_append_left _ hr, hrx⟩
  have hloops : ∀ loops : List (LoopEdge K P),
      ((∀ x ∈ self.used_frames, x ∈ (setupLoopFactors self.config self.state
          { solver := solver0, used_frames := self.used_frames, used_loops := [],
            used_loops_count := self.used_loops_count } loops).used_frames) ∧
        (∀ x ∈ (setupLoopFactors self.config self.state
          { solver := solver0, used_frames := self.used_frames, used_loops := [],
            used_loops_count := self.used_loops_count } loops).used_frames,
          x ∈ self.used_frames
          ∨ ∃ r ∈ (setupLoopFactors self.config self.state
              { solver := solver0, used_frames := self.used_frames, used_loops := [],
                used_loops_count := self.used_loops_count } loops).solver.residuals,
              r.frame_ida = x ∨ r.frame_idb = x)) := by
    intro loops
    exact setupLoopFactors_invariant self.config self.state
      (fun a => (∀ x ∈ self.used_frames, x ∈ a.used_frames) ∧
        (∀ x ∈ a.used_frames, x ∈ self.used_frames
          ∨ ∃ r ∈ a.solver.residuals, r.frame_ida = x ∨ r.frame_idb = x))
      hloopstep _ loops ⟨fun x hx => hx, fun x hx => Or.inl hx⟩
  have hlf : (∀ x ∈ self.used_frames, x ∈ (solveLoopFactors ext self solver0).used_frames) ∧
      (∀ x ∈ (solveLoopFactors ext self solver0).used_frames, x ∈ self.used_frames
        ∨ ∃ r ∈ (solveLoopFactors ext self solver0).solver.residuals,
            r.frame_ida = x ∨ r.frame_idb = x) := by
    unfold solveLoopFactors
    simp only []
    split_ifs
    · exact hloops _
    · exact hloops _
  unfold solveSetup at h
  rw [hs0] at h
  simp only [] at h
  split_ifs at h
  · exact setupEgoMotionFactors_invariant ext _ _ _
      (fun a => (∀ x ∈ self.used_frames, x ∈ a.used_frames) ∧
        (∀ x ∈ a.used_frames, x ∈ self.used_frames
          ∨ ∃ r ∈ a.solver.residuals, r.frame_ida = x ∨ r.frame_idb = x))
      hegostep _ acc h hlf
  · cases h
    exact hlf

/-- A call of `solve` keeps every id of `used_frames`, and every id it adds is an endpoint
of a residual registered by the call. -/
theorem solve_used_frames (ext : External K P) (self next : D2PGO K P)
    (force_solve ret : Bool) (h : solve ext self force_solve = some (ret, next)) :
    (∀ x ∈ self.used_frames, x ∈ next.used_frames) ∧
    (∀ x ∈ next.used_frames, x ∈ self.used_frames
      ∨ ∃ r ∈ solveRegistered ext self force_solve, r.frame_ida = x ∨ r.frame_idb = x) ∧
    (self.solve_count ≤ next.solve_count) ∧
    (next.solve_count = 0 → next.used_frames = self.used_frames) := by
  rcases solve_result ext self next force_solve ret h with ⟨-, hnext, -⟩ | ⟨hguard, acc, hs, hrun⟩
  · subst hnext
    exact ⟨fun x hx => hx, fun x hx => Or.inl hx, le_refl _, fun _ => rfl⟩
  · obtain ⟨-, -, -, -, -, -, hused, -, hcount⟩ := solveRun_result ext self next acc ret hrun
    obtain ⟨h1, h2⟩ := solveSetup_used_frames ext self acc hs
    have hreg : solveRegistered ext self force_solve = acc.solver.residuals := by
      unfold solveRegistered
      rw [hguard, hs]
      simp
    rw [hused, hreg, hcount]
    exact ⟨h1, h2, by omega, fun h0 => by omega⟩

theorem addFrame_used_frames (self : D2PGO K P) (frame : D2BaseFrame K P) :
    (addFrame self frame).used_frames = self.used_frames ∧
    (addFrame self frame).solve_count = self.solve_count := ⟨rfl, rfl⟩

theorem addLoop_used_frames (ext : External K P) (self : D2PGO K P)
    (loop_info : LoopEdge K P) (add_state_by_loop : Bool) :
    (addLoop ext self loop_info add_state_by_loop).used_frames = self.used_frames ∧
    (addLoop ext self loop_info add_state_by_loop).solve_count = self.solve_count := by
  unfold addLoop
  by_cases hacc : ext.posNorm loop_info.relative_pose > self.config.loop_distance_threshold
  · rw [if_pos hacc]
    exact ⟨rfl, rfl⟩
  · rw [if_neg hacc]
    simp only []
    split_ifs
    · split <;> exact ⟨rfl, rfl⟩
    · split <;> exact ⟨rfl, rfl⟩
    · exact ⟨rfl, rfl⟩
    · exact ⟨rfl, rfl⟩

/-- In every reachable state, each id of `used_frames` is an endpoint of a residual that
some call of `solve` registered, and `used_frames` is empty as long as no call of `solve`
has run. -/
theorem reachableWith_used_frames (ext : External K P) (self : D2PGO K P)
    (registered : List (RelPoseResInfo K P)) (h : ReachableWith ext self registered) :
    (∀ x ∈ self.used_frames, ∃ r ∈ registered, r.frame_ida = x ∨ r.frame_idb = x) ∧
    (self.solve_count = 0 → self.used_frames = []) := by
  induction h with
  | init self hinit =>
      obtain ⟨-, -, -, -, hused, -, -, -⟩ := hinit
      rw [hused]
      exact ⟨fun x hx => absurd hx (List.not_mem_nil x), fun _ => rfl⟩
  | addFrame self registered frame _ ih =>
      rw [(addFrame_used_frames self frame).1, (addFrame_used_frames self frame).2]
      exact ih
  | addLoop self registered loop_info add_state_by_loop _ ih =>
      rw [(addLoop_used_frames ext self loop_info add_state_by_loop).1,
        (addLoop_used_frames ext self loop_info add_state_by_loop).2]
      exact ih
  | solve self next registered force_solve ret _ hsolve ih =>
      obtain ⟨-, h2, h3, h4⟩ := solve_used_frames ext self next force_solve ret hsolve
      refine ⟨fun x hx => ?_, fun h0 => ?_⟩
      · rcases h2 x hx with h | ⟨r, hr, hrx⟩
        · obtain ⟨r, hr, hrx⟩ := ih.1 x h
          exact ⟨r, List.mem_append_left _ hr, hrx⟩
        · exact ⟨r, List.mem_append_right _ hr, hrx⟩
      · rw [h4 h0]
        exact ih.2 (by omega)

/-- The states of `Reachable` are the states of `ReachableWith`. -/
theorem reachable_iff_reachableWith (ext : External K P) (self : D2PGO K P) :
    Reachable ext self ↔ ∃ registered, ReachableWith ext self registered := by
  constructor
  · intro h
    induction h with
    | init self hinit => exact ⟨[], ReachableWith.init self hinit⟩
    | addFrame self frame _ ih =>
        obtain ⟨reg, hreg⟩ := ih
        exact ⟨reg, ReachableWith.addFrame self reg frame hreg⟩
    | addLoop self loop_info add_state_by_loop _ ih =>
        obtain ⟨reg, hreg⟩ := ih
        exact ⟨reg, ReachableWith.addLoop self reg loop_info add_state_by_loop hreg⟩
    | solve self next force_solve ret _ hsolve ih =>
        obtain ⟨reg, hreg⟩ := ih
        exact ⟨_, ReachableWith.solve self next reg force_solve ret hreg hsolve⟩
  · rintro ⟨reg, h⟩
    induction h with
    | init self hinit => exact Reachable.init self hinit
    | addFrame self registered frame _ ih => exact Reachable.addFrame self frame ih
    | addLoop self registered loop_info add_state_by_loop _ ih =>
        exact Reachable.addLoop self loop_info add_state_by_loop ih
    | solve self next registered force_solve ret _ hsolve ih =>
        exact Reachable.solve self next force_solve ret ih hsolve

/-- The loop over the frames of one agent in `getOptimizedTrajs` appends, to the trajectory
of that agent, the used frames in their order, and leaves the other trajectories alone. -/
theorem getOptimizedTrajs_frames {Q V : Type} [Group Q] (access : PoseAccess P Q V)
    (self : D2PGO K P) (d : Int) :
    ∀ (frames : List (D2BaseFrame K P)) (trajs : List (Int × DroneTrajectory K P))
      (t : DroneTrajectory K P), mapAt d trajs = some t →
      mapAt d (frames.foldl
          (fun trajs frame =>
            if frame.frame_id ∉ self.used_frames then trajs
            else
              mapModify d
                (fun traj =>
                  traj.push frame.stamp (optimizedPose access self.config frame) frame.frame_id)
                trajs)
          trajs)
        = some { t with entries := (t.entries
            ++ (frames.filter (fun f => decide (f.frame_id ∈ self.used_frames))).map
                (fun f => (f.stamp, optimizedPose access self.config f, f.frame_id))) }
      ∧ ∀ d1, d1 ≠ d →
        mapAt d1 (frames.foldl
          (fun trajs frame =>
            if frame.frame_id ∉ self.used_frames then trajs
            else
              mapModify d
                (fun traj =>
                  traj.push frame.stamp (optimizedPose access self.config frame) frame.frame_id)
                trajs)
          trajs) = mapAt d1 trajs := by
  intro frames
  induction frames with
  | nil =>
      intro trajs t ht
      simp [ht]
  | cons f rest ih =>
      intro trajs t ht
      rw [List.foldl_cons]
      by_cases hused : f.frame_id ∈ self.used_frames
      · rw [if_neg (not_not.mpr hused)]
        obtain ⟨h1, h2⟩ := ih _ _ (mapAt_mapModify_same d _ trajs t ht)
        refine ⟨?_, fun d1 hd1 => ?_⟩
        · rw [h1, List.filter_cons_of_pos (by simpa using hused)]
          simp [DroneTrajectory.push]
        · rw [h2 d1 hd1, mapAt_mapModify_ne d d1 _ trajs hd1]
      · rw [if_pos hused]
        obtain ⟨h1, h2⟩ := ih trajs t ht
        refine ⟨?_, h2⟩
        rw [h1, List.filter_cons_of_neg (by simpa using hused)]

/-- The loop over the agents in `getOptimizedTrajs`: an agent of the list gets the trajectory
of its used frames, the others keep what they had. -/
theorem getOptimizedTrajs_agents {Q V : Type} [Group Q] (access : PoseAccess P Q V)
    (self : D2PGO K P) :
    ∀ (drones : List Int) (trajs0 : List (Int × DroneTrajectory K P)) (d : Int),
      mapAt d (drones.foldl
        (fun trajs drone_id =>
          let trajs := mapInsert drone_id
            { drone_id := drone_id, is_ego_motion := false, entries := [] } trajs
          (self.state.getFrames drone_id).foldl
            (fun trajs frame =>
              if frame.frame_id ∉ self.used_frames then trajs
              else
                mapModify drone_id
                  (fun traj =>
                    traj.push frame.stamp (optimizedPose access self.config frame)
                      frame.frame_id)
                  trajs)
            trajs)
        trajs0)
      = if d ∈ drones then
          some { drone_id := d, is_ego_motion := false,
                 entries := (((self.state.getFrames d).filter
                    (fun f => decide (f.frame_id ∈ self.used_frames))).map
                    (fun f => (f.stamp, optimizedPose access self.config f, f.frame_id))) }
        else mapAt d trajs0 := by
  intro drones
  induction drones with
  | nil => intro trajs0 d; simp
  | cons d0 rest ih =>
      intro trajs0 d
      rw [List.foldl_cons, ih]
      by_cases hrest : d ∈ rest
      · rw [if_pos hrest, if_pos (List.mem_cons_of_mem _ hrest)]
      · rw [if_neg hrest]
        obtain ⟨h1, h2⟩ := getOptimizedTrajs_frames access self d0 (self.state.getFrames d0)
          (mapInsert d0 { drone_id := d0, is_ego_motion := false, entries := [] } trajs0)
          { drone_id := d0, is_ego_motion := false, entries := [] }
          (mapAt_mapInsert_same d0 _ trajs0)
        by_cases hd : d = d0
        · subst hd
          rw [if_pos (List.mem_cons_self _ _)]
          simp only []
          rw [h1]
          simp
        · rw [if_neg (by simp [hd, hrest])]
          simp only []
          rw [h2 d hd, mapAt_mapInsert_ne d0 d _ trajs0 hd]

/-- What `getOptimizedTrajs` returns, as a lookup: every available agent has the trajectory
of its used frames in GraphState order, and no other agent has a trajectory. -/
theorem getOptimizedTrajs_lookup {Q V : Type} [Group Q] (access : PoseAccess P Q V)
    (self : D2PGO K P) (d : Int) :
    mapAt d (getOptimizedTrajs access self)
      = if d ∈ self.state.availableDrones then
          some { drone_id := d, is_ego_motion := false,
                 entries := (((self.state.getFrames d).filter
                    (fun f => decide (f.frame_id ∈ self.used_frames))).map
                    (fun f => (f.stamp, optimizedPose access self.config f, f.frame_id))) }
        else none := by
  unfold getOptimizedTrajs
  rw [getOptimizedTrajs_agents access self self.state.availableDrones [] d]
  rfl

/-- C22. `used_frames` only grows: `addFrame` and `addLoop` leave it alone and a call of
`solve` keeps every id it held. `getOptimizedTrajs` returns, for every available agent, the
trajectory made of exactly the agent's frames whose id is in `used_frames`, in GraphState
order, and no trajectory for any other agent. In every state reached from a new engine:
as long as no call of `solve` has run (`solve_count = 0`) every returned trajectory is
empty, and every returned frame is in `used_frames` and is an endpoint of a residual that
some call of `solve` registered. -/
theorem getOptimizedTrajs_used_frames {Q V : Type} [Group Q] (ext : External K P)
    (access : PoseAccess P Q V) (self : D2PGO K P) :
    (∀ frame, (addFrame self frame).used_frames = self.used_frames) ∧
    (∀ loop_info add_state_by_loop,
      (addLoop ext self loop_info add_state_by_loop).used_frames = self.used_frames) ∧
    (∀ force_solve ret next, solve ext self force_solve = some (ret, next) →
      ∀ x ∈ self.used_frames, x ∈ next.used_frames) ∧
    (∀ d, mapAt d (getOptimizedTrajs access self)
      = if d ∈ self.state.availableDrones then
          some { drone_id := d, is_ego_motion := false,
                 entries := (((self.state.getFrames d).filter
                    (fun f => decide (f.frame_id ∈ self.used_frames))).map
                    (fun f => (f.stamp, optimizedPose access self.config f, f.frame_id))) }
        else none) ∧
    (∀ registered, ReachableWith ext self registered →
      (self.solve_count = 0 → ∀ kv ∈ getOptimizedTrajs access self, kv.2.entries = []) ∧
      (∀ kv ∈ getOptimizedTrajs access self, ∀ e ∈ kv.2.entries,
        e.2.2 ∈ self.used_frames
          ∧ ∃ r ∈ registered, r.frame_ida = e.2.2 ∨ r.frame_idb = e.2.2)) := by
  refine ⟨fun frame => (addFrame_used_frames self frame).1,
    fun loop_info add_state_by_loop =>
      (addLoop_used_frames ext self loop_info add_state_by_loop).1,
    fun force_solve ret next h => (solve_used_frames ext self next force_solve ret h).1,
    getOptimizedTrajs_lookup access self, fun registered hreach => ?_⟩
  obtain ⟨hreg, hzero⟩ := reachableWith_used_frames ext self registered hreach
  have hentries := getOptimizedTrajs_entries access self
  refine ⟨fun h0 kv hkv => ?_, fun kv hkv e he => ?_⟩
  · apply List.eq_nil_iff_forall_not_mem.mpr
    intro e he
    obtain ⟨f, -, hf, -⟩ := hentries kv hkv e he
    rw [hzero h0] at hf
    exact List.not_mem_nil _ hf
  · obtain ⟨f, -, hf, rfl⟩ := hentries kv hkv e he
    exact ⟨hf, hreg _ hf⟩

/-- Witness of C22: the example engine built by three calls of `addFrame` (frames 1 and 2 of
agent 0, frame 3 of agent 1), then a forced `solve`. Before the solve both trajectories are
empty. The solve returns and registers the ego-motion edge from 1 to 2; afterwards
`used_frames` is `{1, 2}`, agent 0 gets frames 1 and 2 and agent 1, whose frame 3 is an
endpoint of no residual, gets none. -/
theorem getOptimizedTrajs_used_frames_witness :
    (getOptimizedTrajs exampleAccess exampleBuiltEngine).map
        (fun kv => (kv.1, kv.2.entries.map (fun e => e.2.2))) = [(0, []), (1, [])] ∧
    ∃ next, solve exampleExternal exampleBuiltEngine true = some (true, next) ∧
      ReachableWith exampleExternal next
        ([] ++ solveRegistered exampleExternal exampleBuiltEngine true) ∧
      (solveRegistered exampleExternal exampleBuiltEngine true).map
        (fun r => (r.frame_ida, r.frame_idb)) = [(1, 2)] ∧
      (∀ x ∈ exampleBuiltEngine.used_frames, x ∈ next.used_frames) ∧
      (∀ kv ∈ getOptimizedTrajs exampleAccess next, ∀ e ∈ kv.2.entries,
        e.2.2 ∈ next.used_frames
          ∧ ∃ r ∈ [] ++ solveRegistered exampleExternal exampleBuiltEngine true,
              r.frame_ida = e.2.2 ∨ r.frame_idb = e.2.2) ∧
      next.used_frames = [1, 2] ∧
      (getOptimizedTrajs exampleAccess next).map
        (fun kv => (kv.1, kv.2.entries.map (fun e => e.2.2))) = [(0, [1, 2]), (1, [])] := by
  have hbuilt : ReachableWith exampleExternal exampleBuiltEngine [] :=
    ReachableWith.addFrame _ _ _ (ReachableWith.addFrame _ _ _ (ReachableWith.addFrame _ _ _
      (ReachableWith.init (exampleEngine (exampleConfig false PGO_MODE.PGO_MODE_NON_DIST) 0 0 [])
        ⟨rfl, rfl, rfl, rfl, rfl, rfl, rfl, rfl⟩)))
  have hrun : (solve exampleExternal exampleBuiltEngine true).map
      (fun out => (out.1, out.2.used_frames,
        (getOptimizedTrajs exampleAccess out.2).map
          (fun kv => (kv.1, kv.2.entries.map (fun e => e.2.2)))))
      = some (true, [1, 2], [(0, [1, 2]), (1, [])]) := by rfl
  cases hsolve : solve exampleExternal exampleBuiltEngine true with
  | none => rw [hsolve] at hrun; cases hrun
  | some out =>
      obtain ⟨ret, next⟩ := out
      rw [hsolve] at hrun
      simp only [Option.map_some', Option.some.injEq, Prod.mk.injEq] at hrun
      obtain ⟨hret, hused, htrajs⟩ := hrun
      subst hret
      have hnext := ReachableWith.solve exampleBuiltEngine next [] true true hbuilt hsolve
      exact ⟨by rfl, next, rfl, hnext, by rfl,
        (getOptimizedTrajs_used_frames exampleExternal exampleAccess exampleBuiltEngine).2.2.1
          true true next hsolve,
        ((getOptimizedTrajs_used_frames exampleExternal exampleAccess next).2.2.2.2 _ hnext).2,
        hused, htrajs⟩

end EngineTheorems

end D2PGO
